import Mathlib

/-!
# Graphical segmentation tool (qCC/ccGraphicalSegmentationTool.cpp)

A shallow embedding of the contour builder and of the visibility classifier of
`ccGraphicalSegmentationTool`, followed by theorems about them.

Conventions of the embedding
* coordinates (`PointCoordinateType`, `double`) are rationals; the conversion of a re-centred
  projection to `PointCoordinateType` is a parameter of the camera snapshot, every other
  value is kept exact;
* the tool is a record of its member variables, every slot is a function on that record;
* widget calls (redraw, messages, mouse grabbing, button states) are left out, except the
  enabled state of the export action (`allowPolylineExport`) and the messages sent to
  `ccLog::Error`, which are appended to `errorLog`;
* a storage growth that can fail (`reserve`, `addPointIndex`) takes its outcome as an
  argument of the slot (`true` = the growth succeeded).
-/

set_option autoImplicit false

namespace CloudCompare

/-! ## Data model -/

/-- A 3D point (`CCVector3`, `CCVector3d`). -/
structure CCVector3 where
  x : ℚ
  y : ℚ
  z : ℚ
deriving DecidableEq

/-- A 2D point (`CCVector2`). -/
structure CCVector2 where
  x : ℚ
  y : ℚ
deriving DecidableEq

/-- Per-point visibility flag (`CCCoreLib::POINT_VISIBLE`, `CCCoreLib::POINT_HIDDEN`). -/
inductive Visibility where
  | POINT_VISIBLE
  | POINT_HIDDEN
deriving DecidableEq

open Visibility

/-- Camera snapshot (`ccGLCameraParameters`): the viewport and the projection
`project(P, Q2D, &inFrustum)`, which is supplied by the rendering context. The last field is
the conversion `static_cast<PointCoordinateType>` that the tool applies to a re-centred
projection: the type `PointCoordinateType` (single or double precision, a build option) is
not among the sources, so the rounding it performs is a parameter, carried by the snapshot
whose projections it converts. -/
structure ccGLCameraParameters where
  viewport : Fin 4 → ℤ
  project : CCVector3 → CCVector3 × Bool
  toPointCoordinateType : ℚ → ℚ

/-- What the tool reads from its associated window (`ccGLWindow`). -/
structure ccGLWindow where
  qtWidth : ℤ
  qtHeight : ℤ
  toCenteredGLCoordinates : ℤ → ℤ → ℚ × ℚ
  getGLCameraParameters : ccGLCameraParameters

/-- Modelled from the spec: the header ccGraphicalSegmentationTool.h with the
`ProcessStates` enumeration is not among the sources. The states are bit flags
(mode bits, `PAUSED`, `STARTED`, `RUNNING`), each one a distinct single bit. -/
def POLYLINE : ℕ := 1

/-- Modelled from the spec: rectangle mode bit of `ProcessStates` (header not among the sources). -/
def RECTANGLE : ℕ := 2

/-- Modelled from the spec: paused bit of `ProcessStates` (header not among the sources). -/
def PAUSED : ℕ := 32

/-- Modelled from the spec: started bit of `ProcessStates` (header not among the sources). -/
def STARTED : ℕ := 64

/-- Modelled from the spec: running bit of `ProcessStates` (header not among the sources). -/
def RUNNING : ℕ := 128

/-- The mask `~RUNNING` on the 32-bit unsigned `m_state`. -/
def notRUNNING : ℕ := 4294967295 - RUNNING

/-- Modelled from the spec: `ccPolyline` (a `ReferenceCloud` over `m_polyVertices` with a
closed flag) is not among the sources. The contour is an ordered sequence of references
into the vertex storage plus the boolean `closed`. -/
structure ccPolyline where
  indexes : List ℕ
  closed : Bool
deriving DecidableEq

namespace ccPolyline

/-- Modelled from the spec: `clear()` empties the contour; an emptied contour is open. -/
def clear (_p : ccPolyline) : ccPolyline := ⟨[], false⟩

/-- Number of vertices of the contour (`size()`). -/
def size (p : ccPolyline) : ℕ := p.indexes.length

/-- Modelled from the spec: `addPointIndex(first, last)` appends the references
`first, ..., last - 1`. -/
def addPointIndexRange (p : ccPolyline) (first last : ℕ) : ccPolyline :=
  { p with indexes := p.indexes ++ List.range' first (last - first) }

/-- Modelled from the spec: `addPointIndex(i)` appends one reference. -/
def addPointIndex (p : ccPolyline) (i : ℕ) : ccPolyline :=
  { p with indexes := p.indexes ++ [i] }

/-- Modelled from the spec: `resize(n)` keeps the first `n` references (new ones are 0). -/
def resize (p : ccPolyline) (n : ℕ) : ccPolyline :=
  { p with indexes := p.indexes.take n ++ List.replicate (n - p.indexes.length) 0 }

/-- The flag setter `setClosed(state)`. -/
def setClosed (p : ccPolyline) (state : Bool) : ccPolyline :=
  { p with closed := state }

end ccPolyline

/-- A registered point set: its points and its visibility table. -/
structure ccGenericPointCloud where
  points : List CCVector3
  visibilityArray : List Visibility
deriving DecidableEq

/-- Modelled from the spec: `resetVisibilityArray()` (not among the sources) allocates
one flag per point and restores every flag to `Visible`. -/
def ccGenericPointCloud.resetVisibilityArray (c : ccGenericPointCloud) : ccGenericPointCloud :=
  { c with visibilityArray := List.replicate c.points.length POINT_VISIBLE }

/-- The member variables of `ccGraphicalSegmentationTool`. -/
structure ccGraphicalSegmentationTool where
  m_associatedWin : Option ccGLWindow
  m_somethingHasChanged : Bool
  m_state : ℕ
  m_segmentationPoly : ccPolyline
  m_polyVertices : List CCVector3
  m_rectangularSelection : Bool
  m_deleteHiddenParts : Bool
  m_toSegment : List ccGenericPointCloud
  exportEnabled : Bool
  errorLog : List String

abbrev Tool := ccGraphicalSegmentationTool

/-- The origin, value of a vertex created by `resize`. -/
def zeroVector : CCVector3 := ⟨0, 0, 0⟩

/-- Modelled from the spec: `ccPointCloud::resize(n)` on the vertex storage (not among the
sources): keeps the first `n` vertices, new vertices are the origin. -/
def resizeVertices (vs : List CCVector3) (n : ℕ) : List CCVector3 :=
  vs.take n ++ List.replicate (n - vs.length) zeroVector

/-- The vertex sequence of the contour: `m_segmentationPoly->getPoint(i)` for
`i < m_segmentationPoly->size()`, a reference resolved in `m_polyVertices`. -/
def polyPoints (s : Tool) : List CCVector3 :=
  s.m_segmentationPoly.indexes.map (fun i => s.m_polyVertices.getD i zeroVector)

/-! ## Point-in-polygon test -/

/-- One step of the loop of `isPointInsidePoly`: edge from `A` (previous vertex) to `B`. -/
def crossingStep (P : CCVector2) (A B : CCVector3) (inside : Bool) : Bool :=
  if (B.y ≤ P.y ∧ P.y < A.y) ∨ (A.y ≤ P.y ∧ P.y < B.y) then
    let t := (P.x - B.x) * (A.y - B.y) - (A.x - B.x) * (P.y - B.y)
    let t := if A.y < B.y then -t else t
    if t < 0 then !inside else inside
  else inside

/-- Modelled from the spec: `CCCoreLib::ManualSegmentationTools::isPointInsidePoly` is not
among the sources. Standard ray-crossing (even-odd) test against the ordered vertex
sequence of the closed contour: every edge (previous vertex, vertex), the last one back to
the first vertex, that the horizontal ray from `P` crosses flips the answer. -/
def isPointInsidePoly (P : CCVector2) (polyVertices : List CCVector3) : Bool :=
  let vertCount := polyVertices.length
  if vertCount < 2 then false
  else
    ((List.range' 1 vertCount).foldl
      (fun (st : CCVector3 × Bool) i =>
        let B := polyVertices.getD (i % vertCount) zeroVector
        (B, crossingStep P st.1 B st.2))
      (polyVertices.getD 0 zeroVector, false)).2

/-! ## Slots of the tool -/

/-- Enabled state of the export action, `allowPolylineExport(state)`. -/
def allowPolylineExport (state : Bool) (s : Tool) : Tool :=
  { s with exportEnabled := state }

/-- The slot `pauseSegmentationMode(bool state)`. -/
def pauseSegmentationMode (state : Bool) (s : Tool) : Tool :=
  match s.m_associatedWin with
  | none => s
  | some _ =>
    if state then
      let s := { s with m_state := PAUSED }
      if s.m_polyVertices.length ≠ 0 then
        allowPolylineExport false
          { s with m_segmentationPoly := s.m_segmentationPoly.clear, m_polyVertices := [] }
      else s
    else
      { s with m_state := STARTED }

/-- The slot `reset()`. -/
def reset (s : Tool) : Tool :=
  if s.m_somethingHasChanged then
    { s with
      m_toSegment := s.m_toSegment.map ccGenericPointCloud.resetVisibilityArray,
      m_somethingHasChanged := false }
  else s

/-- The slot `start()`; the warning for a missing window and the result of
`ccOverlayDialog::start()` are not modelled. -/
def start (s : Tool) : Tool :=
  match s.m_associatedWin with
  | none => s
  | some _ =>
    let s := allowPolylineExport false
      { s with m_segmentationPoly := s.m_segmentationPoly.clear, m_polyVertices := [] }
    let s := pauseSegmentationMode false s
    let s := { s with m_somethingHasChanged := false }
    reset s

/-- The slot `updatePolyLine(x, y, buttons)`; `addPointIndexOk` is the outcome of
`addPointIndex(0, 4)`. -/
def updatePolyLine (x y : ℤ) (addPointIndexOk : Bool) (s : Tool) : Tool :=
  if s.m_state &&& RUNNING = 0 then s
  else
    match s.m_associatedWin with
    | none => s
    | some win =>
      let vertCount := s.m_polyVertices.length
      let pos2D := win.toCenteredGLCoordinates x y
      let P : CCVector3 := ⟨pos2D.1, pos2D.2, 0⟩
      if s.m_state &&& RECTANGLE ≠ 0 then
        let verts := if vertCount ≠ 4 then resizeVertices s.m_polyVertices 4 else s.m_polyVertices
        let A := verts.getD 0 zeroVector
        let verts := ((verts.set 1 ⟨A.x, P.y, 0⟩).set 2 P).set 3 ⟨P.x, A.y, 0⟩
        if vertCount ≠ 4 then
          let poly := s.m_segmentationPoly.clear
          if !addPointIndexOk then
            allowPolylineExport false
              { s with m_polyVertices := verts, m_segmentationPoly := poly,
                       errorLog := s.errorLog ++ ["Out of memory!"] }
          else
            { s with m_polyVertices := verts,
                     m_segmentationPoly := (poly.addPointIndexRange 0 4).setClosed true }
        else
          { s with m_polyVertices := verts }
      else if s.m_state &&& POLYLINE ≠ 0 then
        if vertCount < 2 then s
        else { s with m_polyVertices := s.m_polyVertices.set (vertCount - 1) P }
      else s

/-- The slot `addPointToPolyline(x, y)`. `ctrlModifier` is the state of the Ctrl key,
`reserveOk` and `addPointIndexOk` are the outcomes of `reserve` and `addPointIndex`.
The first argument bounds the depth of the recursive call of the mode-change branch
(the source asserts that branch is not taken; the model follows the code after it). -/
def addPointToPolylineAux :
    ℕ → ℤ → ℤ → Bool → Bool → Bool → Tool → Tool
  | 0, _, _, _, _, _, s => s
  | fuel + 1, x, y, ctrlModifier, reserveOk, addPointIndexOk, s =>
    if s.m_state &&& STARTED = 0 then s
    else
      match s.m_associatedWin with
      | none => s
      | some win =>
        if x < 0 ∨ y < 0 ∨ x ≥ win.qtWidth ∨ y ≥ win.qtHeight then s
        else
          let vertCount := s.m_polyVertices.length
          if s.m_rectangularSelection = true ∧ vertCount = 4 ∧ s.m_state &&& RUNNING ≠ 0 then s
          else
            let pos2D := win.toCenteredGLCoordinates x y
            let P : CCVector3 := ⟨pos2D.1, pos2D.2, 0⟩
            let ctrlKeyPressed := s.m_rectangularSelection || ctrlModifier
            if s.m_state &&& RUNNING = 0 ∨ vertCount = 0 ∨ ctrlKeyPressed = true then
              let state := (if ctrlKeyPressed then RECTANGLE else POLYLINE) ||| (STARTED ||| RUNNING)
              if !reserveOk then
                allowPolylineExport false
                  { s with m_state := state, m_polyVertices := [],
                           errorLog := s.errorLog ++ ["Out of memory!"] }
              else
                let poly := s.m_segmentationPoly.clear
                if !addPointIndexOk then
                  allowPolylineExport false
                    { s with m_state := state, m_polyVertices := [P, P],
                             m_segmentationPoly := poly,
                             errorLog := s.errorLog ++ ["Out of memory!"] }
                else
                  { s with m_state := state, m_polyVertices := [P, P],
                           m_segmentationPoly := poly.addPointIndexRange 0 2 }
            else
              if s.m_state &&& POLYLINE ≠ 0 then
                if !reserveOk then
                  allowPolylineExport false
                    { s with errorLog := s.errorLog ++ ["Out of memory!"] }
                else
                  let verts := s.m_polyVertices.set (vertCount - 1) P ++ [P]
                  if !addPointIndexOk then
                    { s with m_polyVertices := verts,
                             errorLog := s.errorLog ++ ["Out of memory!"] }
                  else
                    { s with m_polyVertices := verts,
                             m_segmentationPoly :=
                               (s.m_segmentationPoly.addPointIndex vertCount).setClosed true }
              else
                addPointToPolylineAux fuel x y ctrlModifier reserveOk addPointIndexOk
                  { s with m_state := s.m_state &&& notRUNNING }

/-- The slot `addPointToPolyline(x, y)`: the recursive call is entered with `RUNNING`
cleared and does not recurse again, so depth 2 is enough. -/
def addPointToPolyline (x y : ℤ) (ctrlModifier reserveOk addPointIndexOk : Bool) (s : Tool) : Tool :=
  addPointToPolylineAux 2 x y ctrlModifier reserveOk addPointIndexOk s

/-- The slot `closeRectangle()`. -/
def closeRectangle (s : Tool) : Tool :=
  if s.m_state &&& RECTANGLE = 0 ∨ s.m_state &&& RUNNING = 0 then s
  else
    let vertCount := s.m_segmentationPoly.size
    if vertCount < 4 then
      if s.m_rectangularSelection then s
      else
        let s := allowPolylineExport false
          { s with m_segmentationPoly := s.m_segmentationPoly.clear, m_polyVertices := [] }
        { s with m_state := s.m_state &&& notRUNNING }
    else
      let s := allowPolylineExport true s
      { s with m_state := s.m_state &&& notRUNNING }

/-- The slot `closePolyLine(int, int)`. -/
def closePolyLine (s : Tool) : Tool :=
  if s.m_state &&& POLYLINE = 0 ∨ s.m_state &&& RUNNING = 0 then s
  else
    let vertCount := s.m_segmentationPoly.size
    let s :=
      if vertCount < 4 then
        { s with m_segmentationPoly := s.m_segmentationPoly.clear, m_polyVertices := [] }
      else
        { s with m_segmentationPoly := (s.m_segmentationPoly.resize (vertCount - 1)).setClosed true }
    let s := { s with m_state := s.m_state &&& notRUNNING }
    allowPolylineExport (decide (s.m_segmentationPoly.size > 1)) s

/-- The frustum pre-check of `segment`: the loop over the contour vertices that clears
`polyInsideFrustum` at every vertex projecting out of the frustum. -/
def polyInsideFrustum (camera : ccGLCameraParameters) (poly : List CCVector3) : Bool :=
  (List.range poly.length).foldl
    (fun inside i =>
      if !(camera.project (poly.getD i zeroVector)).2 then false else inside)
    true

/-- Body of the loop of `segment` over the points of one cloud, at index `i`; the re-centred
projection is converted to `PointCoordinateType` before it is tested. -/
def segmentPoint (keepPointsInside : Bool) (camera : ccGLCameraParameters)
    (polyInside : Bool) (poly : List CCVector3) (points : List CCVector3)
    (visibilityArray : List Visibility) (i : ℕ) : List Visibility :=
  if visibilityArray[i]? = some POINT_VISIBLE then
    let P3D := points.getD i zeroVector
    let half_w : ℚ := (camera.viewport 2 : ℚ) / 2
    let half_h : ℚ := (camera.viewport 3 : ℚ) / 2
    let Q2D := (camera.project P3D).1
    let pointInFrustum := (camera.project P3D).2
    let pointInside :=
      if pointInFrustum || !polyInside then
        isPointInsidePoly ⟨camera.toPointCoordinateType (Q2D.x - half_w),
          camera.toPointCoordinateType (Q2D.y - half_h)⟩ poly
      else false
    visibilityArray.set i (if keepPointsInside != pointInside then POINT_HIDDEN else POINT_VISIBLE)
  else visibilityArray

/-- The loop of `segment` over the points of one cloud. -/
def segmentCloud (keepPointsInside : Bool) (camera : ccGLCameraParameters)
    (polyInside : Bool) (poly : List CCVector3) (cloud : ccGenericPointCloud) :
    ccGenericPointCloud :=
  { cloud with
    visibilityArray :=
      (List.range cloud.points.length).foldl
        (segmentPoint keepPointsInside camera polyInside poly cloud.points)
        cloud.visibilityArray }

/-- The slot `segment(bool keepPointsInside)`. -/
def segment (keepPointsInside : Bool) (s : Tool) : Tool :=
  match s.m_associatedWin with
  | none => s
  | some win =>
    if !s.m_segmentationPoly.closed then
      { s with errorLog := s.errorLog ++
          ["Define and/or close the segmentation polygon first! (right click to close)"] }
    else
      let camera := win.getGLCameraParameters
      let poly := polyPoints s
      let polyInside := polyInsideFrustum camera poly
      let clouds := s.m_toSegment.map (segmentCloud keepPointsInside camera polyInside poly)
      pauseSegmentationMode true
        { s with m_toSegment := clouds, m_somethingHasChanged := true }

/-- The slot `segmentIn()`. -/
def segmentIn (s : Tool) : Tool := segment true s

/-- The slot `segmentOut()`. -/
def segmentOut (s : Tool) : Tool := segment false s

/-- The slot `doSetPolylineSelection()`. -/
def doSetPolylineSelection (s : Tool) : Tool :=
  if !s.m_rectangularSelection then s
  else
    let s := { s with m_rectangularSelection := false }
    if s.m_state ≠ PAUSED then
      pauseSegmentationMode false (pauseSegmentationMode true s)
    else s

/-- The slot `doSetRectangularSelection()`. -/
def doSetRectangularSelection (s : Tool) : Tool :=
  if s.m_rectangularSelection then s
  else
    let s := { s with m_rectangularSelection := true }
    if s.m_state ≠ PAUSED then
      pauseSegmentationMode false (pauseSegmentationMode true s)
    else s

/-- The slot `doActionUseExistingPolyline()` once the user has picked, among the polylines
of the database, the one with vertex cloud `vertices`, references and closed flag `poly` and
display mode `mode3D`; the database lookup, the selection dialog and the optional change of
viewport are left out. `reserveVerticesOk` and `reservePolyOk` are the outcomes of the two
`reserve` calls (the second is not made when the first fails). -/
def doActionUseExistingPolyline (vertices : List CCVector3) (poly : ccPolyline) (mode3D : Bool)
    (reserveVerticesOk reservePolyOk : Bool) (s : Tool) : Tool :=
  match s.m_associatedWin with
  | none => s
  | some win =>
    let camera := win.getGLCameraParameters
    let half_w : ℚ := (camera.viewport 2 : ℚ) / 2
    let half_h : ℚ := (camera.viewport 3 : ℚ) / 2
    let s := doSetPolylineSelection s
    let s := allowPolylineExport false
      { s with m_segmentationPoly := s.m_segmentationPoly.clear, m_polyVertices := [] }
    if reserveVerticesOk && reservePolyOk then
      let verts := vertices.map (fun P =>
        if mode3D then
          (⟨camera.toPointCoordinateType ((camera.project P).1.x - half_w),
            camera.toPointCoordinateType ((camera.project P).1.y - half_h), 0⟩ : CCVector3)
        else P)
      let s := { s with m_polyVertices := verts,
                        m_segmentationPoly := ⟨poly.indexes, poly.closed⟩ }
      let s :=
        if poly.closed then
          let s := { s with m_state := s.m_state &&& notRUNNING }
          allowPolylineExport (decide (s.m_segmentationPoly.size > 1)) s
        else if vertices.length ≠ 0 then
          let s := pauseSegmentationMode false s
          let lastIndex := vertices.length - 1
          { s with
            m_polyVertices := s.m_polyVertices ++ [s.m_polyVertices.getD lastIndex zeroVector],
            m_segmentationPoly :=
              (s.m_segmentationPoly.addPointIndex (lastIndex + 1)).setClosed true,
            m_state := s.m_state ||| (POLYLINE ||| RUNNING) }
        else s
      { s with m_rectangularSelection := false }
    else
      { s with errorLog := s.errorLog ++ ["Not enough memory!"] }

/-! ## Vocabulary of the statements -/

/-- The point of index `i` of registered point set `c` carries the flag `v`. -/
def hasFlag (s : Tool) (c i : ℕ) (v : Visibility) : Prop :=
  ∃ cloud, s.m_toSegment[c]? = some cloud ∧ cloud.visibilityArray[i]? = some v

/-- Every vertex of the contour projects inside the frustum. -/
def allVerticesInFrustum (camera : ccGLCameraParameters) (poly : List CCVector3) : Prop :=
  ∀ v ∈ poly, (camera.project v).2 = true

instance (camera : ccGLCameraParameters) (poly : List CCVector3) :
    Decidable (allVerticesInFrustum camera poly) :=
  inferInstanceAs (Decidable (∀ v ∈ poly, (camera.project v).2 = true))

/-- The projection of a 3D point, re-centred by the half viewport size and converted to
`PointCoordinateType`: the 2D point that `segment` hands to the point-in-polygon test. -/
def recentredProjection (camera : ccGLCameraParameters) (P3D : CCVector3) : CCVector2 :=
  ⟨camera.toPointCoordinateType ((camera.project P3D).1.x - (camera.viewport 2 : ℚ) / 2),
   camera.toPointCoordinateType ((camera.project P3D).1.y - (camera.viewport 3 : ℚ) / 2)⟩

/-- The value `pointInside` as the specification words it: the point-in-polygon test of the
re-centred projection when the point projects in-frustum or when not all contour vertices
do, and false for an out-of-frustum point when all contour vertices project in-frustum. -/
def pointInsideSpec (camera : ccGLCameraParameters) (poly : List CCVector3)
    (P3D : CCVector3) : Bool :=
  if (camera.project P3D).2 = true ∨ ¬ allVerticesInFrustum camera poly then
    isPointInsidePoly (recentredProjection camera P3D) poly
  else false

/-- The contour is cleared: no vertex in the storage and no reference in the polyline. -/
def contourCleared (s : Tool) : Prop :=
  s.m_polyVertices = [] ∧ s.m_segmentationPoly.indexes = []

instance (s : Tool) : Decidable (contourCleared s) :=
  inferInstanceAs (Decidable (_ ∧ _))

/-- A run of calls of `segment`: before each call the environment may have changed the
camera, the contour and the builder state, but not the registered point sets. -/
inductive SegmentCalls : Tool → Tool → Prop
  | done (s : Tool) : SegmentCalls s s
  | call (keepPointsInside : Bool) (s env s' : Tool) :
      env.m_toSegment = s.m_toSegment →
      SegmentCalls (segment keepPointsInside env) s' → SegmentCalls s s'

/-! ### Convex contours -/

/-- Twice the signed area of the triangle `A B P`: positive when `P` lies to the left of
the directed line from `A` to `B`. -/
def cross2 (A B : CCVector3) (P : CCVector2) : ℚ :=
  (B.x - A.x) * (P.y - A.y) - (B.y - A.y) * (P.x - A.x)

/-- The screen position of a contour vertex. -/
def planar (V : CCVector3) : CCVector2 := ⟨V.x, V.y⟩

/-- Vertex `i` of a closed contour, indices taken cyclically. -/
def vertexAt (poly : List CCVector3) (i : ℕ) : CCVector3 :=
  poly.getD (i % poly.length) zeroVector

/-- The horizontal ray from `P` towards increasing x crosses the edge from `A` to `B`
(the lower end of the edge counts, the upper end does not). -/
def edgeCrossed (P : CCVector2) (A B : CCVector3) : Prop :=
  (A.y ≤ P.y ∧ P.y < B.y ∧ 0 < cross2 A B P) ∨ (B.y ≤ P.y ∧ P.y < A.y ∧ cross2 A B P < 0)

instance (P : CCVector2) (A B : CCVector3) : Decidable (edgeCrossed P A B) :=
  inferInstanceAs (Decidable (_ ∨ _))

/-- Number of edges among the first `k` of the closed contour that the ray from `P`
crosses. -/
def crossings (P : CCVector2) (poly : List CCVector3) : ℕ → ℕ
  | 0 => 0
  | k + 1 => crossings P poly k +
      (if edgeCrossed P (vertexAt poly k) (vertexAt poly (k + 1)) then 1 else 0)

/-- Position `t` along the edge from `A` to `B` (`0` at `A`, `1` at `B`) of its point of
height `y`; the edge is not horizontal. -/
def edgePos (A B : CCVector3) (y : ℚ) : ℚ := (y - A.y) / (B.y - A.y)

/-- Abscissa of the point of height `y` of the line through `A` and `B`. -/
def intercept (A B : CCVector3) (y : ℚ) : ℚ := A.x + edgePos A B y * (B.x - A.x)

/-- A strictly convex closed contour of orientation `σ` (`1`: counter-clockwise, `-1`:
clockwise): at least 3 vertices, and every vertex lies strictly on the inner side of every
edge it is not an end of. -/
def StrictlyConvex (σ : ℚ) (poly : List CCVector3) : Prop :=
  3 ≤ poly.length ∧
  ∀ i k, i < poly.length → k < poly.length → k ≠ i → k ≠ (i + 1) % poly.length →
    0 < σ * cross2 (vertexAt poly i) (vertexAt poly (i + 1)) (planar (vertexAt poly k))

/-- The point `P` is strictly inside the convex contour of orientation `σ`: strictly on the
inner side of every edge. -/
def StrictlyInside (σ : ℚ) (P : CCVector2) (poly : List CCVector3) : Prop :=
  ∀ i, i < poly.length → 0 < σ * cross2 (vertexAt poly i) (vertexAt poly (i + 1)) P

/-- The point `P` is strictly outside the convex contour of orientation `σ`: strictly on the
outer side of some edge. -/
def StrictlyOutside (σ : ℚ) (P : CCVector2) (poly : List CCVector3) : Prop :=
  ∃ i, i < poly.length ∧ σ * cross2 (vertexAt poly i) (vertexAt poly (i + 1)) P < 0

/-- The vertex `M` lies on the edge from `A` to `B`, at position `t` (`0` at `A`, `1` at `B`;
screen coordinates only): between the two ends or on one of them. -/
def OnEdge (A B M : CCVector3) (t : ℚ) : Prop :=
  0 ≤ t ∧ t ≤ 1 ∧ M.x = A.x + t * (B.x - A.x) ∧ M.y = A.y + t * (B.y - A.y)

/-- The contour `poly` with the vertex `M` placed before its vertex of index `j` (after the
last vertex when `j` is the length). -/
def withVertex (poly : List CCVector3) (j : ℕ) (M : CCVector3) : List CCVector3 :=
  poly.take j ++ M :: poly.drop j

/-- The closed contour `poly` is the closed contour `corners` with further vertices placed on
its edges: each one is put between two consecutive vertices (the last and the first are
consecutive), on the edge that joins them; it may repeat one of the two. -/
inductive Subdivides (corners : List CCVector3) : List CCVector3 → Prop
  | same : Subdivides corners corners
  | vertex (poly : List CCVector3) (j : ℕ) (M : CCVector3) (t : ℚ) :
      Subdivides corners poly → j ≤ poly.length →
      OnEdge (vertexAt poly (j + poly.length - 1)) (vertexAt poly j) M t →
      Subdivides corners (withVertex poly j M)

/-- A convex closed contour of orientation `σ` (`1`: counter-clockwise, `-1`: clockwise): a
strictly convex polygon, given by its corners, whose edges may carry further vertices
(aligned or repeated vertices are allowed). -/
def ConvexContour (σ : ℚ) (poly : List CCVector3) : Prop :=
  ∃ corners, StrictlyConvex σ corners ∧ Subdivides corners poly

/-- The point `P` is strictly inside the closed contour of orientation `σ`: strictly on the
inner side of every edge of non-zero length. -/
def InsideContour (σ : ℚ) (P : CCVector2) (poly : List CCVector3) : Prop :=
  ∀ i, i < poly.length → planar (vertexAt poly i) ≠ planar (vertexAt poly (i + 1)) →
    0 < σ * cross2 (vertexAt poly i) (vertexAt poly (i + 1)) P

/-! ### Contour builder -/

/-- The point of a pointer event at pixel `(x, y)`, relative to the screen centre. -/
def toPoint (win : ccGLWindow) (x y : ℤ) : CCVector3 :=
  ⟨(win.toCenteredGLCoordinates x y).1, (win.toCenteredGLCoordinates x y).2, 0⟩

/-- The pixel `(x, y)` lies inside the 3D view. -/
def insideView (win : ccGLWindow) (x y : ℤ) : Prop :=
  0 ≤ x ∧ 0 ≤ y ∧ x < win.qtWidth ∧ y < win.qtHeight

/-- The second click of a running 4-vertex rectangular selection, which
`addPointToPolyline` ignores. -/
def ignoredSecondClick (s : Tool) : Prop :=
  s.m_rectangularSelection = true ∧ s.m_polyVertices.length = 4 ∧ s.m_state &&& RUNNING ≠ 0

/-- A sequence of pointer moves `(x, y, addPointIndexOk)`, each with the outcome of the
growth it may attempt. -/
def updatePolyLines (moves : List (ℤ × ℤ × Bool)) (s : Tool) : Tool :=
  moves.foldl (fun s m => updatePolyLine m.1 m.2.1 m.2.2 s) s

/-- The rectangle with fixed corner `A` and moving corner `P`. -/
def rectangleOf (A P : CCVector3) : List CCVector3 :=
  [A, ⟨A.x, P.y, 0⟩, P, ⟨P.x, A.y, 0⟩]

/-- Builder state of a running rectangle with fixed corner `A` and moving corner `P`. -/
def RectangleDrawn (win : ccGLWindow) (A P : CCVector3) (s : Tool) : Prop :=
  s.m_associatedWin = some win ∧
  s.m_state = RECTANGLE ||| (STARTED ||| RUNNING) ∧
  s.m_polyVertices = rectangleOf A P ∧
  s.m_segmentationPoly = ⟨[0, 1, 2, 3], true⟩

/-- Builder state right after a rectangle was begun at `A`: the vertex storage holds `A`
twice (whether or not the two references could be added). -/
def RectangleBegun (win : ccGLWindow) (A : CCVector3) (s : Tool) : Prop :=
  s.m_associatedWin = some win ∧
  s.m_state = RECTANGLE ||| (STARTED ||| RUNNING) ∧
  s.m_polyVertices = [A, A]

/-- The contour-builder operations, each storage growth succeeding. -/
inductive BuilderOp where
  | addPointToPolyline (x y : ℤ) (ctrlModifier : Bool)
  | updatePolyLine (x y : ℤ)
  | closeRectangle
  | closePolyLine
  | pauseSegmentationMode (state : Bool)
  | doSetPolylineSelection
  | doSetRectangularSelection

/-- The effect of one contour-builder operation on the tool. -/
def BuilderOp.apply : BuilderOp → Tool → Tool
  | .addPointToPolyline x y ctrlModifier, s =>
      CloudCompare.addPointToPolyline x y ctrlModifier true true s
  | .updatePolyLine x y, s => CloudCompare.updatePolyLine x y true s
  | .closeRectangle, s => CloudCompare.closeRectangle s
  | .closePolyLine, s => CloudCompare.closePolyLine s
  | .pauseSegmentationMode state, s => CloudCompare.pauseSegmentationMode state s
  | .doSetPolylineSelection, s => CloudCompare.doSetPolylineSelection s
  | .doSetRectangularSelection, s => CloudCompare.doSetRectangularSelection s

/-- The states reachable from a successful `start()` (the tool is linked to a window)
through any sequence of contour-builder operations. -/
def ReachableByBuilder (s : Tool) : Prop :=
  ∃ (s0 : Tool) (ops : List BuilderOp),
    s0.m_associatedWin.isSome = true ∧ s = ops.foldl (fun t op => op.apply t) (start s0)

/-- A contour marked closed has at least 3 vertices. -/
def ClosedHasThree (s : Tool) : Prop :=
  s.m_segmentationPoly.closed = true → 3 ≤ s.m_segmentationPoly.size

/-- Invariant of the contour builder: the tool is linked to a window, a closed contour has
at least 3 vertices, and `m_state` takes one of six values, with the shape of the contour
known while a contour is being drawn and after a rectangle was finalized. -/
def BuilderInv (s : Tool) : Prop :=
  s.m_associatedWin.isSome = true ∧ ClosedHasThree s ∧
  (s.m_state = STARTED ∨ s.m_state = PAUSED ∨
   (s.m_state = RECTANGLE ||| (STARTED ||| RUNNING) ∧
     ((s.m_polyVertices.length = 2 ∧ s.m_segmentationPoly = ⟨[0, 1], false⟩) ∨
      (s.m_polyVertices.length = 4 ∧ s.m_segmentationPoly = ⟨[0, 1, 2, 3], true⟩))) ∨
   (s.m_state = RECTANGLE ||| STARTED ∧
     (s.m_segmentationPoly.size = 0 ∨ s.m_segmentationPoly.size = 4)) ∨
   (s.m_state = POLYLINE ||| (STARTED ||| RUNNING) ∧
     2 ≤ s.m_polyVertices.length ∧
     s.m_segmentationPoly.size = s.m_polyVertices.length) ∨
   s.m_state = POLYLINE ||| STARTED)

/-- Path condition of the mode-change branch of `addPointToPolyline(x, y)`, the branch
guarded by `assert(false)`: the tool is started and linked to a window, the click is inside
the view and is not the ignored second click of a rectangle, no new contour is to be
started, and the state has no `POLYLINE` bit. -/
def reachesModeChangeBranch (x y : ℤ) (ctrlModifier : Bool) (s : Tool) : Prop :=
  s.m_state &&& STARTED ≠ 0 ∧
  (∃ win, s.m_associatedWin = some win ∧ insideView win x y) ∧
  ¬ ignoredSecondClick s ∧
  ¬ (s.m_state &&& RUNNING = 0 ∨ s.m_polyVertices.length = 0 ∨
      (s.m_rectangularSelection || ctrlModifier) = true) ∧
  ¬ (s.m_state &&& POLYLINE ≠ 0)

/-- Button discipline of a sequence of contour-builder operations, `pressed` telling whether
the left button is down before the sequence: a click (`addPointToPolyline`) arrives only
while the button is up and takes it down, and `closeRectangle` (the `buttonReleased` signal)
takes it up again. -/
def ReleasedBetweenClicks : Bool → List BuilderOp → Prop
  | _, [] => True
  | pressed, .addPointToPolyline _ _ _ :: ops => pressed = false ∧ ReleasedBetweenClicks true ops
  | _, .closeRectangle :: ops => ReleasedBetweenClicks false ops
  | pressed, .updatePolyLine _ _ :: ops => ReleasedBetweenClicks pressed ops
  | pressed, .closePolyLine :: ops => ReleasedBetweenClicks pressed ops
  | pressed, .pauseSegmentationMode _ :: ops => ReleasedBetweenClicks pressed ops
  | pressed, .doSetPolylineSelection :: ops => ReleasedBetweenClicks pressed ops
  | pressed, .doSetRectangularSelection :: ops => ReleasedBetweenClicks pressed ops

/-- A rectangle begun with the modifier key (rectangular selection off) is running only while
the button that began it is still down. -/
def PendingRelease (pressed : Bool) (s : Tool) : Prop :=
  s.m_state = RECTANGLE ||| (STARTED ||| RUNNING) → s.m_rectangularSelection = false →
    pressed = true

/-! ### Sessions of the tool -/

/-- An entity of the database as `addEntity` inspects it (`ccHObject`). Entities are passed
by value: a point cloud carries its points and visibility table, `isMeshVertices` tells
whether it is the vertex set of its parent mesh or of one of its child meshes; a mesh carries
its associated cloud and its kind (`PRIMITIVE`, `SUB_MESH`), `mixedWithSelection` being the
outcome of the search, among the registered entities, for a sub-mesh or parent mesh over the
same cloud. -/
inductive ccHObject where
  | pointCloud (cloud : ccGenericPointCloud) (isMeshVertices : Bool) (children : List ccHObject)
  | mesh (associatedCloud : ccGenericPointCloud) (isPrimitive isSubMesh mixedWithSelection : Bool)
  | hierarchyObject (children : List ccHObject)
  | other

mutual
/-- The method `addEntity(entity)`: the tool after the call and the returned flag. The set
`m_toSegment` holds the registered entities through the cloud each one is segmented by (the
cloud itself, or the associated cloud of a mesh); every entity passed is a new object. -/
def addEntity : ccHObject → Tool → Tool × Bool
  | .pointCloud cloud isMeshVertices children, s =>
    if isMeshVertices then (s, false)
    else
      addEntities children
        { s with m_toSegment := s.m_toSegment ++ [cloud.resetVisibilityArray] }
  | .mesh associatedCloud isPrimitive isSubMesh mixedWithSelection, s =>
    if isPrimitive then (s, false)
    else if isSubMesh then (s, false)
    else if mixedWithSelection then (s, false)
    else
      ({ s with m_toSegment := s.m_toSegment ++ [associatedCloud.resetVisibilityArray] }, true)
  | .hierarchyObject children, s => addEntities children s
  | .other, s => (s, false)
/-- The loop `result |= addEntity(entity->getChild(i))` over the children of an entity. -/
def addEntities : List ccHObject → Tool → Tool × Bool
  | [], s => (s, false)
  | child :: children, s =>
    ((addEntities children (addEntity child s).1).1,
     (addEntity child s).2 || (addEntities children (addEntity child s).1).2)
end

/-- The tool as its constructor leaves it, linked to `win` (`linkWith`): no registered
entity, no change pending, state 0, empty contour, polygon selection, export disabled. -/
def constructedTool (win : Option ccGLWindow) : Tool where
  m_associatedWin := win
  m_somethingHasChanged := false
  m_state := 0
  m_segmentationPoly := ⟨[], false⟩
  m_polyVertices := []
  m_rectangularSelection := false
  m_deleteHiddenParts := false
  m_toSegment := []
  exportEnabled := false
  errorLog := []

/-- The operations of the tool, with the outcome of every storage growth. -/
inductive ToolOp where
  | addEntity (entity : ccHObject)
  | start
  | segmentIn
  | segmentOut
  | pauseSegmentationMode (state : Bool)
  | addPointToPolyline (x y : ℤ) (ctrlModifier reserveOk addPointIndexOk : Bool)
  | updatePolyLine (x y : ℤ) (addPointIndexOk : Bool)
  | closeRectangle
  | closePolyLine
  | doSetPolylineSelection
  | doSetRectangularSelection
  | reset

/-- The effect of one operation on the tool. -/
def ToolOp.apply : ToolOp → Tool → Tool
  | .addEntity entity, s => (CloudCompare.addEntity entity s).1
  | .start, s => CloudCompare.start s
  | .segmentIn, s => CloudCompare.segmentIn s
  | .segmentOut, s => CloudCompare.segmentOut s
  | .pauseSegmentationMode state, s => CloudCompare.pauseSegmentationMode state s
  | .addPointToPolyline x y ctrlModifier reserveOk addPointIndexOk, s =>
      CloudCompare.addPointToPolyline x y ctrlModifier reserveOk addPointIndexOk s
  | .updatePolyLine x y addPointIndexOk, s => CloudCompare.updatePolyLine x y addPointIndexOk s
  | .closeRectangle, s => CloudCompare.closeRectangle s
  | .closePolyLine, s => CloudCompare.closePolyLine s
  | .doSetPolylineSelection, s => CloudCompare.doSetPolylineSelection s
  | .doSetRectangularSelection, s => CloudCompare.doSetRectangularSelection s
  | .reset, s => CloudCompare.reset s

/-- The tool after a sequence of operations. -/
def runOps (ops : List ToolOp) (s : Tool) : Tool :=
  ops.foldl (fun t op => op.apply t) s

/-- Every visibility flag of every registered point set is Visible. -/
def AllVisible (s : Tool) : Prop :=
  ∀ cloud ∈ s.m_toSegment, ∀ v ∈ cloud.visibilityArray, v = POINT_VISIBLE

/-- Along the sequence of operations `ops` applied from `s`, `start()` is never called while
the change marker is set (a classification is pending). -/
def StartsClean : List ToolOp → Tool → Prop
  | [], _ => True
  | op :: ops, s =>
    (op = .start → s.m_somethingHasChanged = false) ∧ StartsClean ops (op.apply s)

/-- The change marker is set whenever some flag is not Visible. -/
def MarkerCoversHidden (s : Tool) : Prop :=
  s.m_somethingHasChanged = false → AllVisible s

/-! ## The classifier without the frustum short-circuit -/

/-- Loop body of the variant of `segment` that runs the point-in-polygon test for every
visible point, whether or not it projects in-frustum. -/
def segmentPointAllTested (keepPointsInside : Bool) (camera : ccGLCameraParameters)
    (poly : List CCVector3) (points : List CCVector3)
    (visibilityArray : List Visibility) (i : ℕ) : List Visibility :=
  if visibilityArray[i]? = some POINT_VISIBLE then
    let pointInside := isPointInsidePoly (recentredProjection camera (points.getD i zeroVector)) poly
    visibilityArray.set i (if keepPointsInside != pointInside then POINT_HIDDEN else POINT_VISIBLE)
  else visibilityArray

/-- The variant loop over the points of one cloud. -/
def segmentCloudAllTested (keepPointsInside : Bool) (camera : ccGLCameraParameters)
    (poly : List CCVector3) (cloud : ccGenericPointCloud) : ccGenericPointCloud :=
  { cloud with
    visibilityArray :=
      (List.range cloud.points.length).foldl
        (segmentPointAllTested keepPointsInside camera poly cloud.points)
        cloud.visibilityArray }

/-- The variant of `segment` without the short-circuit: every other step is that of
`segment`. -/
def segmentAllTested (keepPointsInside : Bool) (s : Tool) : Tool :=
  match s.m_associatedWin with
  | none => s
  | some win =>
    if !s.m_segmentationPoly.closed then
      { s with errorLog := s.errorLog ++
          ["Define and/or close the segmentation polygon first! (right click to close)"] }
    else
      let camera := win.getGLCameraParameters
      let poly := polyPoints s
      let clouds := s.m_toSegment.map (segmentCloudAllTested keepPointsInside camera poly)
      pauseSegmentationMode true
        { s with m_toSegment := clouds, m_somethingHasChanged := true }

/-- A point on which the short-circuit of `segment` replaces a positive test: it is Visible,
it projects out of the frustum, and its re-centred projection passes the point-in-polygon
test against the contour. -/
def shortCircuited (s : Tool) (camera : ccGLCameraParameters) (c i : ℕ) : Prop :=
  ∃ cloud, s.m_toSegment[c]? = some cloud ∧
    cloud.visibilityArray[i]? = some POINT_VISIBLE ∧
    ∃ h : i < cloud.points.length,
      (camera.project cloud.points[i]).2 = false ∧
      isPointInsidePoly (recentredProjection camera cloud.points[i]) (polyPoints s) = true

/-! ## Concrete inputs used by the examples -/

/-- An orthographic camera on a 400 x 300 viewport: a point projects to its own position
shifted to the viewport centre and is in-frustum when it is within the viewport and its
depth is within `[-1, 1]`; the coordinate type represents every value it is given exactly. -/
def orthoCamera : ccGLCameraParameters where
  viewport := fun i => if i = 2 then 400 else if i = 3 then 300 else 0
  project := fun P =>
    (⟨P.x + 200, P.y + 150, P.z⟩,
     decide (-200 ≤ P.x ∧ P.x ≤ 200 ∧ -150 ≤ P.y ∧ P.y ≤ 150 ∧ -1 ≤ P.z ∧ P.z ≤ 1))
  toPointCoordinateType := fun x => x

/-- A 400 x 300 window showing `orthoCamera`. -/
def demoWindow : ccGLWindow where
  qtWidth := 400
  qtHeight := 300
  toCenteredGLCoordinates := fun x y => ((x : ℚ) - 200, 150 - (y : ℚ))
  getGLCameraParameters := orthoCamera

/-- The square contour `[(-10,-10), (10,-10), (10,10), (-10,10)]`. -/
def squareVertices : List CCVector3 :=
  [⟨-10, -10, 0⟩, ⟨10, -10, 0⟩, ⟨10, 10, 0⟩, ⟨-10, 10, 0⟩]

/-- Four points, all visible: the origin, `(100, 100, 0)`, `(0, 0, 5)`, which projects to
the viewport centre but lies out of the frustum (depth 5), and `(-10, 0, 0)`, which projects
onto the left edge of the square contour. -/
def demoCloud : ccGenericPointCloud where
  points := [⟨0, 0, 0⟩, ⟨100, 100, 0⟩, ⟨0, 0, 5⟩, ⟨-10, 0, 0⟩]
  visibilityArray := [POINT_VISIBLE, POINT_VISIBLE, POINT_VISIBLE, POINT_VISIBLE]

/-- A tool holding the closed square contour (a finalized rectangle) and `demoCloud`. -/
def squareTool : Tool where
  m_associatedWin := some demoWindow
  m_somethingHasChanged := false
  m_state := RECTANGLE ||| STARTED
  m_segmentationPoly := ⟨[0, 1, 2, 3], true⟩
  m_polyVertices := squareVertices
  m_rectangularSelection := false
  m_deleteHiddenParts := false
  m_toSegment := [demoCloud]
  exportEnabled := true
  errorLog := []

/-- A tool that was never linked to a window: no contour, one registered point set. -/
def unlinkedTool : Tool where
  m_associatedWin := none
  m_somethingHasChanged := false
  m_state := 0
  m_segmentationPoly := ⟨[], false⟩
  m_polyVertices := []
  m_rectangularSelection := false
  m_deleteHiddenParts := false
  m_toSegment := [demoCloud]
  exportEnabled := false
  errorLog := []

/-- A tool right after `start()`: linked to `demoWindow`, state `STARTED`, empty contour,
polygon selection. -/
def freshTool : Tool where
  m_associatedWin := some demoWindow
  m_somethingHasChanged := false
  m_state := STARTED
  m_segmentationPoly := ⟨[], false⟩
  m_polyVertices := []
  m_rectangularSelection := false
  m_deleteHiddenParts := false
  m_toSegment := [demoCloud]
  exportEnabled := false
  errorLog := []

/-- A rectangle drawn on a started tool: Ctrl-click, one pointer move, button release. -/
def rectangleRun : List BuilderOp :=
  [.addPointToPolyline 10 20 true, .updatePolyLine 50 60, .closeRectangle]

/-- The message of `segment` for a contour that is not closed. -/
def notClosedMessage : String :=
  "Define and/or close the segmentation polygon first! (right click to close)"

/-- A closed triangle whose vertex storage was lost: three clicks in Polygon mode, a right
click that closes the contour, then a click whose `reserve(2)` fails. -/
def failedReserveTool : Tool :=
  addPointToPolyline 30 40 false false true
    (closePolyLine
      (addPointToPolyline 60 20 false true true
        (addPointToPolyline 50 60 false true true
          (addPointToPolyline 10 20 false true true freshTool))))

/-- The tool `squareTool` without any registered point set. -/
def emptySelectionTool : Tool := { squareTool with m_toSegment := [] }

/-- A polygon in progress: two clicks in Polygon mode on a started tool. -/
def twoClicksTool : Tool :=
  addPointToPolyline 30 40 false true true (addPointToPolyline 10 20 false true true freshTool)

/-- A rectangle just begun: a Ctrl-click on a started tool. -/
def rectangleBegunTool : Tool := addPointToPolyline 10 20 true true true freshTool

/-- A session up to a finalized rectangle: `demoCloud` is registered, the tool is started, and
a rectangle is drawn with the modifier key from pixel (190, 160) to pixel (210, 140). -/
def drawnRun : List ToolOp :=
  [.addEntity (.pointCloud demoCloud false []), .start,
   .addPointToPolyline 190 160 true true true, .updatePolyLine 210 140 true, .closeRectangle]

/-- The session `drawnRun` followed by `segmentIn`, which hides the points out of the
rectangle. -/
def segmentRun : List ToolOp := drawnRun ++ [.segmentIn]

/-- The session `segmentRun` followed by a second call of `start()`. -/
def restartRun : List ToolOp := segmentRun ++ [.start]

/-- The smaller square contour `[(-5,-5), (5,-5), (5,5), (-5,5)]`. -/
def smallSquareVertices : List CCVector3 :=
  [⟨-5, -5, 0⟩, ⟨5, -5, 0⟩, ⟨5, 5, 0⟩, ⟨-5, 5, 0⟩]

/-- The tool after `segmentIn` on the square, once the smaller square has been drawn as the
next contour: the visibility flags are those left by the first pass. -/
def redrawnTool : Tool :=
  { segmentIn squareTool with
    m_state := RECTANGLE ||| STARTED
    m_segmentationPoly := ⟨[0, 1, 2, 3], true⟩
    m_polyVertices := smallSquareVertices
    exportEnabled := true }

/-- A closed pentagon: `start()`, five clicks in Polygon mode, a right click. -/
def pentagonTool : Tool :=
  closePolyLine
    (addPointToPolyline 20 60 false true true
      (addPointToPolyline 50 90 false true true
        (addPointToPolyline 80 60 false true true
          (addPointToPolyline 70 20 false true true
            (addPointToPolyline 30 20 false true true (start freshTool))))))

/-- The closed pentagon after a Ctrl-click whose `reserve(2)` fails and the button release
that follows it. -/
def staleRectangleTool : Tool :=
  closeRectangle (addPointToPolyline 100 100 true false true pentagonTool)

/-- The square contour with one more vertex, `(10, 0)`, in the middle of its right edge, and
its corner `(-10, 10)` given twice. -/
def midEdgeVertices : List CCVector3 :=
  [⟨-10, -10, 0⟩, ⟨10, -10, 0⟩, ⟨10, 0, 0⟩, ⟨10, 10, 0⟩, ⟨-10, 10, 0⟩, ⟨-10, 10, 0⟩]

/-- A tool holding the closed contour `midEdgeVertices`, a polygon of six vertices, and
`demoCloud`. -/
def midEdgeTool : Tool where
  m_associatedWin := some demoWindow
  m_somethingHasChanged := false
  m_state := POLYLINE ||| STARTED
  m_segmentationPoly := ⟨[0, 1, 2, 3, 4, 5], true⟩
  m_polyVertices := midEdgeVertices
  m_rectangularSelection := false
  m_deleteHiddenParts := false
  m_toSegment := [demoCloud]
  exportEnabled := true
  errorLog := []

/-! ## Theorems -/

section PointInPolygon
/-- The loop body of the point-in-polygon test flips the answer exactly on a crossed edge. -/
lemma crossingStep_eq (P : CCVector2) (A B : CCVector3) (b : Bool) :
    crossingStep P A B b = if edgeCrossed P A B then !b else b := by
  have ht : (P.x - B.x) * (A.y - B.y) - (A.x - B.x) * (P.y - B.y) = cross2 A B P := by
    unfold cross2; ring
  unfold crossingStep edgeCrossed
  dsimp only
  rw [ht]
  by_cases hup : A.y ≤ P.y ∧ P.y < B.y
  · have hlt : A.y < B.y := lt_of_le_of_lt hup.1 hup.2
    have hnd : ¬ (B.y ≤ P.y ∧ P.y < A.y) := fun h => absurd (lt_of_le_of_lt h.1 h.2) (not_lt.mpr hlt.le)
    have hnd' : ¬ (B.y ≤ P.y ∧ P.y < A.y ∧ cross2 A B P < 0) := fun h => hnd ⟨h.1, h.2.1⟩
    simp only [hup, hnd, hnd', hlt, or_true, if_true, false_or, true_and, false_and,
      neg_neg_iff_pos, and_self, or_false]
  · by_cases hdown : B.y ≤ P.y ∧ P.y < A.y
    · have hlt : ¬ A.y < B.y := not_lt.mpr (lt_of_le_of_lt hdown.1 hdown.2).le
      simp only [hdown, hlt, true_or, if_true, if_false, true_and, and_self]
      have hnu : ¬ (A.y ≤ P.y ∧ P.y < B.y ∧ 0 < cross2 A B P) := fun h => hup ⟨h.1, h.2.1⟩
      simp only [hnu, false_or]
    · have h1 : ¬ (B.y ≤ P.y ∧ P.y < A.y ∨ A.y ≤ P.y ∧ P.y < B.y) := by
        rintro (h | h)
        · exact hdown h
        · exact hup h
      have h2 : ¬ (A.y ≤ P.y ∧ P.y < B.y ∧ 0 < cross2 A B P ∨
          B.y ≤ P.y ∧ P.y < A.y ∧ cross2 A B P < 0) := by
        rintro (h | h)
        · exact hup ⟨h.1, h.2.1⟩
        · exact hdown ⟨h.1, h.2.1⟩
      rw [if_neg h1, if_neg h2]

/-- The state of the loop of the point-in-polygon test after its first `k` edges. -/
lemma isPointInsidePoly_loop (P : CCVector2) (poly : List CCVector3) (k : ℕ) :
    (List.range' 1 k).foldl
      (fun (st : CCVector3 × Bool) i =>
        (poly.getD (i % poly.length) zeroVector,
          crossingStep P st.1 (poly.getD (i % poly.length) zeroVector) st.2))
      (vertexAt poly 0, false)
    = (vertexAt poly k, decide (crossings P poly k % 2 = 1)) := by
  induction k with
  | zero => simp [crossings]
  | succ k ih =>
    rw [List.range'_1_concat, List.foldl_append]
    simp only [List.foldl_cons, List.foldl_nil]
    rw [ih]
    dsimp only
    have hv : poly.getD ((1 + k) % poly.length) zeroVector = vertexAt poly (k + 1) := by
      unfold vertexAt; rw [Nat.add_comm]
    rw [hv, crossingStep_eq]
    congr 1
    have hs : crossings P poly (k + 1) = crossings P poly k +
        (if edgeCrossed P (vertexAt poly k) (vertexAt poly (k + 1)) then 1 else 0) := rfl
    rw [hs]
    by_cases hc : edgeCrossed P (vertexAt poly k) (vertexAt poly (k + 1))
    · simp only [hc, if_true]
      by_cases hp : crossings P poly k % 2 = 1
      · have hq : ¬ (crossings P poly k + 1) % 2 = 1 := by omega
        simp [hp, hq]
      · have hq : (crossings P poly k + 1) % 2 = 1 := by omega
        simp [hp, hq]
    · simp only [hc, if_false, Nat.add_zero]

/-- The point-in-polygon test answers whether the ray from `P` crosses an odd number of
edges of the closed contour. -/
lemma isPointInsidePoly_eq_odd (P : CCVector2) (poly : List CCVector3) (h2 : 2 ≤ poly.length) :
    isPointInsidePoly P poly = decide (crossings P poly poly.length % 2 = 1) := by
  unfold isPointInsidePoly
  have hlt : ¬ poly.length < 2 := by omega
  dsimp only
  rw [if_neg hlt]
  have h0 : poly.getD 0 zeroVector = vertexAt poly 0 := by
    unfold vertexAt; rw [Nat.zero_mod]
  rw [h0, isPointInsidePoly_loop]



/-- No crossed edge among the first `k`: the count is 0. -/
lemma crossings_zero (P : CCVector2) (poly : List CCVector3) (k : ℕ)
    (h : ∀ j, j < k → ¬ edgeCrossed P (vertexAt poly j) (vertexAt poly (j + 1))) :
    crossings P poly k = 0 := by
  induction k with
  | zero => rfl
  | succ k ih =>
    have hs : crossings P poly (k + 1) = crossings P poly k +
        (if edgeCrossed P (vertexAt poly k) (vertexAt poly (k + 1)) then 1 else 0) := rfl
    rw [hs, ih (fun j hj => h j (Nat.lt_succ_of_lt hj)), if_neg (h k (Nat.lt_succ_self k))]

/-- Exactly one crossed edge among the first `k`: the count is 1. -/
lemma crossings_one (P : CCVector2) (poly : List CCVector3) (k u : ℕ) (hu : u < k)
    (hcu : edgeCrossed P (vertexAt poly u) (vertexAt poly (u + 1)))
    (h : ∀ j, j < k → j ≠ u → ¬ edgeCrossed P (vertexAt poly j) (vertexAt poly (j + 1))) :
    crossings P poly k = 1 := by
  induction k with
  | zero => exact absurd hu (Nat.not_lt_zero u)
  | succ k ih =>
    have hs : crossings P poly (k + 1) = crossings P poly k +
        (if edgeCrossed P (vertexAt poly k) (vertexAt poly (k + 1)) then 1 else 0) := rfl
    rw [hs]
    by_cases hk : u = k
    · subst hk
      rw [crossings_zero P poly u (fun j hj => h j (Nat.lt_succ_of_lt hj) (Nat.ne_of_lt hj)),
        if_pos hcu]
    · have hlt : u < k := by omega
      rw [ih hlt (fun j hj hne => h j (Nat.lt_succ_of_lt hj) hne),
        if_neg (h k (Nat.lt_succ_self k) (fun e => hk e.symm))]

/-- Exactly two crossed edges among the first `k`: the count is 2. -/
lemma crossings_two (P : CCVector2) (poly : List CCVector3) (k u d : ℕ) (hu : u < k)
    (hd : d < k) (hne : u ≠ d)
    (hcu : edgeCrossed P (vertexAt poly u) (vertexAt poly (u + 1)))
    (hcd : edgeCrossed P (vertexAt poly d) (vertexAt poly (d + 1)))
    (h : ∀ j, j < k → j ≠ u → j ≠ d →
      ¬ edgeCrossed P (vertexAt poly j) (vertexAt poly (j + 1))) :
    crossings P poly k = 2 := by
  induction k with
  | zero => exact absurd hu (Nat.not_lt_zero u)
  | succ k ih =>
    have hs : crossings P poly (k + 1) = crossings P poly k +
        (if edgeCrossed P (vertexAt poly k) (vertexAt poly (k + 1)) then 1 else 0) := rfl
    rw [hs]
    by_cases hk : u = k
    · subst hk
      have hlt : d < u := by omega
      rw [crossings_one P poly u d hlt hcd
        (fun j hj hjd => h j (Nat.lt_succ_of_lt hj) (Nat.ne_of_lt hj) hjd), if_pos hcu]
    · by_cases hk' : d = k
      · subst hk'
        have hlt : u < d := by omega
        rw [crossings_one P poly d u hlt hcu
          (fun j hj hju => h j (Nat.lt_succ_of_lt hj) hju (Nat.ne_of_lt hj)), if_pos hcd]
      · have hlu : u < k := by omega
        have hld : d < k := by omega
        rw [ih hlu hld (fun j hj h1 h2 => h j (Nat.lt_succ_of_lt hj) h1 h2),
          if_neg (h k (Nat.lt_succ_self k) (fun e => hk e.symm) (fun e => hk' e.symm))]

/-- The side of a point with respect to an edge, read on the horizontal line through the
point: it is the signed distance to the point of the edge at that height. -/
lemma cross2_eq_intercept (A B : CCVector3) (Q : CCVector2) (hne : A.y ≠ B.y) :
    cross2 A B Q = (B.y - A.y) * (intercept A B Q.y - Q.x) := by
  have h : B.y - A.y ≠ 0 := sub_ne_zero.mpr (Ne.symm hne)
  unfold cross2 intercept edgePos
  field_simp
  ring

/-- The side function of an edge `C D` is affine along another edge `A B`. -/
lemma cross2_on_edge (C D A B : CCVector3) (y : ℚ) (hne : A.y ≠ B.y) :
    cross2 C D ⟨intercept A B y, y⟩ =
      (1 - edgePos A B y) * cross2 C D (planar A) + edgePos A B y * cross2 C D (planar B) := by
  have h : B.y - A.y ≠ 0 := sub_ne_zero.mpr (Ne.symm hne)
  unfold cross2 planar intercept edgePos
  field_simp
  ring

/-- On an edge going up through height `y`, the point of height `y` is not its upper end. -/
lemma edgePos_up (A B : CCVector3) (y : ℚ) (h1 : A.y ≤ y) (h2 : y < B.y) :
    0 ≤ edgePos A B y ∧ 0 < 1 - edgePos A B y := by
  have hd : 0 < B.y - A.y := by linarith
  unfold edgePos
  constructor
  · exact div_nonneg (by linarith) hd.le
  · rw [sub_pos, div_lt_one hd]
    linarith

/-- On an edge going down through height `y`, the point of height `y` is not its upper end. -/
lemma edgePos_down (A B : CCVector3) (y : ℚ) (h1 : B.y ≤ y) (h2 : y < A.y) :
    0 < edgePos A B y ∧ 0 ≤ 1 - edgePos A B y := by
  have hd : B.y - A.y < 0 := by linarith
  unfold edgePos
  constructor
  · exact div_pos_of_neg_of_neg (by linarith) hd
  · rw [sub_nonneg, div_le_one_of_neg hd]
    linarith

/-- Where two non-horizontal edges meet the line of height `y`, compared through the side
function of the second edge. -/
lemma intercept_compare (σ : ℚ) (C D A B : CCVector3) (y : ℚ) (hAB : A.y ≠ B.y)
    (hCD : C.y ≠ D.y) :
    (D.y - C.y) * (σ * (intercept C D y - intercept A B y)) =
      (1 - edgePos A B y) * (σ * cross2 C D (planar A)) +
        edgePos A B y * (σ * cross2 C D (planar B)) := by
  have e1 := cross2_on_edge C D A B y hAB
  have e2 := cross2_eq_intercept C D ⟨intercept A B y, y⟩ hCD
  dsimp only at e2
  rw [e2] at e1
  calc (D.y - C.y) * (σ * (intercept C D y - intercept A B y))
      = σ * ((D.y - C.y) * (intercept C D y - intercept A B y)) := by ring
    _ = σ * ((1 - edgePos A B y) * cross2 C D (planar A) +
          edgePos A B y * cross2 C D (planar B)) := by rw [e1]
    _ = _ := by ring

/-- The side function of an edge is affine along a horizontal line. -/
lemma cross2_between (C D : CCVector3) (x1 x2 p y : ℚ) :
    cross2 C D ⟨p, y⟩ * (x2 - x1) =
      cross2 C D ⟨x1, y⟩ * (x2 - p) + cross2 C D ⟨x2, y⟩ * (p - x1) := by
  unfold cross2
  ring

/-- An end of an edge lies on the line of the edge. -/
lemma cross2_self_left (A B : CCVector3) : cross2 A B (planar A) = 0 := by
  unfold cross2 planar; ring

/-- The other end of an edge lies on the line of the edge. -/
lemma cross2_self_right (A B : CCVector3) : cross2 A B (planar B) = 0 := by
  unfold cross2 planar; ring

/-- The side of `P` with respect to an edge, from the positions of the ends relative to `P`. -/
lemma cross2_relative (A B : CCVector3) (P : CCVector2) :
    cross2 A B P = (A.x - P.x) * (B.y - P.y) - (A.y - P.y) * (B.x - P.x) := by
  unfold cross2; ring



/-- Cyclic indexing: an index and its residue name the same vertex. -/
lemma vertexAt_mod (poly : List CCVector3) (i : ℕ) :
    vertexAt poly (i % poly.length) = vertexAt poly i := by
  unfold vertexAt
  rw [Nat.mod_mod]

/-- Cyclic indexing: successors of an index and of its residue name the same vertex. -/
lemma vertexAt_mod_succ (poly : List CCVector3) (i : ℕ) :
    vertexAt poly (i % poly.length + 1) = vertexAt poly (i + 1) := by
  unfold vertexAt
  rw [Nat.mod_add_mod]

/-- Cyclic indexing: congruent indices name the same vertex. -/
lemma vertexAt_congr (poly : List CCVector3) {i j : ℕ}
    (h : i % poly.length = j % poly.length) : vertexAt poly i = vertexAt poly j := by
  unfold vertexAt
  rw [h]

/-- In a strictly convex contour a vertex is an end of a given edge or strictly on its
inner side. -/
lemma convex_side (σ : ℚ) (poly : List CCVector3) (hconv : StrictlyConvex σ poly) (i k : ℕ) :
    (k % poly.length = i % poly.length ∨ k % poly.length = (i + 1) % poly.length) ∨
    0 < σ * cross2 (vertexAt poly i) (vertexAt poly (i + 1)) (planar (vertexAt poly k)) := by
  have hn : 0 < poly.length := by have := hconv.1; omega
  by_cases h1 : k % poly.length = i % poly.length
  · exact Or.inl (Or.inl h1)
  by_cases h2 : k % poly.length = (i + 1) % poly.length
  · exact Or.inl (Or.inr h2)
  right
  have h := hconv.2 (i % poly.length) (k % poly.length) (Nat.mod_lt _ hn) (Nat.mod_lt _ hn) h1
    (by rw [Nat.mod_add_mod]; exact h2)
  rw [vertexAt_mod, vertexAt_mod_succ, vertexAt_mod] at h
  exact h

/-- In a strictly convex contour every vertex is on the inner side of every edge. -/
lemma convex_weak (σ : ℚ) (poly : List CCVector3) (hconv : StrictlyConvex σ poly) (i k : ℕ) :
    0 ≤ σ * cross2 (vertexAt poly i) (vertexAt poly (i + 1)) (planar (vertexAt poly k)) := by
  rcases convex_side σ poly hconv i k with (h | h) | h
  · rw [vertexAt_congr poly h, cross2_self_left, mul_zero]
  · rw [vertexAt_congr poly h, cross2_self_right, mul_zero]
  · exact h.le

/-- A strictly convex contour has at most one edge going up through a given height. -/
lemma up_unique (σ : ℚ) (poly : List CCVector3) (hconv : StrictlyConvex σ poly) (y : ℚ)
    (i j : ℕ)
    (hi : (vertexAt poly i).y ≤ y ∧ y < (vertexAt poly (i + 1)).y)
    (hj : (vertexAt poly j).y ≤ y ∧ y < (vertexAt poly (j + 1)).y) :
    i % poly.length = j % poly.length := by
  by_contra hne
  have hAi : 0 < σ * cross2 (vertexAt poly j) (vertexAt poly (j + 1))
      (planar (vertexAt poly i)) := by
    rcases convex_side σ poly hconv j i with (h | h) | h
    · exact absurd h hne
    · have hv := vertexAt_congr poly h
      rw [hv] at hi
      linarith [hi.1, hj.2]
    · exact h
  have hAj : 0 < σ * cross2 (vertexAt poly i) (vertexAt poly (i + 1))
      (planar (vertexAt poly j)) := by
    rcases convex_side σ poly hconv i j with (h | h) | h
    · exact absurd h.symm hne
    · have hv := vertexAt_congr poly h
      rw [hv] at hj
      linarith [hj.1, hi.2]
    · exact h
  have hBi := convex_weak σ poly hconv j (i + 1)
  have hBj := convex_weak σ poly hconv i (j + 1)
  obtain ⟨ti0, ti1⟩ := edgePos_up _ _ y hi.1 hi.2
  obtain ⟨tj0, tj1⟩ := edgePos_up _ _ y hj.1 hj.2
  have hni : (vertexAt poly i).y ≠ (vertexAt poly (i + 1)).y := by
    intro h; linarith [hi.1, hi.2]
  have hnj : (vertexAt poly j).y ≠ (vertexAt poly (j + 1)).y := by
    intro h; linarith [hj.1, hj.2]
  have e1 := intercept_compare σ (vertexAt poly j) (vertexAt poly (j + 1))
    (vertexAt poly i) (vertexAt poly (i + 1)) y hni hnj
  have e2 := intercept_compare σ (vertexAt poly i) (vertexAt poly (i + 1))
    (vertexAt poly j) (vertexAt poly (j + 1)) y hnj hni
  have p1 : 0 < (vertexAt poly (j + 1)).y - (vertexAt poly j).y := by linarith [hj.1, hj.2]
  have p2 : 0 < (vertexAt poly (i + 1)).y - (vertexAt poly i).y := by linarith [hi.1, hi.2]
  have r1 : 0 < ((vertexAt poly (j + 1)).y - (vertexAt poly j).y) *
      (σ * (intercept (vertexAt poly j) (vertexAt poly (j + 1)) y -
        intercept (vertexAt poly i) (vertexAt poly (i + 1)) y)) := by
    rw [e1]
    exact add_pos_of_pos_of_nonneg (mul_pos ti1 hAi) (mul_nonneg ti0 hBi)
  have r2 : 0 < ((vertexAt poly (i + 1)).y - (vertexAt poly i).y) *
      (σ * (intercept (vertexAt poly i) (vertexAt poly (i + 1)) y -
        intercept (vertexAt poly j) (vertexAt poly (j + 1)) y)) := by
    rw [e2]
    exact add_pos_of_pos_of_nonneg (mul_pos tj1 hAj) (mul_nonneg tj0 hBj)
  have s1 := (mul_pos_iff_of_pos_left p1).mp r1
  have s2 := (mul_pos_iff_of_pos_left p2).mp r2
  have : σ * (intercept (vertexAt poly j) (vertexAt poly (j + 1)) y -
        intercept (vertexAt poly i) (vertexAt poly (i + 1)) y) =
      -(σ * (intercept (vertexAt poly i) (vertexAt poly (i + 1)) y -
        intercept (vertexAt poly j) (vertexAt poly (j + 1)) y)) := by ring
  linarith

/-- A strictly convex contour has at most one edge going down through a given height. -/
lemma down_unique (σ : ℚ) (poly : List CCVector3) (hconv : StrictlyConvex σ poly) (y : ℚ)
    (i j : ℕ)
    (hi : (vertexAt poly (i + 1)).y ≤ y ∧ y < (vertexAt poly i).y)
    (hj : (vertexAt poly (j + 1)).y ≤ y ∧ y < (vertexAt poly j).y) :
    (i + 1) % poly.length = (j + 1) % poly.length := by
  by_contra hne
  have hBi : 0 < σ * cross2 (vertexAt poly j) (vertexAt poly (j + 1))
      (planar (vertexAt poly (i + 1))) := by
    rcases convex_side σ poly hconv j (i + 1) with (h | h) | h
    · have hv := vertexAt_congr poly h
      rw [hv] at hi
      linarith [hi.1, hj.2]
    · exact absurd h hne
    · exact h
  have hBj : 0 < σ * cross2 (vertexAt poly i) (vertexAt poly (i + 1))
      (planar (vertexAt poly (j + 1))) := by
    rcases convex_side σ poly hconv i (j + 1) with (h | h) | h
    · have hv := vertexAt_congr poly h
      rw [hv] at hj
      linarith [hj.1, hi.2]
    · exact absurd h.symm hne
    · exact h
  have hAi := convex_weak σ poly hconv j i
  have hAj := convex_weak σ poly hconv i j
  obtain ⟨ti0, ti1⟩ := edgePos_down _ _ y hi.1 hi.2
  obtain ⟨tj0, tj1⟩ := edgePos_down _ _ y hj.1 hj.2
  have hni : (vertexAt poly i).y ≠ (vertexAt poly (i + 1)).y := by
    intro h; linarith [hi.1, hi.2]
  have hnj : (vertexAt poly j).y ≠ (vertexAt poly (j + 1)).y := by
    intro h; linarith [hj.1, hj.2]
  have e1 := intercept_compare σ (vertexAt poly j) (vertexAt poly (j + 1))
    (vertexAt poly i) (vertexAt poly (i + 1)) y hni hnj
  have e2 := intercept_compare σ (vertexAt poly i) (vertexAt poly (i + 1))
    (vertexAt poly j) (vertexAt poly (j + 1)) y hnj hni
  have p1 : (vertexAt poly (j + 1)).y - (vertexAt poly j).y < 0 := by linarith [hj.1, hj.2]
  have p2 : (vertexAt poly (i + 1)).y - (vertexAt poly i).y < 0 := by linarith [hi.1, hi.2]
  have r1 : 0 < ((vertexAt poly (j + 1)).y - (vertexAt poly j).y) *
      (σ * (intercept (vertexAt poly j) (vertexAt poly (j + 1)) y -
        intercept (vertexAt poly i) (vertexAt poly (i + 1)) y)) := by
    rw [e1]
    exact add_pos_of_nonneg_of_pos (mul_nonneg ti1 hAi) (mul_pos ti0 hBi)
  have r2 : 0 < ((vertexAt poly (i + 1)).y - (vertexAt poly i).y) *
      (σ * (intercept (vertexAt poly i) (vertexAt poly (i + 1)) y -
        intercept (vertexAt poly j) (vertexAt poly (j + 1)) y)) := by
    rw [e2]
    exact add_pos_of_nonneg_of_pos (mul_nonneg tj1 hAj) (mul_pos tj0 hBj)
  have s1 := neg_of_mul_pos_right r1 p1.le
  have s2 := neg_of_mul_pos_right r2 p2.le
  have : σ * (intercept (vertexAt poly j) (vertexAt poly (j + 1)) y -
        intercept (vertexAt poly i) (vertexAt poly (i + 1)) y) =
      -(σ * (intercept (vertexAt poly i) (vertexAt poly (i + 1)) y -
        intercept (vertexAt poly j) (vertexAt poly (j + 1)) y)) := by ring
  linarith



/-- Around a cycle, a property that fails somewhere and holds somewhere starts to hold at
some step. -/
lemma cyclic_step (n : ℕ) (hn : 0 < n) (a : ℕ → Prop) (hper : ∀ k, a (k % n) ↔ a k)
    (j k : ℕ) (hj : ¬ a j) (hk : a k) : ∃ i, i < n ∧ ¬ a i ∧ a (i + 1) := by
  by_contra hno
  push_neg at hno
  have step : ∀ i, ¬ a i → ¬ a (i + 1) := by
    intro i hi h1
    have h0 : ¬ a (i % n) := fun h => hi ((hper i).mp h)
    apply hno (i % n) (Nat.mod_lt _ hn) h0
    rw [← hper, Nat.mod_add_mod, hper]
    exact h1
  have all : ∀ m, ¬ a (j + m) := by
    intro m
    induction m with
    | zero => exact hj
    | succ m ih => exact step _ ih
  have hk' : a (k + n * j) := by
    rw [← hper, Nat.add_mul_mod_self_left, hper]
    exact hk
  have hle : j ≤ n * j := Nat.le_mul_of_pos_left j hn
  have he : k + n * j = j + (k + n * j - j) := by omega
  rw [he] at hk'
  exact all _ hk'

/-- Successors are injective on residues. -/
lemma succ_mod_inj (n i j : ℕ) (hi : i < n) (hj : j < n) (h : (i + 1) % n = (j + 1) % n) :
    i = j := by
  have h1 : i + 1 ≡ j + 1 [MOD n] := h
  have h2 : i ≡ j [MOD n] := Nat.ModEq.add_right_cancel' 1 h1
  have h3 : i % n = j % n := h2
  rwa [Nat.mod_eq_of_lt hi, Nat.mod_eq_of_lt hj] at h3

/-- Strictly inside: the inner-side inequality holds at every cyclic index. -/
lemma inside_all (σ : ℚ) (P : CCVector2) (poly : List CCVector3) (hn : 0 < poly.length)
    (hin : StrictlyInside σ P poly) (k : ℕ) :
    0 < σ * cross2 (vertexAt poly k) (vertexAt poly (k + 1)) P := by
  have h := hin (k % poly.length) (Nat.mod_lt _ hn)
  rwa [vertexAt_mod, vertexAt_mod_succ] at h

/-- The vertices of a contour cannot all lie strictly above, or all strictly below, a point
that is strictly on the inner side of every edge: the directions from the point to the
vertices would turn the same way all around the cycle within a half-plane. -/
lemma no_turning_cycle (σ : ℚ) (P : CCVector2) (poly : List CCVector3) (hn : 0 < poly.length)
    (hin : StrictlyInside σ P poly)
    (hsign : ∀ k, 0 < ((vertexAt poly k).y - P.y) * ((vertexAt poly (k + 1)).y - P.y)) :
    False := by
  have hstep : ∀ k, 0 < σ * (((vertexAt poly k).x - P.x) / ((vertexAt poly k).y - P.y) -
      ((vertexAt poly (k + 1)).x - P.x) / ((vertexAt poly (k + 1)).y - P.y)) := by
    intro k
    have hc := inside_all σ P poly hn hin k
    rw [cross2_relative] at hc
    have hs := hsign k
    have hy1 : (vertexAt poly k).y - P.y ≠ 0 := fun h => by rw [h, zero_mul] at hs; exact lt_irrefl _ hs
    have hy2 : (vertexAt poly (k + 1)).y - P.y ≠ 0 := fun h => by
      rw [h, mul_zero] at hs; exact lt_irrefl _ hs
    have he : σ * (((vertexAt poly k).x - P.x) / ((vertexAt poly k).y - P.y) -
        ((vertexAt poly (k + 1)).x - P.x) / ((vertexAt poly (k + 1)).y - P.y)) =
        σ * (((vertexAt poly k).x - P.x) * ((vertexAt poly (k + 1)).y - P.y) -
          ((vertexAt poly k).y - P.y) * ((vertexAt poly (k + 1)).x - P.x)) /
        (((vertexAt poly k).y - P.y) * ((vertexAt poly (k + 1)).y - P.y)) := by
      field_simp
    rw [he]
    exact div_pos hc hs
  have hsum : ∀ m, 0 < σ * (((vertexAt poly 0).x - P.x) / ((vertexAt poly 0).y - P.y) -
      ((vertexAt poly (m + 1)).x - P.x) / ((vertexAt poly (m + 1)).y - P.y)) := by
    intro m
    induction m with
    | zero => exact hstep 0
    | succ m ih =>
      have h := hstep (m + 1)
      have he : σ * (((vertexAt poly 0).x - P.x) / ((vertexAt poly 0).y - P.y) -
          ((vertexAt poly (m + 1 + 1)).x - P.x) / ((vertexAt poly (m + 1 + 1)).y - P.y)) =
          σ * (((vertexAt poly 0).x - P.x) / ((vertexAt poly 0).y - P.y) -
            ((vertexAt poly (m + 1)).x - P.x) / ((vertexAt poly (m + 1)).y - P.y)) +
          σ * (((vertexAt poly (m + 1)).x - P.x) / ((vertexAt poly (m + 1)).y - P.y) -
            ((vertexAt poly (m + 1 + 1)).x - P.x) / ((vertexAt poly (m + 1 + 1)).y - P.y)) := by
        ring
      rw [he]
      exact add_pos ih h
  have hlast := hsum (poly.length - 1)
  have hwrap : vertexAt poly (poly.length - 1 + 1) = vertexAt poly 0 := by
    apply vertexAt_congr
    rw [Nat.sub_add_cancel hn, Nat.mod_self, Nat.zero_mod]
  rw [hwrap, sub_self, mul_zero] at hlast
  exact lt_irrefl _ hlast

/-- A point strictly inside a contour has a vertex at or below its height. -/
lemma inside_exists_not_above (σ : ℚ) (P : CCVector2) (poly : List CCVector3)
    (hn : 0 < poly.length) (hin : StrictlyInside σ P poly) :
    ∃ j, ¬ P.y < (vertexAt poly j).y := by
  by_contra hall
  push_neg at hall
  exact no_turning_cycle σ P poly hn hin
    (fun k => mul_pos (sub_pos.mpr (hall k)) (sub_pos.mpr (hall (k + 1))))

/-- A point strictly inside a contour has a vertex strictly above its height. -/
lemma inside_exists_above (σ : ℚ) (P : CCVector2) (poly : List CCVector3)
    (hn : 0 < poly.length) (hin : StrictlyInside σ P poly) :
    ∃ k, P.y < (vertexAt poly k).y := by
  by_contra hall
  push_neg at hall
  have hstrict : ∀ k, (vertexAt poly k).y - P.y < 0 := by
    intro k
    rcases lt_or_eq_of_le (hall k) with h | h
    · linarith
    · exfalso
      have hprev := inside_all σ P poly hn hin (k + (poly.length - 1))
      have hwrap : vertexAt poly (k + (poly.length - 1) + 1) = vertexAt poly k := by
        apply vertexAt_congr
        have : k + (poly.length - 1) + 1 = k + poly.length := by omega
        rw [this, Nat.add_mod_right]
      rw [hwrap, cross2_relative, h, sub_self, mul_zero, zero_sub] at hprev
      have hnext := inside_all σ P poly hn hin k
      rw [cross2_relative, h, sub_self, zero_mul, sub_zero] at hnext
      have hy1 : (vertexAt poly (k + (poly.length - 1))).y - P.y ≤ 0 := by
        linarith [hall (k + (poly.length - 1))]
      have hy2 : (vertexAt poly (k + 1)).y - P.y ≤ 0 := by linarith [hall (k + 1)]
      have e1 : σ * -(((vertexAt poly (k + (poly.length - 1))).y - P.y) *
          ((vertexAt poly k).x - P.x)) =
          (-(σ * ((vertexAt poly k).x - P.x))) *
            ((vertexAt poly (k + (poly.length - 1))).y - P.y) := by ring
      have e2 : σ * (((vertexAt poly k).x - P.x) * ((vertexAt poly (k + 1)).y - P.y)) =
          (σ * ((vertexAt poly k).x - P.x)) * ((vertexAt poly (k + 1)).y - P.y) := by ring
      rw [e1] at hprev
      rw [e2] at hnext
      have s1 := neg_of_mul_pos_left hprev hy1
      have s2 := neg_of_mul_pos_left hnext hy2
      linarith
  exact no_turning_cycle σ P poly hn hin
    (fun k => mul_pos_of_neg_of_neg (hstrict k) (hstrict (k + 1)))

/-- In a strictly convex contour, the point where an edge meets the line of a height it
spans is on the inner side of every edge. -/
lemma intercept_inner (σ : ℚ) (poly : List CCVector3) (hconv : StrictlyConvex σ poly) (y : ℚ)
    (i k : ℕ) (hne : (vertexAt poly i).y ≠ (vertexAt poly (i + 1)).y)
    (h0 : 0 ≤ edgePos (vertexAt poly i) (vertexAt poly (i + 1)) y)
    (h1 : 0 ≤ 1 - edgePos (vertexAt poly i) (vertexAt poly (i + 1)) y) :
    0 ≤ σ * cross2 (vertexAt poly k) (vertexAt poly (k + 1))
      ⟨intercept (vertexAt poly i) (vertexAt poly (i + 1)) y, y⟩ := by
  rw [cross2_on_edge _ _ _ _ y hne]
  have hA := convex_weak σ poly hconv k i
  have hB := convex_weak σ poly hconv k (i + 1)
  have he : σ * ((1 - edgePos (vertexAt poly i) (vertexAt poly (i + 1)) y) *
        cross2 (vertexAt poly k) (vertexAt poly (k + 1)) (planar (vertexAt poly i)) +
      edgePos (vertexAt poly i) (vertexAt poly (i + 1)) y *
        cross2 (vertexAt poly k) (vertexAt poly (k + 1)) (planar (vertexAt poly (i + 1)))) =
      (1 - edgePos (vertexAt poly i) (vertexAt poly (i + 1)) y) *
        (σ * cross2 (vertexAt poly k) (vertexAt poly (k + 1)) (planar (vertexAt poly i))) +
      edgePos (vertexAt poly i) (vertexAt poly (i + 1)) y *
        (σ * cross2 (vertexAt poly k) (vertexAt poly (k + 1))
          (planar (vertexAt poly (i + 1)))) := by ring
  rw [he]
  exact add_nonneg (mul_nonneg h1 hA) (mul_nonneg h0 hB)



/-- A point of a horizontal segment whose ends are on the inner side of an edge is on the
inner side of that edge. -/
lemma between_intercepts (σ : ℚ) (C D : CCVector3) (P : CCVector2) (x1 x2 : ℚ)
    (h1 : 0 ≤ σ * cross2 C D ⟨x1, P.y⟩) (h2 : 0 ≤ σ * cross2 C D ⟨x2, P.y⟩)
    (hx1 : x1 ≤ P.x) (hx2 : P.x < x2) : 0 ≤ σ * cross2 C D P := by
  have e := cross2_between C D x1 x2 P.x P.y
  have e' : σ * cross2 C D P * (x2 - x1) =
      σ * cross2 C D ⟨x1, P.y⟩ * (x2 - P.x) + σ * cross2 C D ⟨x2, P.y⟩ * (P.x - x1) := by
    have : cross2 C D P = cross2 C D ⟨P.x, P.y⟩ := rfl
    rw [this]
    linear_combination σ * e
  have hnn : 0 ≤ σ * cross2 C D P * (x2 - x1) := by
    rw [e']
    exact add_nonneg (mul_nonneg h1 (by linarith)) (mul_nonneg h2 (by linarith))
  exact nonneg_of_mul_nonneg_left hnn (by linarith)

/-- The point-in-polygon test accepts every point strictly inside a strictly convex
contour. -/
lemma isPointInsidePoly_of_inside (σ : ℚ) (P : CCVector2) (poly : List CCVector3)
    (hconv : StrictlyConvex σ poly) (hin : StrictlyInside σ P poly) :
    isPointInsidePoly P poly = true := by
  have h3 := hconv.1
  have hn : 0 < poly.length := by omega
  rw [isPointInsidePoly_eq_odd P poly (by omega)]
  have hper : ∀ k, P.y < (vertexAt poly (k % poly.length)).y ↔ P.y < (vertexAt poly k).y := by
    intro k; rw [vertexAt_mod]
  have hper' : ∀ k, ¬ P.y < (vertexAt poly (k % poly.length)).y ↔
      ¬ P.y < (vertexAt poly k).y := by
    intro k; rw [vertexAt_mod]
  obtain ⟨ka, hka⟩ := inside_exists_above σ P poly hn hin
  obtain ⟨kb, hkb⟩ := inside_exists_not_above σ P poly hn hin
  obtain ⟨u, hu, hu1, hu2⟩ := cyclic_step poly.length hn
    (fun k => P.y < (vertexAt poly k).y) hper kb ka hkb hka
  obtain ⟨d, hd, hd1, hd2⟩ := cyclic_step poly.length hn
    (fun k => ¬ P.y < (vertexAt poly k).y) hper' ka kb (not_not.mpr hka) hkb
  rw [not_not] at hd1
  rw [not_lt] at hu1 hd2
  have hcount : crossings P poly poly.length = 1 := by
    rcases lt_trichotomy σ 0 with hσ | hσ | hσ
    · have hneg : ∀ k, cross2 (vertexAt poly k) (vertexAt poly (k + 1)) P < 0 := fun k =>
        neg_of_mul_pos_right (inside_all σ P poly hn hin k) hσ.le
      refine crossings_one P poly poly.length d hd (Or.inr ⟨hd2, hd1, hneg d⟩) ?_
      intro j hj hjd hE
      rcases hE with ⟨_, _, hpos⟩ | ⟨hj1, hj2, _⟩
      · exact absurd hpos (not_lt.mpr (hneg j).le)
      · exact hjd (succ_mod_inj poly.length j d hj hd
          (down_unique σ poly hconv P.y j d ⟨hj1, hj2⟩ ⟨hd2, hd1⟩))
    · have h := inside_all σ P poly hn hin 0
      rw [hσ, zero_mul] at h
      exact absurd h (lt_irrefl _)
    · have hpos : ∀ k, 0 < cross2 (vertexAt poly k) (vertexAt poly (k + 1)) P := fun k =>
        (mul_pos_iff_of_pos_left hσ).mp (inside_all σ P poly hn hin k)
      refine crossings_one P poly poly.length u hu (Or.inl ⟨hu1, hu2, hpos u⟩) ?_
      intro j hj hju hE
      rcases hE with ⟨hj1, hj2, _⟩ | ⟨_, _, hneg⟩
      · have h := up_unique σ poly hconv P.y j u ⟨hj1, hj2⟩ ⟨hu1, hu2⟩
        rw [Nat.mod_eq_of_lt hj, Nat.mod_eq_of_lt hu] at h
        exact hju h
      · exact absurd hneg (not_lt.mpr (hpos j).le)
  rw [hcount]
  rfl

/-- The point-in-polygon test rejects every point strictly outside a strictly convex
contour. -/
lemma isPointInsidePoly_of_outside (σ : ℚ) (P : CCVector2) (poly : List CCVector3)
    (hconv : StrictlyConvex σ poly) (hout : StrictlyOutside σ P poly) :
    isPointInsidePoly P poly = false := by
  have h3 := hconv.1
  have hn : 0 < poly.length := by omega
  rw [isPointInsidePoly_eq_odd P poly (by omega)]
  have hper : ∀ k, P.y < (vertexAt poly (k % poly.length)).y ↔ P.y < (vertexAt poly k).y := by
    intro k; rw [vertexAt_mod]
  have hper' : ∀ k, ¬ P.y < (vertexAt poly (k % poly.length)).y ↔
      ¬ P.y < (vertexAt poly k).y := by
    intro k; rw [vertexAt_mod]
  obtain ⟨k, _, hk⟩ := hout
  -- an up edge `u` and a down edge `d` cannot be crossed one without the other
  have hpair : ∀ u d,
      ((vertexAt poly u).y ≤ P.y ∧ P.y < (vertexAt poly (u + 1)).y) →
      ((vertexAt poly (d + 1)).y ≤ P.y ∧ P.y < (vertexAt poly d).y) →
      (0 < cross2 (vertexAt poly u) (vertexAt poly (u + 1)) P ↔
        cross2 (vertexAt poly d) (vertexAt poly (d + 1)) P < 0) := by
    intro u d hu hd
    have hnu : (vertexAt poly u).y ≠ (vertexAt poly (u + 1)).y := by
      intro h; linarith [hu.1, hu.2]
    have hnd : (vertexAt poly d).y ≠ (vertexAt poly (d + 1)).y := by
      intro h; linarith [hd.1, hd.2]
    obtain ⟨tu0, tu1⟩ := edgePos_up _ _ P.y hu.1 hu.2
    obtain ⟨td0, td1⟩ := edgePos_down _ _ P.y hd.1 hd.2
    have iu := intercept_inner σ poly hconv P.y u k hnu tu0 tu1.le
    have id := intercept_inner σ poly hconv P.y d k hnd td0.le td1
    have eu := cross2_eq_intercept (vertexAt poly u) (vertexAt poly (u + 1)) P hnu
    have ed := cross2_eq_intercept (vertexAt poly d) (vertexAt poly (d + 1)) P hnd
    have pu : 0 < (vertexAt poly (u + 1)).y - (vertexAt poly u).y := by linarith [hu.1, hu.2]
    have pd : (vertexAt poly (d + 1)).y - (vertexAt poly d).y < 0 := by linarith [hd.1, hd.2]
    constructor
    · intro hcu
      by_contra hcd
      rw [not_lt] at hcd
      rw [eu] at hcu
      rw [ed] at hcd
      have xu := (mul_pos_iff_of_pos_left pu).mp hcu
      have xd : intercept (vertexAt poly d) (vertexAt poly (d + 1)) P.y - P.x ≤ 0 := by
        by_contra h
        rw [not_le] at h
        exact absurd (mul_neg_of_neg_of_pos pd h) (not_lt.mpr hcd)
      have := between_intercepts σ _ _ P _ _ id iu (by linarith) (by linarith)
      linarith
    · intro hcd
      by_contra hcu
      rw [not_lt] at hcu
      rw [eu] at hcu
      rw [ed] at hcd
      have xd : 0 < intercept (vertexAt poly d) (vertexAt poly (d + 1)) P.y - P.x := by
        by_contra h
        rw [not_lt] at h
        exact absurd (mul_nonneg_of_nonpos_of_nonpos pd.le h) (not_le.mpr hcd)
      have xu : intercept (vertexAt poly u) (vertexAt poly (u + 1)) P.y - P.x ≤ 0 := by
        by_contra h
        rw [not_le] at h
        exact absurd (mul_pos pu h) (not_lt.mpr hcu)
      have := between_intercepts σ _ _ P _ _ iu id (by linarith) (by linarith)
      linarith
  have hcount : crossings P poly poly.length = 0 ∨ crossings P poly poly.length = 2 := by
    by_cases hex : ∃ j, j < poly.length ∧
        edgeCrossed P (vertexAt poly j) (vertexAt poly (j + 1))
    · right
      obtain ⟨j, hj, hE⟩ := hex
      -- the crossed edge gives both an up edge and a down edge, both crossed
      have hboth : ∃ u d, u < poly.length ∧ d < poly.length ∧
          ((vertexAt poly u).y ≤ P.y ∧ P.y < (vertexAt poly (u + 1)).y ∧
            0 < cross2 (vertexAt poly u) (vertexAt poly (u + 1)) P) ∧
          ((vertexAt poly (d + 1)).y ≤ P.y ∧ P.y < (vertexAt poly d).y ∧
            cross2 (vertexAt poly d) (vertexAt poly (d + 1)) P < 0) := by
        rcases hE with ⟨h1, h2, hc⟩ | ⟨h1, h2, hc⟩
        · obtain ⟨d, hd, hd1, hd2⟩ := cyclic_step poly.length hn
            (fun k => ¬ P.y < (vertexAt poly k).y) hper' (j + 1) j (not_not.mpr h2)
            (not_lt.mpr h1)
          rw [not_not] at hd1
          rw [not_lt] at hd2
          exact ⟨j, d, hj, hd, ⟨h1, h2, hc⟩, ⟨hd2, hd1,
            (hpair j d ⟨h1, h2⟩ ⟨hd2, hd1⟩).mp hc⟩⟩
        · obtain ⟨u, hu, hu1, hu2⟩ := cyclic_step poly.length hn
            (fun k => P.y < (vertexAt poly k).y) hper (j + 1) j (not_lt.mpr h1) h2
          rw [not_lt] at hu1
          exact ⟨u, j, hu, hj, ⟨hu1, hu2,
            (hpair u j ⟨hu1, hu2⟩ ⟨h1, h2⟩).mpr hc⟩, ⟨h1, h2, hc⟩⟩
      obtain ⟨u, d, hu, hd, hEu, hEd⟩ := hboth
      have hne : u ≠ d := by
        intro h
        subst h
        linarith [hEu.2.1, hEd.1]
      refine crossings_two P poly poly.length u d hu hd hne (Or.inl hEu) (Or.inr hEd) ?_
      intro i hi hiu hid hEi
      rcases hEi with ⟨h1, h2, _⟩ | ⟨h1, h2, _⟩
      · have h := up_unique σ poly hconv P.y i u ⟨h1, h2⟩ ⟨hEu.1, hEu.2.1⟩
        rw [Nat.mod_eq_of_lt hi, Nat.mod_eq_of_lt hu] at h
        exact hiu h
      · exact hid (succ_mod_inj poly.length i d hi hd
          (down_unique σ poly hconv P.y i d ⟨h1, h2⟩ ⟨hEd.1, hEd.2.1⟩))
    · left
      push_neg at hex
      exact crossings_zero P poly poly.length hex
  rcases hcount with h | h <;> rw [h] <;> rfl

/-- The two halves of an edge cut at a vertex placed strictly between its ends are crossed by
the ray exactly when the edge is, and never both. -/
lemma edgeCrossed_split_strict (P : CCVector2) (A B M : CCVector3) (t : ℚ)
    (h0 : 0 < t) (h1 : t < 1) (hx : M.x = A.x + t * (B.x - A.x))
    (hy : M.y = A.y + t * (B.y - A.y)) :
    (if edgeCrossed P A M then 1 else 0) + (if edgeCrossed P M B then 1 else 0) =
      (if edgeCrossed P A B then 1 else 0) := by
  have hAM : cross2 A M P = t * cross2 A B P := by
    unfold cross2; rw [hx, hy]; ring
  have hMB : cross2 M B P = (1 - t) * cross2 A B P := by
    unfold cross2; rw [hx, hy]; ring
  have h1t : 0 < 1 - t := by linarith
  have hyA : M.y - A.y = t * (B.y - A.y) := by rw [hy]; ring
  have hyB : B.y - M.y = (1 - t) * (B.y - A.y) := by rw [hy]; ring
  have sAM : (0 < cross2 A M P ↔ 0 < cross2 A B P) := by
    rw [hAM]; exact mul_pos_iff_of_pos_left h0
  have sMB : (0 < cross2 M B P ↔ 0 < cross2 A B P) := by
    rw [hMB]; exact mul_pos_iff_of_pos_left h1t
  have nAM : (cross2 A M P < 0 ↔ cross2 A B P < 0) := by
    rw [hAM]
    constructor
    · intro h; by_contra hc; push_neg at hc; nlinarith [mul_nonneg h0.le hc]
    · intro h; nlinarith [mul_pos h0 (neg_pos.mpr h)]
  have nMB : (cross2 M B P < 0 ↔ cross2 A B P < 0) := by
    rw [hMB]
    constructor
    · intro h; by_contra hc; push_neg at hc; nlinarith [mul_nonneg h1t.le hc]
    · intro h; nlinarith [mul_pos h1t (neg_pos.mpr h)]
  unfold edgeCrossed
  simp only [sAM, sMB, nAM, nMB]
  rcases lt_trichotomy A.y B.y with hlt | heq | hgt
  · have hd : 0 < B.y - A.y := by linarith
    have hm1 : A.y < M.y := by nlinarith [mul_pos h0 hd]
    have hm2 : M.y < B.y := by nlinarith [mul_pos h1t hd]
    by_cases hc : 0 < cross2 A B P
    · by_cases hP : P.y < M.y
      · by_cases hA : A.y ≤ P.y
        · have e1 : (A.y ≤ P.y ∧ P.y < M.y ∧ 0 < cross2 A B P) ∨
              (M.y ≤ P.y ∧ P.y < A.y ∧ cross2 A B P < 0) := Or.inl ⟨hA, hP, hc⟩
          have e2 : ¬ ((M.y ≤ P.y ∧ P.y < B.y ∧ 0 < cross2 A B P) ∨
              (B.y ≤ P.y ∧ P.y < M.y ∧ cross2 A B P < 0)) := by
            rintro (⟨h, _, _⟩ | ⟨_, _, h⟩) <;> linarith
          have e3 : (A.y ≤ P.y ∧ P.y < B.y ∧ 0 < cross2 A B P) ∨
              (B.y ≤ P.y ∧ P.y < A.y ∧ cross2 A B P < 0) := Or.inl ⟨hA, by linarith, hc⟩
          rw [if_pos e1, if_neg e2, if_pos e3]
        · have e1 : ¬ ((A.y ≤ P.y ∧ P.y < M.y ∧ 0 < cross2 A B P) ∨
              (M.y ≤ P.y ∧ P.y < A.y ∧ cross2 A B P < 0)) := by
            rintro (⟨h, _, _⟩ | ⟨_, _, h⟩) <;> linarith
          have e2 : ¬ ((M.y ≤ P.y ∧ P.y < B.y ∧ 0 < cross2 A B P) ∨
              (B.y ≤ P.y ∧ P.y < M.y ∧ cross2 A B P < 0)) := by
            rintro (⟨h, _, _⟩ | ⟨_, _, h⟩) <;> linarith
          have e3 : ¬ ((A.y ≤ P.y ∧ P.y < B.y ∧ 0 < cross2 A B P) ∨
              (B.y ≤ P.y ∧ P.y < A.y ∧ cross2 A B P < 0)) := by
            rintro (⟨h, _, _⟩ | ⟨_, _, h⟩) <;> linarith
          rw [if_neg e1, if_neg e2, if_neg e3]
      · push_neg at hP
        by_cases hB : P.y < B.y
        · have e1 : ¬ ((A.y ≤ P.y ∧ P.y < M.y ∧ 0 < cross2 A B P) ∨
              (M.y ≤ P.y ∧ P.y < A.y ∧ cross2 A B P < 0)) := by
            rintro (⟨_, h, _⟩ | ⟨_, _, h⟩) <;> linarith
          have e2 : (M.y ≤ P.y ∧ P.y < B.y ∧ 0 < cross2 A B P) ∨
              (B.y ≤ P.y ∧ P.y < M.y ∧ cross2 A B P < 0) := Or.inl ⟨hP, hB, hc⟩
          have e3 : (A.y ≤ P.y ∧ P.y < B.y ∧ 0 < cross2 A B P) ∨
              (B.y ≤ P.y ∧ P.y < A.y ∧ cross2 A B P < 0) := Or.inl ⟨by linarith, hB, hc⟩
          rw [if_neg e1, if_pos e2, if_pos e3]
        · have e1 : ¬ ((A.y ≤ P.y ∧ P.y < M.y ∧ 0 < cross2 A B P) ∨
              (M.y ≤ P.y ∧ P.y < A.y ∧ cross2 A B P < 0)) := by
            rintro (⟨_, h, _⟩ | ⟨_, _, h⟩) <;> linarith
          have e2 : ¬ ((M.y ≤ P.y ∧ P.y < B.y ∧ 0 < cross2 A B P) ∨
              (B.y ≤ P.y ∧ P.y < M.y ∧ cross2 A B P < 0)) := by
            rintro (⟨_, h, _⟩ | ⟨_, _, h⟩) <;> linarith
          have e3 : ¬ ((A.y ≤ P.y ∧ P.y < B.y ∧ 0 < cross2 A B P) ∨
              (B.y ≤ P.y ∧ P.y < A.y ∧ cross2 A B P < 0)) := by
            rintro (⟨_, h, _⟩ | ⟨_, _, h⟩) <;> linarith
          rw [if_neg e1, if_neg e2, if_neg e3]
    · have e1 : ¬ ((A.y ≤ P.y ∧ P.y < M.y ∧ 0 < cross2 A B P) ∨
          (M.y ≤ P.y ∧ P.y < A.y ∧ cross2 A B P < 0)) := by
        rintro (⟨_, _, h⟩ | ⟨h1, h2, _⟩)
        · exact hc h
        · linarith
      have e2 : ¬ ((M.y ≤ P.y ∧ P.y < B.y ∧ 0 < cross2 A B P) ∨
          (B.y ≤ P.y ∧ P.y < M.y ∧ cross2 A B P < 0)) := by
        rintro (⟨_, _, h⟩ | ⟨h1, h2, _⟩)
        · exact hc h
        · linarith
      have e3 : ¬ ((A.y ≤ P.y ∧ P.y < B.y ∧ 0 < cross2 A B P) ∨
          (B.y ≤ P.y ∧ P.y < A.y ∧ cross2 A B P < 0)) := by
        rintro (⟨_, _, h⟩ | ⟨h1, h2, _⟩)
        · exact hc h
        · linarith
      rw [if_neg e1, if_neg e2, if_neg e3]
  · have hm : M.y = A.y := by rw [hy, heq]; ring
    have e1 : ¬ ((A.y ≤ P.y ∧ P.y < M.y ∧ 0 < cross2 A B P) ∨
        (M.y ≤ P.y ∧ P.y < A.y ∧ cross2 A B P < 0)) := by
      rintro (⟨h1, h2, _⟩ | ⟨h1, h2, _⟩) <;> linarith
    have e2 : ¬ ((M.y ≤ P.y ∧ P.y < B.y ∧ 0 < cross2 A B P) ∨
        (B.y ≤ P.y ∧ P.y < M.y ∧ cross2 A B P < 0)) := by
      rintro (⟨h1, h2, _⟩ | ⟨h1, h2, _⟩) <;> linarith
    have e3 : ¬ ((A.y ≤ P.y ∧ P.y < B.y ∧ 0 < cross2 A B P) ∨
        (B.y ≤ P.y ∧ P.y < A.y ∧ cross2 A B P < 0)) := by
      rintro (⟨h1, h2, _⟩ | ⟨h1, h2, _⟩) <;> linarith
    rw [if_neg e1, if_neg e2, if_neg e3]
  · have hd : 0 < A.y - B.y := by linarith
    have hm1 : M.y < A.y := by nlinarith [mul_pos h0 hd]
    have hm2 : B.y < M.y := by nlinarith [mul_pos h1t hd]
    by_cases hc : cross2 A B P < 0
    · by_cases hP : P.y < M.y
      · by_cases hB : B.y ≤ P.y
        · have e1 : ¬ ((A.y ≤ P.y ∧ P.y < M.y ∧ 0 < cross2 A B P) ∨
              (M.y ≤ P.y ∧ P.y < A.y ∧ cross2 A B P < 0)) := by
            rintro (⟨h, _, _⟩ | ⟨h, _, _⟩) <;> linarith
          have e2 : (M.y ≤ P.y ∧ P.y < B.y ∧ 0 < cross2 A B P) ∨
              (B.y ≤ P.y ∧ P.y < M.y ∧ cross2 A B P < 0) := Or.inr ⟨hB, hP, hc⟩
          have e3 : (A.y ≤ P.y ∧ P.y < B.y ∧ 0 < cross2 A B P) ∨
              (B.y ≤ P.y ∧ P.y < A.y ∧ cross2 A B P < 0) := Or.inr ⟨hB, by linarith, hc⟩
          rw [if_neg e1, if_pos e2, if_pos e3]
          
        · have e1 : ¬ ((A.y ≤ P.y ∧ P.y < M.y ∧ 0 < cross2 A B P) ∨
              (M.y ≤ P.y ∧ P.y < A.y ∧ cross2 A B P < 0)) := by
            rintro (⟨h, _, _⟩ | ⟨h, _, _⟩) <;> linarith
          have e2 : ¬ ((M.y ≤ P.y ∧ P.y < B.y ∧ 0 < cross2 A B P) ∨
              (B.y ≤ P.y ∧ P.y < M.y ∧ cross2 A B P < 0)) := by
            rintro (⟨h, _, _⟩ | ⟨h, _, _⟩) <;> linarith
          have e3 : ¬ ((A.y ≤ P.y ∧ P.y < B.y ∧ 0 < cross2 A B P) ∨
              (B.y ≤ P.y ∧ P.y < A.y ∧ cross2 A B P < 0)) := by
            rintro (⟨h, _, _⟩ | ⟨h, _, _⟩) <;> linarith
          rw [if_neg e1, if_neg e2, if_neg e3]
      · push_neg at hP
        by_cases hA : P.y < A.y
        · have e1 : (A.y ≤ P.y ∧ P.y < M.y ∧ 0 < cross2 A B P) ∨
              (M.y ≤ P.y ∧ P.y < A.y ∧ cross2 A B P < 0) := Or.inr ⟨hP, hA, hc⟩
          have e2 : ¬ ((M.y ≤ P.y ∧ P.y < B.y ∧ 0 < cross2 A B P) ∨
              (B.y ≤ P.y ∧ P.y < M.y ∧ cross2 A B P < 0)) := by
            rintro (⟨_, h, _⟩ | ⟨_, h, _⟩) <;> linarith
          have e3 : (A.y ≤ P.y ∧ P.y < B.y ∧ 0 < cross2 A B P) ∨
              (B.y ≤ P.y ∧ P.y < A.y ∧ cross2 A B P < 0) := Or.inr ⟨by linarith, hA, hc⟩
          rw [if_pos e1, if_neg e2, if_pos e3]
        · have e1 : ¬ ((A.y ≤ P.y ∧ P.y < M.y ∧ 0 < cross2 A B P) ∨
              (M.y ≤ P.y ∧ P.y < A.y ∧ cross2 A B P < 0)) := by
            rintro (⟨_, h, _⟩ | ⟨_, h, _⟩) <;> linarith
          have e2 : ¬ ((M.y ≤ P.y ∧ P.y < B.y ∧ 0 < cross2 A B P) ∨
              (B.y ≤ P.y ∧ P.y < M.y ∧ cross2 A B P < 0)) := by
            rintro (⟨_, h, _⟩ | ⟨_, h, _⟩) <;> linarith
          have e3 : ¬ ((A.y ≤ P.y ∧ P.y < B.y ∧ 0 < cross2 A B P) ∨
              (B.y ≤ P.y ∧ P.y < A.y ∧ cross2 A B P < 0)) := by
            rintro (⟨_, h, _⟩ | ⟨_, h, _⟩) <;> linarith
          rw [if_neg e1, if_neg e2, if_neg e3]
    · have e1 : ¬ ((A.y ≤ P.y ∧ P.y < M.y ∧ 0 < cross2 A B P) ∨
          (M.y ≤ P.y ∧ P.y < A.y ∧ cross2 A B P < 0)) := by
        rintro (⟨h1, h2, _⟩ | ⟨_, _, h⟩)
        · linarith
        · exact hc h
      have e2 : ¬ ((M.y ≤ P.y ∧ P.y < B.y ∧ 0 < cross2 A B P) ∨
          (B.y ≤ P.y ∧ P.y < M.y ∧ cross2 A B P < 0)) := by
        rintro (⟨h1, h2, _⟩ | ⟨_, _, h⟩)
        · linarith
        · exact hc h
      have e3 : ¬ ((A.y ≤ P.y ∧ P.y < B.y ∧ 0 < cross2 A B P) ∨
          (B.y ≤ P.y ∧ P.y < A.y ∧ cross2 A B P < 0)) := by
        rintro (⟨h1, h2, _⟩ | ⟨_, _, h⟩)
        · linarith
        · exact hc h
      rw [if_neg e1, if_neg e2, if_neg e3]

/-- An edge of zero length is never crossed. -/
lemma edgeCrossed_degenerate (P : CCVector2) (A M : CCVector3) (hy : M.y = A.y) :
    ¬ edgeCrossed P A M := by
  unfold edgeCrossed
  rintro (⟨h1, h2, _⟩ | ⟨h1, h2, _⟩) <;> linarith

/-- Whether the ray crosses an edge depends on the screen coordinates of its ends only. -/
lemma edgeCrossed_congr (P : CCVector2) (A B C D : CCVector3) (hAx : A.x = C.x)
    (hAy : A.y = C.y) (hBx : B.x = D.x) (hBy : B.y = D.y) :
    edgeCrossed P A B ↔ edgeCrossed P C D := by
  unfold edgeCrossed cross2
  rw [hAx, hAy, hBx, hBy]

/-- The two parts of an edge cut at a vertex placed on it are crossed by the ray exactly when
the edge is, and never both. -/
lemma edgeCrossed_split (P : CCVector2) (A B M : CCVector3) (t : ℚ) (h : OnEdge A B M t) :
    (if edgeCrossed P A M then 1 else 0) + (if edgeCrossed P M B then 1 else 0) =
      (if edgeCrossed P A B then 1 else 0) := by
  obtain ⟨h0, h1, hx, hy⟩ := h
  rcases eq_or_lt_of_le h0 with ht0 | ht0
  · have hx0 : M.x = A.x := by rw [hx, ← ht0]; ring
    have hy0 : M.y = A.y := by rw [hy, ← ht0]; ring
    rw [if_neg (edgeCrossed_degenerate P A M hy0),
      if_congr (edgeCrossed_congr P M B A B hx0 hy0 rfl rfl) rfl rfl, Nat.zero_add]
  · rcases eq_or_lt_of_le h1 with ht1 | ht1
    · have hx1 : M.x = B.x := by rw [hx, ht1]; ring
      have hy1 : M.y = B.y := by rw [hy, ht1]; ring
      rw [if_neg (edgeCrossed_degenerate P M B hy1.symm),
        if_congr (edgeCrossed_congr P A M A B rfl rfl hx1 hy1) rfl rfl, Nat.add_zero]
    · exact edgeCrossed_split_strict P A B M t ht0 ht1 hx hy

/-- The cross products of the two halves of an edge cut at a vertex placed on it. -/
lemma cross2_onEdge (P : CCVector2) (A B M : CCVector3) (t : ℚ) (h : OnEdge A B M t) :
    cross2 A M P = t * cross2 A B P ∧ cross2 M B P = (1 - t) * cross2 A B P := by
  obtain ⟨_, _, hx, hy⟩ := h
  constructor
  · unfold cross2; rw [hx, hy]; ring
  · unfold cross2; rw [hx, hy]; ring

/-- The number of crossed edges as a sum over the edges. -/
lemma crossings_eq_sum (P : CCVector2) (poly : List CCVector3) (k : ℕ) :
    crossings P poly k = (Finset.range k).sum
      (fun i => if edgeCrossed P (vertexAt poly i) (vertexAt poly (i + 1)) then 1 else 0) := by
  induction k with
  | zero => rfl
  | succ k ih =>
    rw [Finset.sum_range_succ, ← ih]
    rfl

/-- A sum in which term `a` of `f` is replaced by two consecutive terms of the same total. -/
lemma sum_split_term (f g : ℕ → ℕ) (a : ℕ) (hlt : ∀ k, k < a → g k = f k)
    (hmid : g a + g (a + 1) = f a) :
    ∀ n, a < n → (∀ k, a + 1 < k → k ≤ n → g k = f (k - 1)) →
      (Finset.range (n + 1)).sum g = (Finset.range n).sum f := by
  intro n hn
  induction n, hn using Nat.le_induction with
  | base =>
    intro _
    rw [Finset.sum_range_succ, Finset.sum_range_succ, Finset.sum_range_succ,
      Finset.sum_congr rfl (fun k hk => hlt k (Finset.mem_range.mp hk)), add_assoc, hmid]
  | succ n hn ih =>
    intro hgt
    rw [Finset.sum_range_succ, ih (fun k h1 h2 => hgt k h1 (by omega)),
      Finset.sum_range_succ, hgt (n + 1) (by omega) le_rfl]
    rfl

/-- A sum in which the last term of `f` is replaced by a first and a last term of the same
total. -/
lemma sum_split_last (f g : ℕ → ℕ) (n : ℕ) (hn : 1 ≤ n)
    (hmid : ∀ k, 1 ≤ k → k < n → g k = f (k - 1))
    (hends : g n + g 0 = f (n - 1)) :
    (Finset.range (n + 1)).sum g = (Finset.range n).sum f := by
  obtain ⟨m, rfl⟩ : ∃ m, n = m + 1 := ⟨n - 1, by omega⟩
  rw [Finset.sum_range_succ, Finset.sum_range_succ', Finset.sum_range_succ f,
    Finset.sum_congr rfl (fun k hk => hmid (k + 1) (by omega)
      (by have := Finset.mem_range.mp hk; omega))]
  simp only [Nat.add_sub_cancel] at hends ⊢
  omega

/-- The length of a contour with one more vertex. -/
lemma length_withVertex (poly : List CCVector3) (j : ℕ) (M : CCVector3)
    (hj : j ≤ poly.length) : (withVertex poly j M).length = poly.length + 1 := by
  unfold withVertex
  simp only [List.length_append, List.length_take, List.length_cons, List.length_drop]
  omega

/-- The vertices of a contour with one more vertex. -/
lemma getD_withVertex (poly : List CCVector3) (j : ℕ) (M : CCVector3)
    (hj : j ≤ poly.length) (i : ℕ) :
    (withVertex poly j M).getD i zeroVector =
      if i < j then poly.getD i zeroVector
      else if i = j then M else poly.getD (i - 1) zeroVector := by
  unfold withVertex
  have hlen : (poly.take j).length = j := by
    rw [List.length_take]; omega
  rw [List.getD_eq_getElem?_getD, List.getD_eq_getElem?_getD, List.getD_eq_getElem?_getD]
  by_cases h1 : i < j
  · rw [if_pos h1, List.getElem?_append_left (by rw [hlen]; exact h1), List.getElem?_take,
      if_pos h1]
  · rw [if_neg h1, List.getElem?_append_right (by rw [hlen]; omega), hlen]
    by_cases h2 : i = j
    · rw [if_pos h2, h2, Nat.sub_self]
      simp
    · rw [if_neg h2]
      obtain ⟨d, hd⟩ : ∃ d, i - j = d + 1 := ⟨i - j - 1, by omega⟩
      rw [hd, List.getElem?_cons_succ, List.getElem?_drop]
      congr 2
      omega

/-- A vertex before the place of the new vertex keeps its index. -/
lemma vertexAt_withVertex_lt (poly : List CCVector3) (j : ℕ) (M : CCVector3)
    (hj : j ≤ poly.length) (k : ℕ) (hk : k < j) :
    vertexAt (withVertex poly j M) k = vertexAt poly k := by
  unfold vertexAt
  rw [length_withVertex poly j M hj, Nat.mod_eq_of_lt (by omega : k < poly.length + 1),
    Nat.mod_eq_of_lt (by omega : k < poly.length), getD_withVertex poly j M hj, if_pos hk]

/-- The new vertex sits at its index. -/
lemma vertexAt_withVertex_self (poly : List CCVector3) (j : ℕ) (M : CCVector3)
    (hj : j ≤ poly.length) : vertexAt (withVertex poly j M) j = M := by
  unfold vertexAt
  rw [length_withVertex poly j M hj, Nat.mod_eq_of_lt (by omega : j < poly.length + 1),
    getD_withVertex poly j M hj, if_neg (lt_irrefl j), if_pos rfl]

/-- A vertex after the place of the new vertex has its index shifted by one. -/
lemma vertexAt_withVertex_gt (poly : List CCVector3) (j : ℕ) (M : CCVector3)
    (hj : j ≤ poly.length) (k : ℕ) (hk : j < k) (hkn : k ≤ poly.length) :
    vertexAt (withVertex poly j M) k = vertexAt poly (k - 1) := by
  unfold vertexAt
  rw [length_withVertex poly j M hj, Nat.mod_eq_of_lt (by omega : k < poly.length + 1),
    Nat.mod_eq_of_lt (by omega : k - 1 < poly.length), getD_withVertex poly j M hj,
    if_neg (by omega), if_neg (by omega)]

/-- The vertex reached after the last one, when the new vertex is not the first. -/
lemma vertexAt_withVertex_wrap (poly : List CCVector3) (j : ℕ) (M : CCVector3)
    (hj : j ≤ poly.length) (hj0 : 0 < j) :
    vertexAt (withVertex poly j M) (poly.length + 1) = vertexAt poly poly.length := by
  unfold vertexAt
  rw [length_withVertex poly j M hj, Nat.mod_self, Nat.mod_self,
    getD_withVertex poly j M hj, if_pos hj0]

/-- The vertex reached after the last one, when the new vertex is the first. -/
lemma vertexAt_withVertex_wrap_zero (poly : List CCVector3) (M : CCVector3) :
    vertexAt (withVertex poly 0 M) (poly.length + 1) = M := by
  unfold vertexAt
  rw [length_withVertex poly 0 M (Nat.zero_le _), Nat.mod_self,
    getD_withVertex poly 0 M (Nat.zero_le _), if_neg (lt_irrefl 0), if_pos rfl]

/-- The end of an edge that starts at or after the new vertex. -/
lemma vertexAt_withVertex_succ (poly : List CCVector3) (j : ℕ) (M : CCVector3)
    (hj : j ≤ poly.length) (k : ℕ) (hk : j ≤ k) (hkn : k ≤ poly.length)
    (hw : 0 < j ∨ k < poly.length) :
    vertexAt (withVertex poly j M) (k + 1) = vertexAt poly k := by
  by_cases hlt : k < poly.length
  · rw [vertexAt_withVertex_gt poly j M hj (k + 1) (by omega) (by omega), Nat.add_sub_cancel]
  · have hk' : k = poly.length := by omega
    have hj0 : 0 < j := by omega
    rw [hk', vertexAt_withVertex_wrap poly j M hj hj0]

/-- Placing a vertex on an edge leaves the number of crossed edges unchanged. -/
lemma crossings_withVertex (P : CCVector2) (poly : List CCVector3) (j : ℕ) (M : CCVector3)
    (t : ℚ) (hn : 1 ≤ poly.length) (hj : j ≤ poly.length)
    (hM : OnEdge (vertexAt poly (j + poly.length - 1)) (vertexAt poly j) M t) :
    crossings P (withVertex poly j M) (poly.length + 1) = crossings P poly poly.length := by
  rw [crossings_eq_sum, crossings_eq_sum]
  rcases Nat.eq_zero_or_pos j with hj0 | hj0
  · subst hj0
    rw [Nat.zero_add] at hM
    apply sum_split_last _ _ _ hn
    · intro k hk1 hkn
      rw [vertexAt_withVertex_gt poly 0 M hj k (by omega) (by omega),
        vertexAt_withVertex_succ poly 0 M hj k (by omega) (by omega) (Or.inr hkn),
        Nat.sub_add_cancel hk1]
    · dsimp only
      rw [vertexAt_withVertex_gt poly 0 M hj poly.length (by omega) le_rfl,
        vertexAt_withVertex_wrap_zero, vertexAt_withVertex_self poly 0 M hj,
        vertexAt_withVertex_succ poly 0 M hj 0 le_rfl (by omega) (Or.inr (by omega)),
        Nat.sub_add_cancel hn,
        vertexAt_congr poly (show poly.length % poly.length = 0 % poly.length by simp)]
      exact edgeCrossed_split P _ _ M t hM
  · obtain ⟨a, rfl⟩ : ∃ a, j = a + 1 := ⟨j - 1, by omega⟩
    have hA : vertexAt poly (a + 1 + poly.length - 1) = vertexAt poly a := by
      apply vertexAt_congr
      rw [show a + 1 + poly.length - 1 = a + poly.length by omega, Nat.add_mod_right]
    rw [hA] at hM
    apply sum_split_term _ _ a
    · intro k hk
      rw [vertexAt_withVertex_lt poly (a + 1) M hj k (by omega),
        vertexAt_withVertex_lt poly (a + 1) M hj (k + 1) (by omega)]
    · dsimp only
      rw [vertexAt_withVertex_lt poly (a + 1) M hj a (by omega),
        vertexAt_withVertex_self poly (a + 1) M hj,
        vertexAt_withVertex_succ poly (a + 1) M hj (a + 1) le_rfl hj (Or.inl (by omega))]
      exact edgeCrossed_split P _ _ M t hM
    · omega
    · intro k hk1 hkn
      rw [vertexAt_withVertex_gt poly (a + 1) M hj k (by omega) hkn,
        vertexAt_withVertex_succ poly (a + 1) M hj k (by omega) hkn (Or.inl (by omega)),
        Nat.sub_add_cancel (by omega)]

/-- Scaling by a non-negative factor: a negative product has a negative second factor. -/
lemma neg_of_mul_neg_of_nonneg (t x : ℚ) (ht : 0 ≤ t) (h : t * x < 0) : x < 0 := by
  by_contra hc
  push_neg at hc
  nlinarith [mul_nonneg ht hc]

/-- Every edge of a contour is an edge of the contour with one more vertex, or is the edge
that carries the new vertex and is cut by it in two. -/
lemma edge_of_poly (poly : List CCVector3) (j : ℕ) (M : CCVector3) (t : ℚ)
    (hn : 1 ≤ poly.length) (hj : j ≤ poly.length)
    (hM : OnEdge (vertexAt poly (j + poly.length - 1)) (vertexAt poly j) M t)
    (i : ℕ) (hi : i < poly.length) :
    (∃ k, k < poly.length + 1 ∧ vertexAt (withVertex poly j M) k = vertexAt poly i ∧
      vertexAt (withVertex poly j M) (k + 1) = vertexAt poly (i + 1)) ∨
    (OnEdge (vertexAt poly i) (vertexAt poly (i + 1)) M t ∧
      (∃ k, k < poly.length + 1 ∧ vertexAt (withVertex poly j M) k = vertexAt poly i ∧
        vertexAt (withVertex poly j M) (k + 1) = M) ∧
      (∃ k, k < poly.length + 1 ∧ vertexAt (withVertex poly j M) k = M ∧
        vertexAt (withVertex poly j M) (k + 1) = vertexAt poly (i + 1))) := by
  rcases Nat.eq_zero_or_pos j with hj0 | hj0
  · subst hj0
    rw [Nat.zero_add] at hM
    by_cases hlast : i + 1 < poly.length
    · left
      refine ⟨i + 1, by omega, ?_, ?_⟩
      · rw [vertexAt_withVertex_gt poly 0 M hj (i + 1) (by omega) (by omega),
          Nat.add_sub_cancel]
      · exact vertexAt_withVertex_succ poly 0 M hj (i + 1) (by omega) (by omega)
          (Or.inr hlast)
    · right
      have hi' : i = poly.length - 1 := by omega
      have hB : vertexAt poly (i + 1) = vertexAt poly 0 := by
        apply vertexAt_congr
        rw [hi', Nat.sub_add_cancel hn]
        simp
      rw [hB, hi']
      refine ⟨hM, ⟨poly.length, by omega, ?_, ?_⟩, ⟨0, by omega, ?_, ?_⟩⟩
      · exact vertexAt_withVertex_gt poly 0 M hj poly.length (by omega) le_rfl
      · exact vertexAt_withVertex_wrap_zero poly M
      · exact vertexAt_withVertex_self poly 0 M hj
      · exact vertexAt_withVertex_succ poly 0 M hj 0 le_rfl (by omega) (Or.inr (by omega))
  · obtain ⟨a, rfl⟩ : ∃ a, j = a + 1 := ⟨j - 1, by omega⟩
    have hA : vertexAt poly (a + 1 + poly.length - 1) = vertexAt poly a := by
      apply vertexAt_congr
      rw [show a + 1 + poly.length - 1 = a + poly.length by omega, Nat.add_mod_right]
    rw [hA] at hM
    rcases lt_trichotomy i a with hlt | heq | hgt
    · left
      exact ⟨i, by omega, vertexAt_withVertex_lt poly (a + 1) M hj i (by omega),
        vertexAt_withVertex_lt poly (a + 1) M hj (i + 1) (by omega)⟩
    · right
      subst heq
      refine ⟨hM, ⟨i, by omega, ?_, ?_⟩, ⟨i + 1, by omega, ?_, ?_⟩⟩
      · exact vertexAt_withVertex_lt poly (i + 1) M hj i (by omega)
      · exact vertexAt_withVertex_self poly (i + 1) M hj
      · exact vertexAt_withVertex_self poly (i + 1) M hj
      · exact vertexAt_withVertex_succ poly (i + 1) M hj (i + 1) le_rfl hj
          (Or.inl (by omega))
    · left
      refine ⟨i + 1, by omega, ?_, ?_⟩
      · rw [vertexAt_withVertex_gt poly (a + 1) M hj (i + 1) (by omega) (by omega),
          Nat.add_sub_cancel]
      · exact vertexAt_withVertex_succ poly (a + 1) M hj (i + 1) (by omega) (by omega)
          (Or.inl (by omega))

/-- Every edge of a contour with one more vertex is an edge of the contour, or one of the
two parts of the edge that carries the new vertex. -/
lemma edge_of_withVertex (poly : List CCVector3) (j : ℕ) (M : CCVector3) (t : ℚ)
    (hn : 1 ≤ poly.length) (hj : j ≤ poly.length)
    (hM : OnEdge (vertexAt poly (j + poly.length - 1)) (vertexAt poly j) M t)
    (k : ℕ) (hk : k < poly.length + 1) :
    ∃ i, i < poly.length ∧
      ((vertexAt (withVertex poly j M) k = vertexAt poly i ∧
        vertexAt (withVertex poly j M) (k + 1) = vertexAt poly (i + 1)) ∨
       (OnEdge (vertexAt poly i) (vertexAt poly (i + 1)) M t ∧
        ((vertexAt (withVertex poly j M) k = vertexAt poly i ∧
          vertexAt (withVertex poly j M) (k + 1) = M) ∨
         (vertexAt (withVertex poly j M) k = M ∧
          vertexAt (withVertex poly j M) (k + 1) = vertexAt poly (i + 1))))) := by
  have hlastB : vertexAt poly (poly.length - 1 + 1) = vertexAt poly 0 := by
    apply vertexAt_congr
    rw [Nat.sub_add_cancel hn]
    simp
  rcases Nat.eq_zero_or_pos j with hj0 | hj0
  · subst hj0
    rw [Nat.zero_add] at hM
    rcases Nat.eq_zero_or_pos k with hk0 | hk0
    · subst hk0
      refine ⟨poly.length - 1, by omega, Or.inr ⟨by rw [hlastB]; exact hM, Or.inr ⟨?_, ?_⟩⟩⟩
      · exact vertexAt_withVertex_self poly 0 M hj
      · rw [hlastB]
        exact vertexAt_withVertex_succ poly 0 M hj 0 le_rfl (by omega) (Or.inr (by omega))
    · by_cases hlast : k < poly.length
      · refine ⟨k - 1, by omega, Or.inl ⟨?_, ?_⟩⟩
        · exact vertexAt_withVertex_gt poly 0 M hj k (by omega) (by omega)
        · rw [Nat.sub_add_cancel hk0]
          exact vertexAt_withVertex_succ poly 0 M hj k (by omega) (by omega) (Or.inr hlast)
      · have hk' : k = poly.length := by omega
        subst hk'
        refine ⟨poly.length - 1, by omega,
          Or.inr ⟨by rw [hlastB]; exact hM, Or.inl ⟨?_, ?_⟩⟩⟩
        · exact vertexAt_withVertex_gt poly 0 M hj poly.length (by omega) le_rfl
        · exact vertexAt_withVertex_wrap_zero poly M
  · obtain ⟨a, rfl⟩ : ∃ a, j = a + 1 := ⟨j - 1, by omega⟩
    have hA : vertexAt poly (a + 1 + poly.length - 1) = vertexAt poly a := by
      apply vertexAt_congr
      rw [show a + 1 + poly.length - 1 = a + poly.length by omega, Nat.add_mod_right]
    rw [hA] at hM
    rcases lt_trichotomy k a with hlt | heq | hgt
    · exact ⟨k, by omega, Or.inl ⟨vertexAt_withVertex_lt poly (a + 1) M hj k (by omega),
        vertexAt_withVertex_lt poly (a + 1) M hj (k + 1) (by omega)⟩⟩
    · subst heq
      exact ⟨k, by omega, Or.inr ⟨hM, Or.inl
        ⟨vertexAt_withVertex_lt poly (k + 1) M hj k (by omega),
          vertexAt_withVertex_self poly (k + 1) M hj⟩⟩⟩
    · by_cases hmid : k = a + 1
      · subst hmid
        exact ⟨a, by omega, Or.inr ⟨hM, Or.inr
          ⟨vertexAt_withVertex_self poly (a + 1) M hj,
            vertexAt_withVertex_succ poly (a + 1) M hj (a + 1) le_rfl hj
              (Or.inl (by omega))⟩⟩⟩
      · refine ⟨k - 1, by omega, Or.inl ⟨?_, ?_⟩⟩
        · exact vertexAt_withVertex_gt poly (a + 1) M hj k (by omega) (by omega)
        · rw [Nat.sub_add_cancel (by omega)]
          exact vertexAt_withVertex_succ poly (a + 1) M hj k (by omega) (by omega)
            (Or.inl (by omega))

/-- A point strictly on the inner side of the parts of a cut edge of non-zero length is
strictly on the inner side of the edge. -/
lemma inner_side_of_parts (σ : ℚ) (P : CCVector2) (A B M : CCVector3) (t : ℚ)
    (h : OnEdge A B M t) (hne : planar A ≠ planar B)
    (h1 : planar A ≠ planar M → 0 < σ * cross2 A M P)
    (h2 : planar M ≠ planar B → 0 < σ * cross2 M B P) :
    0 < σ * cross2 A B P := by
  obtain ⟨hc1, hc2⟩ := cross2_onEdge P A B M t h
  obtain ⟨h0, h1t, hx, hy⟩ := h
  rcases eq_or_lt_of_le h0 with ht0 | ht0
  · have hMB : planar M ≠ planar B := by
      intro he
      apply hne
      have hx0 : M.x = A.x := by rw [hx, ← ht0]; ring
      have hy0 : M.y = A.y := by rw [hy, ← ht0]; ring
      unfold planar at he ⊢
      rw [← hx0, ← hy0]
      exact he
    have := h2 hMB
    rw [hc2, ← ht0] at this
    simpa using this
  · have hAM : planar A ≠ planar M := by
      intro he
      apply hne
      unfold planar at he ⊢
      have hex : A.x = M.x := congrArg CCVector2.x he
      have hey : A.y = M.y := congrArg CCVector2.y he
      have hbx : t * (B.x - A.x) = 0 := by linarith
      have hby : t * (B.y - A.y) = 0 := by linarith
      have hbx' : B.x - A.x = 0 := by
        rcases mul_eq_zero.mp hbx with h | h
        · linarith
        · exact h
      have hby' : B.y - A.y = 0 := by
        rcases mul_eq_zero.mp hby with h | h
        · linarith
        · exact h
      have e1 : A.x = B.x := by linarith
      have e2 : A.y = B.y := by linarith
      rw [e1, e2]
    have := h1 hAM
    rw [hc1] at this
    have e : σ * (t * cross2 A B P) = t * (σ * cross2 A B P) := by ring
    rw [e] at this
    exact (mul_pos_iff_of_pos_left ht0).mp this

/-- A point strictly inside a contour is strictly inside the contour without one of the
vertices placed on its edges. -/
lemma insideContour_of_withVertex (σ : ℚ) (P : CCVector2) (poly : List CCVector3) (j : ℕ)
    (M : CCVector3) (t : ℚ) (hn : 1 ≤ poly.length) (hj : j ≤ poly.length)
    (hM : OnEdge (vertexAt poly (j + poly.length - 1)) (vertexAt poly j) M t)
    (h : InsideContour σ P (withVertex poly j M)) : InsideContour σ P poly := by
  unfold InsideContour at h ⊢
  rw [length_withVertex poly j M hj] at h
  intro i hi hne
  rcases edge_of_poly poly j M t hn hj hM i hi with ⟨k, hk, e1, e2⟩ | ⟨hOn, ⟨k1, hk1, e1, e2⟩,
      ⟨k2, hk2, e3, e4⟩⟩
  · have := h k hk
    rw [e1, e2] at this
    exact this hne
  · have a1 := h k1 hk1
    rw [e1, e2] at a1
    have a2 := h k2 hk2
    rw [e3, e4] at a2
    exact inner_side_of_parts σ P _ _ M t hOn hne a1 a2

/-- A point strictly outside a contour is strictly outside the contour without one of the
vertices placed on its edges. -/
lemma strictlyOutside_of_withVertex (σ : ℚ) (P : CCVector2) (poly : List CCVector3) (j : ℕ)
    (M : CCVector3) (t : ℚ) (hn : 1 ≤ poly.length) (hj : j ≤ poly.length)
    (hM : OnEdge (vertexAt poly (j + poly.length - 1)) (vertexAt poly j) M t)
    (h : StrictlyOutside σ P (withVertex poly j M)) : StrictlyOutside σ P poly := by
  unfold StrictlyOutside at h ⊢
  rw [length_withVertex poly j M hj] at h
  obtain ⟨k, hkn, hk⟩ := h
  obtain ⟨i, hi, hcase⟩ := edge_of_withVertex poly j M t hn hj hM k hkn
  refine ⟨i, hi, ?_⟩
  rcases hcase with ⟨e1, e2⟩ | ⟨hOn, ⟨e1, e2⟩ | ⟨e1, e2⟩⟩
  · rw [e1, e2] at hk
    exact hk
  · rw [e1, e2, (cross2_onEdge P _ _ M t hOn).1] at hk
    have e : σ * (t * cross2 (vertexAt poly i) (vertexAt poly (i + 1)) P) =
        t * (σ * cross2 (vertexAt poly i) (vertexAt poly (i + 1)) P) := by ring
    rw [e] at hk
    exact neg_of_mul_neg_of_nonneg t _ hOn.1 hk
  · rw [e1, e2, (cross2_onEdge P _ _ M t hOn).2] at hk
    have e : σ * ((1 - t) * cross2 (vertexAt poly i) (vertexAt poly (i + 1)) P) =
        (1 - t) * (σ * cross2 (vertexAt poly i) (vertexAt poly (i + 1)) P) := by ring
    rw [e] at hk
    exact neg_of_mul_neg_of_nonneg (1 - t) _ (by linarith [hOn.2.1]) hk

/-- In a strictly convex contour no edge has zero length. -/
lemma StrictlyConvex.edge_ne (σ : ℚ) (poly : List CCVector3) (h : StrictlyConvex σ poly)
    (i : ℕ) (hi : i < poly.length) :
    planar (vertexAt poly i) ≠ planar (vertexAt poly (i + 1)) := by
  obtain ⟨h3, hc⟩ := h
  intro he
  have hk : (i + 2) % poly.length < poly.length := Nat.mod_lt _ (by omega)
  have hne1 : (i + 2) % poly.length ≠ i := by
    intro hcontra
    by_cases hw : i + 2 < poly.length
    · rw [Nat.mod_eq_of_lt hw] at hcontra; omega
    · have : (i + 2) % poly.length = i + 2 - poly.length := by
        rw [Nat.mod_eq_sub_mod (by omega), Nat.mod_eq_of_lt (by omega)]
      omega
  have hne2 : (i + 2) % poly.length ≠ (i + 1) % poly.length := by
    intro hcontra
    by_cases hw : i + 2 < poly.length
    · rw [Nat.mod_eq_of_lt hw, Nat.mod_eq_of_lt (by omega)] at hcontra; omega
    · have e2 : (i + 2) % poly.length = i + 2 - poly.length := by
        rw [Nat.mod_eq_sub_mod (by omega), Nat.mod_eq_of_lt (by omega)]
      by_cases hw1 : i + 1 < poly.length
      · rw [e2, Nat.mod_eq_of_lt hw1] at hcontra; omega
      · have e1 : (i + 1) % poly.length = i + 1 - poly.length := by
          rw [Nat.mod_eq_sub_mod (by omega), Nat.mod_eq_of_lt (by omega)]
        rw [e1, e2] at hcontra; omega
  have hpos := hc i ((i + 2) % poly.length) hi hk hne1 hne2
  have hx : (vertexAt poly i).x = (vertexAt poly (i + 1)).x := congrArg CCVector2.x he
  have hy : (vertexAt poly i).y = (vertexAt poly (i + 1)).y := congrArg CCVector2.y he
  have hz : cross2 (vertexAt poly i) (vertexAt poly (i + 1))
      (planar (vertexAt poly ((i + 2) % poly.length))) = 0 := by
    unfold cross2
    rw [hx, hy]
    ring
  rw [hz] at hpos
  simp at hpos

/-- A contour with further vertices on the edges of `corners` is crossed as often as
`corners`, and a point strictly inside (outside) it is strictly inside (outside)
`corners`. -/
lemma subdivides_core (σ : ℚ) (P : CCVector2) (corners poly : List CCVector3)
    (hc : 1 ≤ corners.length) (h : Subdivides corners poly) :
    corners.length ≤ poly.length ∧
    crossings P poly poly.length = crossings P corners corners.length ∧
    (InsideContour σ P poly → InsideContour σ P corners) ∧
    (StrictlyOutside σ P poly → StrictlyOutside σ P corners) := by
  induction h with
  | same => exact ⟨le_rfl, rfl, id, id⟩
  | vertex poly j M t _ hj hM ih =>
    obtain ⟨hlen, hcr, hin, hout⟩ := ih
    have hn : 1 ≤ poly.length := le_trans hc hlen
    refine ⟨?_, ?_, ?_, ?_⟩
    · rw [length_withVertex poly j M hj]; omega
    · rw [length_withVertex poly j M hj, crossings_withVertex P poly j M t hn hj hM, hcr]
    · exact fun h => hin (insideContour_of_withVertex σ P poly j M t hn hj hM h)
    · exact fun h => hout (strictlyOutside_of_withVertex σ P poly j M t hn hj hM h)

/-- The point-in-polygon test answers true strictly inside a convex contour. -/
lemma isPointInsidePoly_of_inside_convex (σ : ℚ) (P : CCVector2) (poly : List CCVector3)
    (hconv : ConvexContour σ poly) (hin : InsideContour σ P poly) :
    isPointInsidePoly P poly = true := by
  obtain ⟨corners, hsc, hsub⟩ := hconv
  have h3 := hsc.1
  obtain ⟨hlen, hcr, hin', _⟩ := subdivides_core σ P corners poly (by omega) hsub
  have hstrict : StrictlyInside σ P corners :=
    fun i hi => hin' hin i hi (StrictlyConvex.edge_ne σ corners hsc i hi)
  have hcore := isPointInsidePoly_of_inside σ P corners hsc hstrict
  rw [isPointInsidePoly_eq_odd P corners (by omega)] at hcore
  rw [isPointInsidePoly_eq_odd P poly (by omega), hcr]
  exact hcore

/-- The point-in-polygon test answers false strictly outside a convex contour. -/
lemma isPointInsidePoly_of_outside_convex (σ : ℚ) (P : CCVector2) (poly : List CCVector3)
    (hconv : ConvexContour σ poly) (hout : StrictlyOutside σ P poly) :
    isPointInsidePoly P poly = false := by
  obtain ⟨corners, hsc, hsub⟩ := hconv
  have h3 := hsc.1
  obtain ⟨hlen, hcr, _, hout'⟩ := subdivides_core σ P corners poly (by omega) hsub
  have hcore := isPointInsidePoly_of_outside σ P corners hsc (hout' hout)
  rw [isPointInsidePoly_eq_odd P corners (by omega)] at hcore
  rw [isPointInsidePoly_eq_odd P poly (by omega), hcr]
  exact hcore

end PointInPolygon

section Classifier

/-- The frustum pre-check holds exactly when every contour vertex projects in-frustum. -/
lemma polyInsideFrustum_iff (camera : ccGLCameraParameters) (poly : List CCVector3) :
    polyInsideFrustum camera poly = true ↔ allVerticesInFrustum camera poly := by
  unfold polyInsideFrustum allVerticesInFrustum
  have key : ∀ n, n ≤ poly.length →
      ((List.range n).foldl
        (fun inside i => if !(camera.project (poly.getD i zeroVector)).2 then false else inside)
        true = true ↔ ∀ i, i < n → (camera.project (poly.getD i zeroVector)).2 = true) := by
    intro n
    induction n with
    | zero => intro _; simp
    | succ n ih =>
      intro hn
      rw [List.range_succ, List.foldl_append]
      simp only [List.foldl_cons, List.foldl_nil]
      by_cases hp : (camera.project (poly.getD n zeroVector)).2 = true
      · simp only [hp, Bool.not_true, Bool.false_eq_true, if_false]
        rw [ih (Nat.le_of_succ_le hn)]
        constructor
        · intro h i hi
          rcases Nat.lt_succ_iff_lt_or_eq.mp hi with h1 | h1
          · exact h i h1
          · subst h1; exact hp
        · intro h i hi
          exact h i (Nat.lt_succ_of_lt hi)
      · simp only [Bool.not_eq_true] at hp
        simp only [hp, Bool.not_false, if_true, Bool.false_eq_true, false_iff]
        intro h
        have := h n (Nat.lt_succ_self n)
        rw [hp] at this
        exact Bool.false_ne_true this
  rw [key poly.length le_rfl]
  constructor
  · intro h v hv
    obtain ⟨n, hn, rfl⟩ := List.mem_iff_getElem.mp hv
    have := h n hn
    rwa [List.getD_eq_getElem _ _ hn] at this
  · intro h i hi
    rw [List.getD_eq_getElem _ _ hi]
    exact h _ (List.getElem_mem hi)

/-- The flag that the loop body of `segment` writes at a visible point. -/
lemma segmentPoint_visible (keep : Bool) (camera : ccGLCameraParameters)
    (poly points : List CCVector3) (vis : List Visibility) (i : ℕ)
    (hv : vis[i]? = some POINT_VISIBLE) :
    segmentPoint keep camera (polyInsideFrustum camera poly) poly points vis i =
      vis.set i (if keep = pointInsideSpec camera poly (points.getD i zeroVector)
        then POINT_VISIBLE else POINT_HIDDEN) := by
  unfold segmentPoint
  rw [if_pos hv]
  unfold pointInsideSpec recentredProjection
  have hpf : polyInsideFrustum camera poly = decide (allVerticesInFrustum camera poly) := by
    by_cases hall : allVerticesInFrustum camera poly
    · rw [(polyInsideFrustum_iff camera poly).mpr hall]; simp [hall]
    · cases h : polyInsideFrustum camera poly
      · simp [hall]
      · exact absurd ((polyInsideFrustum_iff camera poly).mp h) hall
  rw [hpf]
  dsimp only
  generalize camera.project (points.getD i zeroVector) = pr
  obtain ⟨Q, fr⟩ := pr
  dsimp only
  generalize isPointInsidePoly
    ⟨camera.toPointCoordinateType (Q.x - (camera.viewport 2 : ℚ) / 2),
     camera.toPointCoordinateType (Q.y - (camera.viewport 3 : ℚ) / 2)⟩ poly = pin
  by_cases hall : allVerticesInFrustum camera poly <;>
    cases fr <;> cases keep <;> cases pin <;> simp [hall]

/-- A hidden or absent entry is left alone by the loop body. -/
lemma segmentPoint_not_visible (keep : Bool) (camera : ccGLCameraParameters) (pin : Bool)
    (poly points : List CCVector3) (vis : List Visibility) (i : ℕ)
    (hv : vis[i]? ≠ some POINT_VISIBLE) :
    segmentPoint keep camera pin poly points vis i = vis := by
  unfold segmentPoint
  rw [if_neg hv]

/-- Entry `j` after the loop body at index `i`, for any value of the frustum flag. -/
lemma segmentPoint_getElem? (keep : Bool) (camera : ccGLCameraParameters) (pin : Bool)
    (poly points : List CCVector3) :
    ∃ f : ℕ → Visibility, ∀ (vis : List Visibility) (i j : ℕ),
      (segmentPoint keep camera pin poly points vis i)[j]? =
        if i = j ∧ vis[j]? = some POINT_VISIBLE then some (f i) else vis[j]? := by
  refine ⟨fun i =>
    if (keep != (if ((camera.project (points.getD i zeroVector)).2 || !pin) = true then
        isPointInsidePoly
          ⟨camera.toPointCoordinateType
             ((camera.project (points.getD i zeroVector)).1.x - (camera.viewport 2 : ℚ) / 2),
           camera.toPointCoordinateType
             ((camera.project (points.getD i zeroVector)).1.y - (camera.viewport 3 : ℚ) / 2)⟩
          poly
        else false)) = true
    then POINT_HIDDEN else POINT_VISIBLE, ?_⟩
  intro vis i j
  by_cases hv : vis[i]? = some POINT_VISIBLE
  · unfold segmentPoint
    rw [if_pos hv]
    dsimp only
    rw [List.getElem?_set]
    by_cases hij : i = j
    · subst hij
      have hlt : i < vis.length := (List.getElem?_eq_some.mp hv).1
      simp [hv, hlt]
    · simp [hij]
  · rw [segmentPoint_not_visible _ _ _ _ _ _ _ hv]
    by_cases hij : i = j
    · subst hij; simp [hv]
    · simp [hij]

/-- Entry `j` after the loop body at index `i`, with the frustum flag of `segment`. -/
lemma segmentPoint_getElem?_spec (keep : Bool) (camera : ccGLCameraParameters)
    (poly points : List CCVector3) (vis : List Visibility) (i j : ℕ) :
    (segmentPoint keep camera (polyInsideFrustum camera poly) poly points vis i)[j]? =
      if i = j ∧ vis[j]? = some POINT_VISIBLE then
        some (if keep = pointInsideSpec camera poly (points.getD i zeroVector)
          then POINT_VISIBLE else POINT_HIDDEN)
      else vis[j]? := by
  by_cases hv : vis[i]? = some POINT_VISIBLE
  · rw [segmentPoint_visible _ _ _ _ _ _ hv, List.getElem?_set]
    by_cases hij : i = j
    · subst hij
      have hlt : i < vis.length := (List.getElem?_eq_some.mp hv).1
      simp [hv, hlt]
    · simp [hij]
  · rw [segmentPoint_not_visible _ _ _ _ _ _ _ hv]
    by_cases hij : i = j
    · subst hij; simp [hv]
    · simp [hij]

/-- A loop over `0 .. n-1` whose body rewrites only its own visible entry. -/
lemma foldl_range_pointwise {step : List Visibility → ℕ → List Visibility}
    {f : ℕ → Visibility}
    (hstep : ∀ (vis : List Visibility) (i j : ℕ), (step vis i)[j]? =
      if i = j ∧ vis[j]? = some POINT_VISIBLE then some (f i) else vis[j]?)
    (n : ℕ) (vis : List Visibility) (j : ℕ) :
    ((List.range n).foldl step vis)[j]? =
      if j < n ∧ vis[j]? = some POINT_VISIBLE then some (f j) else vis[j]? := by
  induction n with
  | zero => simp
  | succ n ih =>
    rw [List.range_succ, List.foldl_append]
    simp only [List.foldl_cons, List.foldl_nil]
    rw [hstep, ih]
    by_cases hnj : n = j
    · subst hnj
      simp
    · have h1 : j < n + 1 ↔ j < n := by omega
      simp [hnj, h1]

/-- The loop of `segment` preserves the length of the visibility table. -/
lemma foldl_range_length {step : List Visibility → ℕ → List Visibility}
    {f : ℕ → Visibility}
    (hstep : ∀ (vis : List Visibility) (i j : ℕ), (step vis i)[j]? =
      if i = j ∧ vis[j]? = some POINT_VISIBLE then some (f i) else vis[j]?)
    (n : ℕ) (vis : List Visibility) (j : ℕ) :
    (((List.range n).foldl step vis)[j]? = none ↔ vis[j]? = none) := by
  rw [foldl_range_pointwise hstep]
  by_cases h : j < n ∧ vis[j]? = some POINT_VISIBLE
  · simp [h]
  · simp [h]

/-- Neither branch of `pauseSegmentationMode` touches the registered point sets. -/
lemma pauseSegmentationMode_toSegment (b : Bool) (s : Tool) :
    (pauseSegmentationMode b s).m_toSegment = s.m_toSegment := by
  unfold pauseSegmentationMode allowPolylineExport
  split
  · rfl
  · split
    · dsimp only
      split <;> rfl
    · rfl

/-- The registered point sets after `segment` with a window and a closed contour. -/
lemma segment_toSegment (keep : Bool) (s : Tool) (win : ccGLWindow)
    (hwin : s.m_associatedWin = some win) (hclosed : s.m_segmentationPoly.closed = true) :
    (segment keep s).m_toSegment =
      s.m_toSegment.map (segmentCloud keep win.getGLCameraParameters
        (polyInsideFrustum win.getGLCameraParameters (polyPoints s)) (polyPoints s)) := by
  unfold segment
  rw [hwin]
  simp only [hclosed, Bool.not_true, Bool.false_eq_true, if_false]
  rw [pauseSegmentationMode_toSegment]

/-- Either `segment` leaves the registered point sets alone, or it runs its loop on each. -/
lemma segment_toSegment_cases (keep : Bool) (s : Tool) :
    (segment keep s).m_toSegment = s.m_toSegment ∨
    ∃ camera pin poly, (segment keep s).m_toSegment =
      s.m_toSegment.map (segmentCloud keep camera pin poly) := by
  unfold segment
  split
  · left; rfl
  · rename_i win _
    split
    · left; rfl
    · right
      exact ⟨win.getGLCameraParameters, _, polyPoints s,
        by rw [pauseSegmentationMode_toSegment]⟩

/-- A hidden flag stays hidden through the loop of `segment` over one cloud. -/
lemma segmentCloud_hidden (keep : Bool) (camera : ccGLCameraParameters) (pin : Bool)
    (poly : List CCVector3) (cloud : ccGenericPointCloud) (i : ℕ)
    (h : cloud.visibilityArray[i]? = some POINT_HIDDEN) :
    (segmentCloud keep camera pin poly cloud).visibilityArray[i]? = some POINT_HIDDEN := by
  obtain ⟨f, hf⟩ := segmentPoint_getElem? keep camera pin poly cloud.points
  unfold segmentCloud
  dsimp only
  rw [foldl_range_pointwise hf, h]
  simp

/-- The loop of `segment` over one cloud keeps the size of the visibility table. -/
lemma segmentCloud_none (keep : Bool) (camera : ccGLCameraParameters) (pin : Bool)
    (poly : List CCVector3) (cloud : ccGenericPointCloud) (i : ℕ) :
    (segmentCloud keep camera pin poly cloud).visibilityArray[i]? = none ↔
      cloud.visibilityArray[i]? = none := by
  obtain ⟨f, hf⟩ := segmentPoint_getElem? keep camera pin poly cloud.points
  unfold segmentCloud
  dsimp only
  exact foldl_range_length hf _ _ _

/-- One call of `segment` keeps a hidden point hidden. -/
lemma segment_hidden (keep : Bool) (s : Tool) (c i : ℕ)
    (h : hasFlag s c i POINT_HIDDEN) : hasFlag (segment keep s) c i POINT_HIDDEN := by
  obtain ⟨cloud, hc, hv⟩ := h
  rcases segment_toSegment_cases keep s with h0 | ⟨camera, pin, poly, h1⟩
  · exact ⟨cloud, by rw [h0]; exact hc, hv⟩
  · refine ⟨segmentCloud keep camera pin poly cloud, ?_, segmentCloud_hidden _ _ _ _ _ _ hv⟩
    rw [h1, List.getElem?_map, hc]
    rfl

/-- A point visible after one call of `segment` was visible before it. -/
lemma segment_visible_before (keep : Bool) (s : Tool) (c i : ℕ)
    (h : hasFlag (segment keep s) c i POINT_VISIBLE) : hasFlag s c i POINT_VISIBLE := by
  obtain ⟨cloud', hc', hv'⟩ := h
  rcases segment_toSegment_cases keep s with h0 | ⟨camera, pin, poly, h1⟩
  · exact ⟨cloud', by rw [← h0]; exact hc', hv'⟩
  · rw [h1, List.getElem?_map] at hc'
    cases hc : s.m_toSegment[c]? with
    | none => rw [hc] at hc'; simp at hc'
    | some cloud =>
      rw [hc] at hc'
      simp only [Option.map_some', Option.some.injEq] at hc'
      subst hc'
      refine ⟨cloud, hc, ?_⟩
      cases hv : cloud.visibilityArray[i]? with
      | none =>
        rw [(segmentCloud_none keep camera pin poly cloud i).mpr hv] at hv'
        simp at hv'
      | some v =>
        cases v
        · rfl
        · rw [segmentCloud_hidden _ _ _ _ _ _ hv] at hv'
          simp at hv'

/-- The flag written by `segment` at a point that was visible. -/
lemma segment_hasFlag_of_visible (keep : Bool) (s : Tool) (win : ccGLWindow)
    (hwin : s.m_associatedWin = some win) (hclosed : s.m_segmentationPoly.closed = true)
    (c i : ℕ) (cloud : ccGenericPointCloud) (hc : s.m_toSegment[c]? = some cloud)
    (hi : i < cloud.points.length)
    (hv : cloud.visibilityArray[i]? = some POINT_VISIBLE) :
    hasFlag (segment keep s) c i
      (if keep = pointInsideSpec win.getGLCameraParameters (polyPoints s) cloud.points[i]
        then POINT_VISIBLE else POINT_HIDDEN) := by
  refine ⟨segmentCloud keep win.getGLCameraParameters
    (polyInsideFrustum win.getGLCameraParameters (polyPoints s)) (polyPoints s) cloud, ?_, ?_⟩
  · rw [segment_toSegment keep s win hwin hclosed, List.getElem?_map, hc]
    rfl
  · unfold segmentCloud
    dsimp only
    rw [foldl_range_pointwise
      (segmentPoint_getElem?_spec keep win.getGLCameraParameters (polyPoints s) cloud.points)]
    rw [if_pos ⟨hi, hv⟩, List.getD_eq_getElem _ _ hi]

/-- C1: `segment(keepPointsInside)` with an associated window and a closed contour: a point
whose flag is Visible beforehand ends Visible exactly when `keepPointsInside` equals
`pointInside`, and Hidden otherwise, where `pointInside` is the point-in-polygon test of the
re-centred projection when the point projects in-frustum or some contour vertex does not,
and false for an out-of-frustum point when every contour vertex projects in-frustum. -/
theorem segment_flag_of_visible_point (keepPointsInside : Bool) (s : Tool) (win : ccGLWindow)
    (hwin : s.m_associatedWin = some win) (hclosed : s.m_segmentationPoly.closed = true)
    (c i : ℕ) (cloud : ccGenericPointCloud) (hc : s.m_toSegment[c]? = some cloud)
    (hi : i < cloud.points.length)
    (hv : cloud.visibilityArray[i]? = some POINT_VISIBLE) :
    ∃ v, hasFlag (segment keepPointsInside s) c i v ∧
      (v = POINT_VISIBLE ↔
        keepPointsInside = pointInsideSpec win.getGLCameraParameters (polyPoints s) cloud.points[i]) ∧
      (v = POINT_HIDDEN ↔
        keepPointsInside ≠ pointInsideSpec win.getGLCameraParameters (polyPoints s) cloud.points[i]) := by
  refine ⟨_, segment_hasFlag_of_visible keepPointsInside s win hwin hclosed c i cloud hc hi hv,
    ?_, ?_⟩
  · by_cases h : keepPointsInside =
      pointInsideSpec win.getGLCameraParameters (polyPoints s) cloud.points[i]
    · simp [h]
    · simp [h]
  · by_cases h : keepPointsInside =
      pointInsideSpec win.getGLCameraParameters (polyPoints s) cloud.points[i]
    · simp [h]
    · simp [h]

/-- Instance of C1: the origin of `demoCloud` under `segment(true)` on the square contour. -/
theorem segment_flag_of_visible_point_witness :
    ∃ v, hasFlag (segment true squareTool) 0 0 v ∧
      (v = POINT_VISIBLE ↔
        true = pointInsideSpec demoWindow.getGLCameraParameters (polyPoints squareTool)
          (⟨0, 0, 0⟩ : CCVector3)) ∧
      (v = POINT_HIDDEN ↔
        true ≠ pointInsideSpec demoWindow.getGLCameraParameters (polyPoints squareTool)
          (⟨0, 0, 0⟩ : CCVector3)) :=
  segment_flag_of_visible_point true squareTool demoWindow rfl rfl 0 0 demoCloud rfl
    (by decide) rfl

/-- C2: monotonic hiding. Along any run of `segment` calls (either policy, any contour, any
camera) a point that is Hidden stays Hidden, and every point Visible at the end was Visible
at the beginning. -/
theorem segment_monotonic_hiding (s s' : Tool) (hrun : SegmentCalls s s') (c i : ℕ) :
    (hasFlag s c i POINT_HIDDEN → hasFlag s' c i POINT_HIDDEN) ∧
    (hasFlag s' c i POINT_VISIBLE → hasFlag s c i POINT_VISIBLE) := by
  induction hrun with
  | done s => exact ⟨id, id⟩
  | call keep s env s' henv _ ih =>
    have hsame : ∀ v, hasFlag env c i v ↔ hasFlag s c i v := by
      intro v
      unfold hasFlag
      rw [henv]
    constructor
    · intro h
      exact ih.1 (segment_hidden keep env c i ((hsame _).mpr h))
    · intro h
      exact (hsame _).mp (segment_visible_before keep env c i (ih.2 h))

/-- The square contour of `squareTool` as `segment` reads it. -/
lemma polyPoints_squareTool : polyPoints squareTool = squareVertices := rfl

/-- All four corners of the square project inside the frustum of `orthoCamera`. -/
lemma square_in_frustum : allVerticesInFrustum orthoCamera squareVertices := by
  intro v hv
  simp only [squareVertices, List.mem_cons, List.mem_singleton, List.not_mem_nil, or_false] at hv
  rcases hv with rfl | rfl | rfl | rfl <;> simp [orthoCamera] <;> norm_num

/-- The point-in-polygon test at the centre of the square. -/
lemma isPointInsidePoly_square_centre : isPointInsidePoly ⟨0, 0⟩ squareVertices = true := by
  simp [isPointInsidePoly, squareVertices, crossingStep, List.range', zeroVector]
  norm_num

/-- The point-in-polygon test at `(100, 100)`, outside the square. -/
lemma isPointInsidePoly_square_far : isPointInsidePoly ⟨100, 100⟩ squareVertices = false := by
  decide

/-- After `segmentIn` on the square the point `(100, 100, 0)` of `demoCloud` is hidden. -/
lemma segmentIn_squareTool_far_hidden : hasFlag (segmentIn squareTool) 0 1 POINT_HIDDEN := by
  have h := segment_hasFlag_of_visible true squareTool demoWindow rfl rfl 0 1 demoCloud rfl
    (by decide) rfl
  have hp : pointInsideSpec demoWindow.getGLCameraParameters (polyPoints squareTool)
      (demoCloud.points[1]) = false := by
    rw [polyPoints_squareTool]
    unfold pointInsideSpec
    have : recentredProjection demoWindow.getGLCameraParameters (demoCloud.points[1]) =
        ⟨100, 100⟩ := by
      simp [recentredProjection, demoWindow, orthoCamera, demoCloud]
      norm_num
    rw [this, isPointInsidePoly_square_far]
    simp
  rw [hp] at h
  exact h

/-- C3 fails without an associated window: `segment` on a tool with no window and an open
contour returns without reporting anything. -/
theorem segment_open_contour_silent_without_window :
    unlinkedTool.m_segmentationPoly.closed = false ∧
    (segment true unlinkedTool).errorLog = unlinkedTool.errorLog ∧
    (segment true unlinkedTool).errorLog = [] :=
  ⟨rfl, rfl, rfl⟩

/-- C3 (amended): `segment` called while the contour is not closed performs no mutation
(visibility flags, contour vertices, contour references, closed flag and builder state are
those before the call); with an associated window it reports the error, without one it
returns silently. -/
theorem segment_open_contour_no_mutation (keepPointsInside : Bool) (s : Tool)
    (hopen : s.m_segmentationPoly.closed = false) :
    (segment keepPointsInside s).m_toSegment = s.m_toSegment ∧
    (segment keepPointsInside s).m_polyVertices = s.m_polyVertices ∧
    (segment keepPointsInside s).m_segmentationPoly = s.m_segmentationPoly ∧
    (segment keepPointsInside s).m_state = s.m_state ∧
    (segment keepPointsInside s).m_somethingHasChanged = s.m_somethingHasChanged ∧
    (∀ win, s.m_associatedWin = some win →
      segment keepPointsInside s = { s with errorLog := s.errorLog ++ [notClosedMessage] }) ∧
    (s.m_associatedWin = none → segment keepPointsInside s = s) := by
  unfold segment
  cases hwin : s.m_associatedWin with
  | none => simp
  | some win => simp [hopen, notClosedMessage]

/-- Instance of C3 (amended): `segmentIn` on the square contour re-opened. -/
theorem segment_open_contour_no_mutation_witness :
    (segment true { squareTool with m_segmentationPoly := ⟨[0, 1, 2, 3], false⟩ }).m_toSegment
      = [demoCloud] ∧
    (segment true { squareTool with m_segmentationPoly := ⟨[0, 1, 2, 3], false⟩ }).errorLog
      = [notClosedMessage] :=
  have h := segment_open_contour_no_mutation true
    { squareTool with m_segmentationPoly := ⟨[0, 1, 2, 3], false⟩ } rfl
  ⟨h.1, by rw [h.2.2.2.2.2.1 demoWindow rfl]; rfl⟩

/-- Entry `j` after the body of the variant loop at index `i`. -/
lemma segmentPointAllTested_getElem? (keep : Bool) (camera : ccGLCameraParameters)
    (poly points : List CCVector3) (vis : List Visibility) (i j : ℕ) :
    (segmentPointAllTested keep camera poly points vis i)[j]? =
      if i = j ∧ vis[j]? = some POINT_VISIBLE then
        some (if keep = isPointInsidePoly (recentredProjection camera (points.getD i zeroVector)) poly
          then POINT_VISIBLE else POINT_HIDDEN)
      else vis[j]? := by
  unfold segmentPointAllTested
  by_cases hv : vis[i]? = some POINT_VISIBLE
  · rw [if_pos hv]
    dsimp only
    rw [List.getElem?_set]
    have hlt : i < vis.length := (List.getElem?_eq_some.mp hv).1
    by_cases hij : i = j
    · subst hij
      cases keep <;>
        cases isPointInsidePoly (recentredProjection camera (points.getD i zeroVector)) poly <;>
        simp [hv, hlt]
    · simp [hij]
  · rw [if_neg hv]
    by_cases hij : i = j
    · subst hij; simp [hv]
    · simp [hij]

/-- The registered point sets after the variant of `segment`. -/
lemma segmentAllTested_toSegment (keep : Bool) (s : Tool) (win : ccGLWindow)
    (hwin : s.m_associatedWin = some win) (hclosed : s.m_segmentationPoly.closed = true) :
    (segmentAllTested keep s).m_toSegment =
      s.m_toSegment.map (segmentCloudAllTested keep win.getGLCameraParameters (polyPoints s)) := by
  unfold segmentAllTested
  rw [hwin]
  simp only [hclosed, Bool.not_true, Bool.false_eq_true, if_false]
  rw [pauseSegmentationMode_toSegment]

/-- Flag of a point after `segment`, for every index. -/
lemma segment_flag_at (keep : Bool) (s : Tool) (win : ccGLWindow)
    (hwin : s.m_associatedWin = some win) (hclosed : s.m_segmentationPoly.closed = true)
    (c i : ℕ) (cloud : ccGenericPointCloud) (hc : s.m_toSegment[c]? = some cloud) (v : Visibility) :
    hasFlag (segment keep s) c i v ↔
      (if i < cloud.points.length ∧ cloud.visibilityArray[i]? = some POINT_VISIBLE then
        some (if keep = pointInsideSpec win.getGLCameraParameters (polyPoints s)
          (cloud.points.getD i zeroVector) then POINT_VISIBLE else POINT_HIDDEN)
      else cloud.visibilityArray[i]?) = some v := by
  unfold hasFlag
  rw [segment_toSegment keep s win hwin hclosed, List.getElem?_map, hc]
  simp only [Option.map_some', Option.some.injEq, exists_eq_left']
  unfold segmentCloud
  dsimp only
  rw [foldl_range_pointwise
    (segmentPoint_getElem?_spec keep win.getGLCameraParameters (polyPoints s) cloud.points)]

/-- Flag of a point after the variant of `segment`, for every index. -/
lemma segmentAllTested_flag_at (keep : Bool) (s : Tool) (win : ccGLWindow)
    (hwin : s.m_associatedWin = some win) (hclosed : s.m_segmentationPoly.closed = true)
    (c i : ℕ) (cloud : ccGenericPointCloud) (hc : s.m_toSegment[c]? = some cloud) (v : Visibility) :
    hasFlag (segmentAllTested keep s) c i v ↔
      (if i < cloud.points.length ∧ cloud.visibilityArray[i]? = some POINT_VISIBLE then
        some (if keep = isPointInsidePoly
          (recentredProjection win.getGLCameraParameters (cloud.points.getD i zeroVector))
          (polyPoints s) then POINT_VISIBLE else POINT_HIDDEN)
      else cloud.visibilityArray[i]?) = some v := by
  unfold hasFlag
  rw [segmentAllTested_toSegment keep s win hwin hclosed, List.getElem?_map, hc]
  simp only [Option.map_some', Option.some.injEq, exists_eq_left']
  unfold segmentCloudAllTested
  dsimp only
  rw [foldl_range_pointwise
    (segmentPointAllTested_getElem? keep win.getGLCameraParameters (polyPoints s) cloud.points)]

/-- With the whole contour in the frustum, `pointInside` is the test for an in-frustum
point and false for any other point. -/
lemma pointInsideSpec_of_all (camera : ccGLCameraParameters) (poly : List CCVector3)
    (P : CCVector3) (hall : allVerticesInFrustum camera poly) :
    pointInsideSpec camera poly P =
      ((camera.project P).2 && isPointInsidePoly (recentredProjection camera P) poly) := by
  unfold pointInsideSpec
  cases hfr : (camera.project P).2 <;> simp [hall]

/-- Re-centred projection of the out-of-frustum point of `demoCloud`: the centre. -/
lemma recentred_depth_point :
    recentredProjection demoWindow.getGLCameraParameters (⟨0, 0, 5⟩ : CCVector3) = ⟨0, 0⟩ := by
  simp [recentredProjection, demoWindow, orthoCamera]
  norm_num

/-- After `segment(true)` on the square the out-of-frustum point of `demoCloud` is hidden. -/
lemma segment_squareTool_depth_hidden : hasFlag (segment true squareTool) 0 2 POINT_HIDDEN := by
  have hfr : (demoWindow.getGLCameraParameters.project
      (demoCloud.points.getD 2 zeroVector)).2 = false := by
    simp [demoWindow, orthoCamera, demoCloud]
  have hall : allVerticesInFrustum demoWindow.getGLCameraParameters (polyPoints squareTool) :=
    square_in_frustum
  rw [segment_flag_at true squareTool demoWindow rfl rfl 0 2 demoCloud rfl,
    pointInsideSpec_of_all _ _ _ hall, hfr]
  rfl

/-- After the all-tested variant on the square the out-of-frustum point stays visible. -/
lemma segmentAllTested_squareTool_depth_visible :
    hasFlag (segmentAllTested true squareTool) 0 2 POINT_VISIBLE := by
  have hrec : recentredProjection demoWindow.getGLCameraParameters
      (demoCloud.points.getD 2 zeroVector) = ⟨0, 0⟩ := recentred_depth_point
  rw [segmentAllTested_flag_at true squareTool demoWindow rfl rfl 0 2 demoCloud rfl,
    hrec, polyPoints_squareTool, isPointInsidePoly_square_centre]
  simp [demoCloud]

/-- C5 fails: on the square contour, wholly inside the frustum of `orthoCamera`, the point
`(0, 0, 5)` projects to the centre of the square but out of the frustum; `segment(true)` hides
it while the variant that tests every visible point keeps it visible. -/
theorem short_circuit_changes_flag :
    allVerticesInFrustum demoWindow.getGLCameraParameters (polyPoints squareTool) ∧
    hasFlag (segment true squareTool) 0 2 POINT_HIDDEN ∧
    hasFlag (segmentAllTested true squareTool) 0 2 POINT_VISIBLE :=
  ⟨square_in_frustum, segment_squareTool_depth_hidden, segmentAllTested_squareTool_depth_visible⟩

/-- C5 (amended): for a contour whose vertices all project inside the frustum, `segment`
gives every point the same final flag as the variant that runs the point-in-polygon test
for every visible point, except exactly the points that were Visible, project out of the
frustum and whose re-centred projection passes the test: those get the other flag. -/
theorem short_circuit_equivalence (keepPointsInside : Bool) (s : Tool) (win : ccGLWindow)
    (hwin : s.m_associatedWin = some win) (hclosed : s.m_segmentationPoly.closed = true)
    (hall : allVerticesInFrustum win.getGLCameraParameters (polyPoints s))
    (c i : ℕ) (v : Visibility) (hv : hasFlag (segment keepPointsInside s) c i v) :
    ∃ v', hasFlag (segmentAllTested keepPointsInside s) c i v' ∧
      (v = v' ↔ ¬ shortCircuited s win.getGLCameraParameters c i) := by
  have hcloud : ∃ cloud, s.m_toSegment[c]? = some cloud := by
    obtain ⟨cloud', hc', _⟩ := hv
    rw [segment_toSegment keepPointsInside s win hwin hclosed, List.getElem?_map] at hc'
    cases hc : s.m_toSegment[c]? with
    | none => rw [hc] at hc'; simp at hc'
    | some cloud => exact ⟨cloud, rfl⟩
  obtain ⟨cloud, hc⟩ := hcloud
  rw [segment_flag_at keepPointsInside s win hwin hclosed c i cloud hc,
    pointInsideSpec_of_all _ _ _ hall] at hv
  have hsc : shortCircuited s win.getGLCameraParameters c i ↔
      (cloud.visibilityArray[i]? = some POINT_VISIBLE ∧
        ∃ h : i < cloud.points.length,
          (win.getGLCameraParameters.project cloud.points[i]).2 = false ∧
          isPointInsidePoly (recentredProjection win.getGLCameraParameters cloud.points[i])
            (polyPoints s) = true) := by
    unfold shortCircuited
    constructor
    · rintro ⟨cloud2, hc2, h⟩
      rw [hc] at hc2
      cases hc2
      exact h
    · intro h
      exact ⟨cloud, hc, h⟩
  by_cases hcond : i < cloud.points.length ∧ cloud.visibilityArray[i]? = some POINT_VISIBLE
  · obtain ⟨hi, hvis⟩ := hcond
    rw [if_pos ⟨hi, hvis⟩, List.getD_eq_getElem _ _ hi] at hv
    refine ⟨if keepPointsInside = isPointInsidePoly
        (recentredProjection win.getGLCameraParameters cloud.points[i]) (polyPoints s)
      then POINT_VISIBLE else POINT_HIDDEN, ?_, ?_⟩
    · rw [segmentAllTested_flag_at keepPointsInside s win hwin hclosed c i cloud hc,
        if_pos ⟨hi, hvis⟩, List.getD_eq_getElem _ _ hi]
    · have hsc' : shortCircuited s win.getGLCameraParameters c i ↔
          ((win.getGLCameraParameters.project cloud.points[i]).2 = false ∧
            isPointInsidePoly (recentredProjection win.getGLCameraParameters cloud.points[i])
              (polyPoints s) = true) := by
        rw [hsc]
        constructor
        · rintro ⟨_, _, h⟩
          exact h
        · intro h
          exact ⟨hvis, hi, h⟩
      rw [hsc']
      have hv' := Option.some.inj hv
      rw [← hv']
      generalize (win.getGLCameraParameters.project cloud.points[i]).2 = fr
      generalize isPointInsidePoly
        (recentredProjection win.getGLCameraParameters cloud.points[i]) (polyPoints s) = pin
      cases keepPointsInside <;> cases fr <;> cases pin <;> simp
  · rw [if_neg hcond] at hv
    refine ⟨v, ?_, ?_⟩
    · rw [segmentAllTested_flag_at keepPointsInside s win hwin hclosed c i cloud hc,
        if_neg hcond]
      exact hv
    · rw [hsc]
      simp only [true_iff, not_and, not_exists]
      intro hvis hi
      exact absurd ⟨hi, hvis⟩ hcond

/-- Instance of C5 (amended) at the short-circuited point of `demoCloud`: the flags of the
two classifiers differ there. -/
theorem short_circuit_equivalence_witness :
    ∃ v', hasFlag (segmentAllTested true squareTool) 0 2 v' ∧
      (POINT_HIDDEN = v' ↔ ¬ shortCircuited squareTool demoWindow.getGLCameraParameters 0 2) :=
  short_circuit_equivalence true squareTool demoWindow rfl rfl square_in_frustum 0 2
    POINT_HIDDEN segment_squareTool_depth_hidden

/-- The square contour is strictly convex, counter-clockwise. -/
lemma squareVertices_convex : StrictlyConvex 1 squareVertices := by
  refine ⟨by decide, ?_⟩
  intro i k hi hk h1 h2
  have hi' : i < 4 := hi
  have hk' : k < 4 := hk
  have hl : squareVertices.length = 4 := rfl
  rw [hl] at h2
  interval_cases i <;> interval_cases k <;>
    first
      | exact absurd rfl h1
      | exact absurd rfl h2
      | norm_num [vertexAt, squareVertices, cross2, planar]

/-- The centre is strictly inside the square. -/
lemma square_centre_inside : StrictlyInside 1 ⟨0, 0⟩ squareVertices := by
  intro i hi
  have hi' : i < 4 := hi
  interval_cases i <;> norm_num [vertexAt, squareVertices, cross2]

/-- The point `(100, 100)` is strictly outside the square. -/
lemma square_far_outside : StrictlyOutside 1 ⟨100, 100⟩ squareVertices := by
  refine ⟨1, by decide, ?_⟩
  norm_num [vertexAt, squareVertices, cross2]

/-- Re-centred projections of the points of `demoCloud`. -/
lemma recentred_demo_points :
    recentredProjection demoWindow.getGLCameraParameters (⟨0, 0, 0⟩ : CCVector3) = ⟨0, 0⟩ ∧
    recentredProjection demoWindow.getGLCameraParameters (⟨100, 100, 0⟩ : CCVector3)
      = ⟨100, 100⟩ ∧
    recentredProjection demoWindow.getGLCameraParameters (⟨-10, 0, 0⟩ : CCVector3)
      = ⟨-10, 0⟩ := by
  refine ⟨?_, ?_, ?_⟩ <;>
    (simp [recentredProjection, demoWindow, orthoCamera]; norm_num)

/-- The point-in-polygon test on the left edge of the square: the edge counts as inside. -/
lemma isPointInsidePoly_square_left_edge :
    isPointInsidePoly ⟨-10, 0⟩ squareVertices = true := by
  simp [isPointInsidePoly, squareVertices, crossingStep, List.range', zeroVector]
  norm_num

/-- The point-in-polygon test at the centre of the smaller square. -/
lemma isPointInsidePoly_small_centre :
    isPointInsidePoly ⟨0, 0⟩ smallSquareVertices = true := by
  simp [isPointInsidePoly, smallSquareVertices, crossingStep, List.range', zeroVector]
  norm_num

/-- The point-in-polygon test at `(-10, 0)`, left of the smaller square. -/
lemma isPointInsidePoly_small_left :
    isPointInsidePoly ⟨-10, 0⟩ smallSquareVertices = false := by
  simp [isPointInsidePoly, smallSquareVertices, crossingStep, List.range', zeroVector]
  norm_num

/-- All four corners of the smaller square project inside the frustum of `orthoCamera`. -/
lemma small_square_in_frustum : allVerticesInFrustum orthoCamera smallSquareVertices := by
  intro v hv
  simp only [smallSquareVertices, List.mem_cons, List.mem_singleton, List.not_mem_nil,
    or_false] at hv
  rcases hv with rfl | rfl | rfl | rfl <;> simp [orthoCamera] <;> norm_num

/-- The first pass, `segmentIn` on the square, keeps the origin and the point on the left
edge Visible. -/
lemma segmentIn_squareTool_kept :
    hasFlag (segmentIn squareTool) 0 0 POINT_VISIBLE ∧
    hasFlag (segmentIn squareTool) 0 3 POINT_VISIBLE := by
  have hall : allVerticesInFrustum demoWindow.getGLCameraParameters (polyPoints squareTool) :=
    square_in_frustum
  constructor
  · have hfr : (demoWindow.getGLCameraParameters.project
        (demoCloud.points.getD 0 zeroVector)).2 = true := by
      simp [demoWindow, orthoCamera, demoCloud]
    have hrec : recentredProjection demoWindow.getGLCameraParameters
        (demoCloud.points.getD 0 zeroVector) = ⟨0, 0⟩ := recentred_demo_points.1
    unfold segmentIn
    rw [segment_flag_at true squareTool demoWindow rfl rfl 0 0 demoCloud rfl,
      pointInsideSpec_of_all _ _ _ hall, hfr, hrec, polyPoints_squareTool,
      isPointInsidePoly_square_centre]
    rfl
  · have hfr : (demoWindow.getGLCameraParameters.project
        (demoCloud.points.getD 3 zeroVector)).2 = true := by
      simp [demoWindow, orthoCamera, demoCloud]
      norm_num
    have hrec : recentredProjection demoWindow.getGLCameraParameters
        (demoCloud.points.getD 3 zeroVector) = ⟨-10, 0⟩ := recentred_demo_points.2.2
    unfold segmentIn
    rw [segment_flag_at true squareTool demoWindow rfl rfl 0 3 demoCloud rfl,
      pointInsideSpec_of_all _ _ _ hall, hfr, hrec, polyPoints_squareTool,
      isPointInsidePoly_square_left_edge]
    rfl

/-- The second pass, `segmentOut` on the smaller square, hides the origin and keeps the
point `(-10, 0, 0)`, which lies out of the smaller square. -/
lemma segmentOut_redrawnTool_flags :
    hasFlag (segmentOut redrawnTool) 0 0 POINT_HIDDEN ∧
    hasFlag (segmentOut redrawnTool) 0 3 POINT_VISIBLE := by
  obtain ⟨⟨c0, hc0, hv0⟩, ⟨c3, hc3, hv3⟩⟩ := segmentIn_squareTool_kept
  have hseg : redrawnTool.m_toSegment = (segmentIn squareTool).m_toSegment := rfl
  have hpts : (segmentIn squareTool).m_toSegment[0]? = some c0 → c0.points = demoCloud.points := by
    intro h
    unfold segmentIn at h
    rw [segment_toSegment true squareTool demoWindow rfl rfl] at h
    simp only [squareTool, List.map_cons, List.map_nil, List.getElem?_cons_zero,
      Option.some.injEq] at h
    rw [← h]
    rfl
  have hsame : c3 = c0 := by
    rw [hc0] at hc3
    exact (Option.some.inj hc3).symm
  subst hsame
  have hp := hpts hc0
  have hall : allVerticesInFrustum demoWindow.getGLCameraParameters (polyPoints redrawnTool) :=
    small_square_in_frustum
  have hi0 : 0 < c3.points.length := by rw [hp]; decide
  have hi3 : 3 < c3.points.length := by rw [hp]; decide
  constructor
  · have hfr : (demoWindow.getGLCameraParameters.project
        (c3.points.getD 0 zeroVector)).2 = true := by
      rw [hp]
      simp [demoWindow, orthoCamera, demoCloud]
    have hrec : recentredProjection demoWindow.getGLCameraParameters
        (c3.points.getD 0 zeroVector) = ⟨0, 0⟩ := by
      rw [hp]
      exact recentred_demo_points.1
    have hpoly : polyPoints redrawnTool = smallSquareVertices := rfl
    unfold segmentOut
    rw [segment_flag_at false redrawnTool demoWindow rfl rfl 0 0 c3 (hseg ▸ hc0),
      pointInsideSpec_of_all _ _ _ hall, hfr, hrec, hpoly, isPointInsidePoly_small_centre,
      if_pos ⟨hi0, hv0⟩]
    rfl
  · have hfr : (demoWindow.getGLCameraParameters.project
        (c3.points.getD 3 zeroVector)).2 = true := by
      rw [hp]
      simp [demoWindow, orthoCamera, demoCloud]
      norm_num
    have hrec : recentredProjection demoWindow.getGLCameraParameters
        (c3.points.getD 3 zeroVector) = ⟨-10, 0⟩ := by
      rw [hp]
      exact recentred_demo_points.2.2
    have hpoly : polyPoints redrawnTool = smallSquareVertices := rfl
    unfold segmentOut
    rw [segment_flag_at false redrawnTool demoWindow rfl rfl 0 3 c3 (hseg ▸ hc0),
      pointInsideSpec_of_all _ _ _ hall, hfr, hrec, hpoly, isPointInsidePoly_small_left,
      if_pos ⟨hi3, hv3⟩]
    rfl

/-- Instance of C2: two classifying passes. `segmentIn` on the square hides the point
`(100, 100, 0)` and keeps the origin; the contour is redrawn as the smaller square and
`segmentOut` hides the origin. The point hidden by the first pass is still Hidden at the end,
and the point `(-10, 0, 0)`, Visible at the end, was Visible at the beginning. -/
theorem segment_monotonic_hiding_witness :
    SegmentCalls squareTool (segmentOut redrawnTool) ∧
    (hasFlag squareTool 0 1 POINT_VISIBLE ∧ hasFlag (segmentIn squareTool) 0 1 POINT_HIDDEN) ∧
    (hasFlag (segmentIn squareTool) 0 0 POINT_VISIBLE ∧
      hasFlag (segmentOut redrawnTool) 0 0 POINT_HIDDEN) ∧
    hasFlag (segmentOut redrawnTool) 0 1 POINT_HIDDEN ∧
    (hasFlag (segmentOut redrawnTool) 0 3 POINT_VISIBLE ∧ hasFlag squareTool 0 3 POINT_VISIBLE) :=
  have hrun2 : SegmentCalls (segmentIn squareTool) (segmentOut redrawnTool) :=
    SegmentCalls.call false _ redrawnTool _ rfl (SegmentCalls.done _)
  have hrun : SegmentCalls squareTool (segmentOut redrawnTool) :=
    SegmentCalls.call true _ squareTool _ rfl hrun2
  ⟨hrun, ⟨⟨demoCloud, rfl, rfl⟩, segmentIn_squareTool_far_hidden⟩,
    ⟨segmentIn_squareTool_kept.1, segmentOut_redrawnTool_flags.1⟩,
    (segment_monotonic_hiding _ _ hrun2 0 1).1 segmentIn_squareTool_far_hidden,
    ⟨segmentOut_redrawnTool_flags.2,
      (segment_monotonic_hiding _ _ hrun 0 3).2 segmentOut_redrawnTool_flags.2⟩⟩

/-- A strictly convex contour is a convex contour. -/
lemma ConvexContour.of_strict (σ : ℚ) (poly : List CCVector3) (h : StrictlyConvex σ poly) :
    ConvexContour σ poly :=
  ⟨poly, h, Subdivides.same⟩

/-- A point strictly on the inner side of every edge is strictly inside the contour. -/
lemma InsideContour.of_edges (σ : ℚ) (P : CCVector2) (poly : List CCVector3)
    (h : StrictlyInside σ P poly) : InsideContour σ P poly :=
  fun i hi _ => h i hi

/-- The square with a vertex in the middle of its right edge and a repeated corner is a
convex contour; it is not strictly convex. -/
lemma midEdgeVertices_convex :
    ConvexContour 1 midEdgeVertices ∧ ¬ StrictlyConvex 1 midEdgeVertices := by
  constructor
  · refine ⟨squareVertices, squareVertices_convex, ?_⟩
    have h1 : Subdivides squareVertices (withVertex squareVertices 2 ⟨10, 0, 0⟩) := by
      refine Subdivides.vertex squareVertices 2 ⟨10, 0, 0⟩ (1 / 2) Subdivides.same
        (by decide) ?_
      refine ⟨by norm_num, by norm_num, ?_, ?_⟩ <;> norm_num [vertexAt, squareVertices]
    show Subdivides squareVertices
      (withVertex (withVertex squareVertices 2 ⟨10, 0, 0⟩) 5 ⟨-10, 10, 0⟩)
    refine Subdivides.vertex _ 5 ⟨-10, 10, 0⟩ 0 h1 (by decide) ?_
    refine ⟨by norm_num, by norm_num, ?_, ?_⟩ <;>
      norm_num [vertexAt, withVertex, squareVertices]
  · intro h
    have h2 := h.2 1 3 (by decide) (by decide) (by decide) (by decide)
    norm_num [vertexAt, midEdgeVertices, cross2, planar] at h2

/-- The centre is strictly inside the square with the further vertices. -/
lemma midEdge_centre_inside : InsideContour 1 ⟨0, 0⟩ midEdgeVertices := by
  intro i hi hne
  have hi' : i < 6 := hi
  interval_cases i <;>
    first
      | (norm_num [vertexAt, midEdgeVertices, cross2]; done)
      | exact absurd (by norm_num [vertexAt, midEdgeVertices, planar]) hne

/-- The point `(100, 100)` is strictly outside the square with the further vertices. -/
lemma midEdge_far_outside : StrictlyOutside 1 ⟨100, 100⟩ midEdgeVertices := by
  refine ⟨1, by decide, ?_⟩
  norm_num [vertexAt, midEdgeVertices, cross2]

/-- C4 fails on the code. On the convex square contour, wholly in the frustum: the point
`(0, 0, 5)` is Visible and projects to the centre, strictly inside the contour, but out of
the frustum, and `segment(true)` hides it; the point `(-10, 0, 0)` projects onto the left
edge, not strictly inside, and stays Visible (half-open convention of the crossing test). -/
theorem segment_hides_inside_point_out_of_frustum :
    ConvexContour 1 (polyPoints squareTool) ∧
    InsideContour 1 (recentredProjection demoWindow.getGLCameraParameters ⟨0, 0, 5⟩)
      (polyPoints squareTool) ∧
    hasFlag squareTool 0 2 POINT_VISIBLE ∧
    hasFlag (segment true squareTool) 0 2 POINT_HIDDEN ∧
    ¬ InsideContour 1 (recentredProjection demoWindow.getGLCameraParameters ⟨-10, 0, 0⟩)
      (polyPoints squareTool) ∧
    hasFlag (segment true squareTool) 0 3 POINT_VISIBLE := by
  refine ⟨ConvexContour.of_strict 1 _ squareVertices_convex, ?_, ⟨demoCloud, rfl, rfl⟩,
    segment_squareTool_depth_hidden, ?_, ?_⟩
  · rw [recentred_depth_point]
    exact InsideContour.of_edges 1 _ _ square_centre_inside
  · rw [recentred_demo_points.2.2]
    intro h
    have h3 := h 3 (by decide)
      (by norm_num [vertexAt, polyPoints, squareTool, squareVertices, planar, zeroVector])
    norm_num [vertexAt, polyPoints, squareTool, squareVertices, cross2, zeroVector] at h3
  · have h := segment_hasFlag_of_visible true squareTool demoWindow rfl rfl 0 3 demoCloud rfl
      (by decide) rfl
    have hp : pointInsideSpec demoWindow.getGLCameraParameters (polyPoints squareTool)
        (demoCloud.points[3]) = true := by
      have hfr : (demoWindow.getGLCameraParameters.project (demoCloud.points[3])).2 = true := by
        simp [demoWindow, orthoCamera, demoCloud]
        norm_num
      have hall : allVerticesInFrustum demoWindow.getGLCameraParameters
          (polyPoints squareTool) := square_in_frustum
      rw [pointInsideSpec_of_all _ _ _ hall, hfr]
      have hr : recentredProjection demoWindow.getGLCameraParameters (demoCloud.points[3])
          = ⟨-10, 0⟩ := recentred_demo_points.2.2
      rw [hr, polyPoints_squareTool, isPointInsidePoly_square_left_edge]
      rfl
    rw [hp] at h
    exact h

/-- C4 (amended): for every convex closed contour (a convex polygon traversed once, in either
orientation `σ`; further vertices placed on its edges, aligned with two corners or repeating
a vertex, are allowed) and every point set, `segment(true)` with an associated window treats
a point that was Visible as follows. If it is subject to the test (it projects in-frustum,
or some contour vertex does not), it ends Visible when its re-centred projection, converted
to the coordinate type, is strictly inside the contour and Hidden when it is strictly
outside. If it projects out of the frustum while the whole contour projects in-frustum, it
ends Hidden. A point that was Hidden stays Hidden. -/
theorem segment_convex_contour (σ : ℚ) (s : Tool) (win : ccGLWindow)
    (hwin : s.m_associatedWin = some win) (hclosed : s.m_segmentationPoly.closed = true)
    (hconv : ConvexContour σ (polyPoints s))
    (c i : ℕ) (cloud : ccGenericPointCloud) (hc : s.m_toSegment[c]? = some cloud)
    (hi : i < cloud.points.length) :
    (cloud.visibilityArray[i]? = some POINT_VISIBLE →
      (((win.getGLCameraParameters.project cloud.points[i]).2 = true ∨
          ¬ allVerticesInFrustum win.getGLCameraParameters (polyPoints s)) →
        (InsideContour σ (recentredProjection win.getGLCameraParameters cloud.points[i])
            (polyPoints s) → hasFlag (segment true s) c i POINT_VISIBLE) ∧
        (StrictlyOutside σ (recentredProjection win.getGLCameraParameters cloud.points[i])
            (polyPoints s) → hasFlag (segment true s) c i POINT_HIDDEN)) ∧
      ((win.getGLCameraParameters.project cloud.points[i]).2 = false →
        allVerticesInFrustum win.getGLCameraParameters (polyPoints s) →
        hasFlag (segment true s) c i POINT_HIDDEN)) ∧
    (cloud.visibilityArray[i]? = some POINT_HIDDEN →
      hasFlag (segment true s) c i POINT_HIDDEN) := by
  constructor
  · intro hv
    have hflag := segment_hasFlag_of_visible true s win hwin hclosed c i cloud hc hi hv
    refine ⟨fun htest => ⟨fun hin => ?_, fun hout => ?_⟩, fun hfr hall => ?_⟩
    · have hp : pointInsideSpec win.getGLCameraParameters (polyPoints s) cloud.points[i]
          = true := by
        unfold pointInsideSpec
        rw [if_pos htest]
        exact isPointInsidePoly_of_inside_convex σ _ _ hconv hin
      rw [hp] at hflag
      exact hflag
    · have hp : pointInsideSpec win.getGLCameraParameters (polyPoints s) cloud.points[i]
          = false := by
        unfold pointInsideSpec
        rw [if_pos htest]
        exact isPointInsidePoly_of_outside_convex σ _ _ hconv hout
      rw [hp] at hflag
      exact hflag
    · have hp : pointInsideSpec win.getGLCameraParameters (polyPoints s) cloud.points[i]
          = false := by
        rw [pointInsideSpec_of_all _ _ _ hall, hfr]
        rfl
      rw [hp] at hflag
      exact hflag
  · intro hv
    exact segment_hidden true s c i ⟨cloud, hc, hv⟩

/-- Instance of C4 (amended). The scenario of the specification: on the square contour the
point projecting to `(0, 0)` stays Visible and the point projecting to `(100, 100)` becomes
Hidden. The same holds on the square drawn with a further vertex in the middle of its right
edge and one corner given twice, a convex contour that is not strictly convex. -/
theorem segment_convex_contour_witness :
    (hasFlag (segment true squareTool) 0 0 POINT_VISIBLE ∧
      hasFlag (segment true squareTool) 0 1 POINT_HIDDEN) ∧
    (ConvexContour 1 (polyPoints midEdgeTool) ∧ ¬ StrictlyConvex 1 (polyPoints midEdgeTool) ∧
      hasFlag (segment true midEdgeTool) 0 0 POINT_VISIBLE ∧
      hasFlag (segment true midEdgeTool) 0 1 POINT_HIDDEN) :=
  have hfr0 : (demoWindow.getGLCameraParameters.project (demoCloud.points[0])).2 = true := by
    simp [demoWindow, orthoCamera, demoCloud]
  have hfr1 : (demoWindow.getGLCameraParameters.project (demoCloud.points[1])).2 = true := by
    simp [demoWindow, orthoCamera, demoCloud]
    norm_num
  have hr0 : recentredProjection demoWindow.getGLCameraParameters (demoCloud.points[0])
      = ⟨0, 0⟩ := recentred_demo_points.1
  have hr1 : recentredProjection demoWindow.getGLCameraParameters (demoCloud.points[1])
      = ⟨100, 100⟩ := recentred_demo_points.2.1
  have hin : InsideContour 1
      (recentredProjection demoWindow.getGLCameraParameters (demoCloud.points[0]))
      (polyPoints squareTool) := by
    rw [hr0]
    exact InsideContour.of_edges 1 _ _ square_centre_inside
  have hout : StrictlyOutside 1
      (recentredProjection demoWindow.getGLCameraParameters (demoCloud.points[1]))
      (polyPoints squareTool) := by
    rw [hr1]
    exact square_far_outside
  have hinM : InsideContour 1
      (recentredProjection demoWindow.getGLCameraParameters (demoCloud.points[0]))
      (polyPoints midEdgeTool) := by
    rw [hr0]
    exact midEdge_centre_inside
  have houtM : StrictlyOutside 1
      (recentredProjection demoWindow.getGLCameraParameters (demoCloud.points[1]))
      (polyPoints midEdgeTool) := by
    rw [hr1]
    exact midEdge_far_outside
  have hsq : ConvexContour 1 (polyPoints squareTool) :=
    ConvexContour.of_strict 1 _ squareVertices_convex
  have hmid : ConvexContour 1 (polyPoints midEdgeTool) := midEdgeVertices_convex.1
  ⟨⟨(((segment_convex_contour 1 squareTool demoWindow rfl rfl hsq 0 0
        demoCloud rfl (by decide)).1 rfl).1 (Or.inl hfr0)).1 hin,
     (((segment_convex_contour 1 squareTool demoWindow rfl rfl hsq 0 1
        demoCloud rfl (by decide)).1 rfl).1 (Or.inl hfr1)).2 hout⟩,
   ⟨hmid, midEdgeVertices_convex.2,
     (((segment_convex_contour 1 midEdgeTool demoWindow rfl rfl hmid 0 0
        demoCloud rfl (by decide)).1 rfl).1 (Or.inl hfr0)).1 hinM,
     (((segment_convex_contour 1 midEdgeTool demoWindow rfl rfl hmid 0 1
        demoCloud rfl (by decide)).1 rfl).1 (Or.inl hfr1)).2 houtM⟩⟩

end Classifier

section Builder

/-- The branch of `addPointToPolyline` that starts a new contour, all growths succeeding. -/
lemma addPointToPolylineAux_start (fuel : ℕ) (s : Tool) (win : ccGLWindow) (x y : ℤ)
    (ctrl : Bool) (hwin : s.m_associatedWin = some win)
    (hstarted : s.m_state &&& STARTED ≠ 0) (hin : insideView win x y)
    (h2nd : ¬ ignoredSecondClick s)
    (hnew : s.m_state &&& RUNNING = 0 ∨ s.m_polyVertices.length = 0 ∨
      (s.m_rectangularSelection || ctrl) = true) :
    addPointToPolylineAux (fuel + 1) x y ctrl true true s =
      { s with
        m_state := (if (s.m_rectangularSelection || ctrl) = true then RECTANGLE else POLYLINE)
          ||| (STARTED ||| RUNNING),
        m_polyVertices := [toPoint win x y, toPoint win x y],
        m_segmentationPoly := ⟨[0, 1], false⟩ } := by
  have hout : ¬ (x < 0 ∨ y < 0 ∨ x ≥ win.qtWidth ∨ y ≥ win.qtHeight) := by
    unfold insideView at hin
    omega
  unfold ignoredSecondClick at h2nd
  unfold addPointToPolylineAux
  rw [if_neg hstarted, hwin]
  dsimp only
  rw [if_neg hout, if_neg h2nd, if_pos hnew]
  rfl

/-- The running-rectangle state has the `RUNNING` bit. -/
lemma rectangle_running_bit : (RECTANGLE ||| (STARTED ||| RUNNING)) &&& RUNNING ≠ 0 := by decide

/-- The running-rectangle state has the `RECTANGLE` bit. -/
lemma rectangle_mode_bit : (RECTANGLE ||| (STARTED ||| RUNNING)) &&& RECTANGLE ≠ 0 := by decide

/-- The branch of `addPointToPolyline` that starts a new contour, the reserve succeeding:
state and vertex storage, whatever the outcome of `addPointIndex(0, 2)`. -/
lemma addPointToPolylineAux_begun (fuel : ℕ) (s : Tool) (win : ccGLWindow) (x y : ℤ)
    (ctrl addOk : Bool) (hwin : s.m_associatedWin = some win)
    (hstarted : s.m_state &&& STARTED ≠ 0) (hin : insideView win x y)
    (h2nd : ¬ ignoredSecondClick s)
    (hnew : s.m_state &&& RUNNING = 0 ∨ s.m_polyVertices.length = 0 ∨
      (s.m_rectangularSelection || ctrl) = true) :
    (addPointToPolylineAux (fuel + 1) x y ctrl true addOk s).m_associatedWin = some win ∧
    (addPointToPolylineAux (fuel + 1) x y ctrl true addOk s).m_state =
      (if (s.m_rectangularSelection || ctrl) = true then RECTANGLE else POLYLINE)
        ||| (STARTED ||| RUNNING) ∧
    (addPointToPolylineAux (fuel + 1) x y ctrl true addOk s).m_polyVertices =
      [toPoint win x y, toPoint win x y] := by
  have hout : ¬ (x < 0 ∨ y < 0 ∨ x ≥ win.qtWidth ∨ y ≥ win.qtHeight) := by
    unfold insideView at hin
    omega
  unfold ignoredSecondClick at h2nd
  unfold addPointToPolylineAux
  rw [if_neg hstarted, hwin]
  dsimp only
  rw [if_neg hout, if_neg h2nd, if_pos hnew]
  cases addOk
  · exact ⟨rfl, rfl, rfl⟩
  · exact ⟨rfl, rfl, rfl⟩

/-- The first pointer move after a rectangle was begun creates the four corners, when its
`addPointIndex(0, 4)` succeeds. -/
lemma updatePolyLine_begun (win : ccGLWindow) (A : CCVector3) (s : Tool) (x y : ℤ)
    (h : RectangleBegun win A s) :
    RectangleDrawn win A (toPoint win x y) (updatePolyLine x y true s) := by
  obtain ⟨hwin, hst, hv⟩ := h
  unfold updatePolyLine
  rw [hst, if_neg rectangle_running_bit, hwin]
  dsimp only
  rw [if_pos rectangle_mode_bit, hv]
  refine ⟨?_, ?_, ?_, ?_⟩
  · simp [hwin]
  · simp [hst]
  · simp [resizeVertices, rectangleOf, toPoint, zeroVector]
  · simp [ccPolyline.clear, ccPolyline.addPointIndexRange, ccPolyline.setClosed, List.range']

/-- A later pointer move rewrites the three derived corners and keeps the fixed one; it
attempts no growth, so its outcome argument is not read. -/
lemma updatePolyLine_drawn (win : ccGLWindow) (A Q : CCVector3) (s : Tool) (x y : ℤ)
    (addOk : Bool) (h : RectangleDrawn win A Q s) :
    RectangleDrawn win A (toPoint win x y) (updatePolyLine x y addOk s) := by
  obtain ⟨hwin, hst, hv, hp⟩ := h
  unfold updatePolyLine
  rw [hst, if_neg rectangle_running_bit, hwin]
  dsimp only
  rw [if_pos rectangle_mode_bit, hv]
  refine ⟨?_, ?_, ?_, ?_⟩
  · simp [rectangleOf, hwin]
  · simp [rectangleOf, hst]
  · simp [rectangleOf, toPoint, zeroVector]
  · simp [rectangleOf, hp]

/-- Once the four corners exist, any sequence of pointer moves keeps a rectangle on the fixed
corner, drawn to the last point. -/
lemma updatePolyLines_drawn (win : ccGLWindow) (A : CCVector3)
    (moves : List (ℤ × ℤ × Bool)) :
    ∀ (s : Tool) (Q : CCVector3), RectangleDrawn win A Q s →
      (∃ Q1, RectangleDrawn win A Q1 (updatePolyLines moves s)) ∧
      ∀ last : ℤ × ℤ × Bool, RectangleDrawn win A (toPoint win last.1 last.2.1)
        (updatePolyLines (moves ++ [last]) s) := by
  induction moves with
  | nil =>
    intro s Q hd
    exact ⟨⟨Q, hd⟩, fun last => updatePolyLine_drawn win A Q s _ _ _ hd⟩
  | cons m moves ih =>
    intro s Q hd
    exact ih _ _ (updatePolyLine_drawn win A Q s m.1 m.2.1 m.2.2 hd)

/-- A non-empty sequence of pointer moves on a rectangle just begun, the growth of the first
move succeeding: the four corners exist after it. -/
lemma updatePolyLines_begun (win : ccGLWindow) (A : CCVector3) (s : Tool)
    (m : ℤ × ℤ × Bool) (moves : List (ℤ × ℤ × Bool)) (hb : RectangleBegun win A s)
    (hm : m.2.2 = true) :
    ∃ Q, RectangleDrawn win A Q (updatePolyLines (m :: moves) s) := by
  have h1 : RectangleDrawn win A (toPoint win m.1 m.2.1) (updatePolyLine m.1 m.2.1 m.2.2 s) := by
    rw [hm]
    exact updatePolyLine_begun win A s _ _ hb
  exact (updatePolyLines_drawn win A moves _ _ h1).1

/-- C6 fails when a growth fails: after a Ctrl-click at pixel (10, 20), a first pointer
move whose `addPointIndex(0, 4)` fails leaves four vertices in the storage and no reference
in the contour; the next move attempts no growth, so the contour stays without vertices and
is never marked closed. -/
theorem rectangle_lost_on_failed_growth :
    rectangleBegunTool.m_state = RECTANGLE ||| (STARTED ||| RUNNING) ∧
    rectangleBegunTool.m_polyVertices = [toPoint demoWindow 10 20, toPoint demoWindow 10 20] ∧
    (updatePolyLines [(30, 40, false), (50, 60, true)]
      rectangleBegunTool).m_polyVertices.length = 4 ∧
    polyPoints (updatePolyLines [(30, 40, false), (50, 60, true)] rectangleBegunTool) = [] ∧
    (updatePolyLines [(30, 40, false), (50, 60, true)]
      rectangleBegunTool).m_segmentationPoly.closed = false ∧
    (updatePolyLines [(30, 40, false), (50, 60, true)] rectangleBegunTool).errorLog
      = ["Out of memory!"] :=
  ⟨rfl, rfl, rfl, rfl, rfl, rfl⟩

/-- C6 (amended): rectangle invariant. After a contour is begun in Rectangle mode at point
`A` (a click inside the view with the rectangle modifier in effect, its `reserve`
succeeding) and then any non-empty sequence of `updatePolyLine` calls of which the first
succeeds in adding the four references (the only growth the sequence attempts), the last
with point `P`, the contour has exactly the 4 vertices `[A, (A.x, P.y), P, (P.x, A.y)]` and
is marked closed; the first vertex is `A` after every update. -/
theorem rectangle_invariant (s0 : Tool) (win : ccGLWindow) (x y : ℤ) (ctrl addOk : Bool)
    (hwin : s0.m_associatedWin = some win) (hstarted : s0.m_state &&& STARTED ≠ 0)
    (hin : insideView win x y)
    (hmod : (s0.m_rectangularSelection || ctrl) = true)
    (h2nd : ¬ ignoredSecondClick s0)
    (moves : List (ℤ × ℤ × Bool)) (last : ℤ × ℤ × Bool)
    (hfirst : ∀ m ∈ (moves ++ [last]).head?, m.2.2 = true) :
    (addPointToPolyline x y ctrl true addOk s0).m_state = RECTANGLE ||| (STARTED ||| RUNNING) ∧
    (addPointToPolyline x y ctrl true addOk s0).m_polyVertices
      = [toPoint win x y, toPoint win x y] ∧
    (updatePolyLines (moves ++ [last]) (addPointToPolyline x y ctrl true addOk s0)).m_polyVertices
      = rectangleOf (toPoint win x y) (toPoint win last.1 last.2.1) ∧
    polyPoints (updatePolyLines (moves ++ [last]) (addPointToPolyline x y ctrl true addOk s0))
      = rectangleOf (toPoint win x y) (toPoint win last.1 last.2.1) ∧
    (updatePolyLines (moves ++ [last])
      (addPointToPolyline x y ctrl true addOk s0)).m_segmentationPoly.size = 4 ∧
    (updatePolyLines (moves ++ [last])
      (addPointToPolyline x y ctrl true addOk s0)).m_segmentationPoly.closed = true ∧
    ∀ k, (updatePolyLines ((moves ++ [last]).take k)
      (addPointToPolyline x y ctrl true addOk s0)).m_polyVertices.head?
        = some (toPoint win x y) := by
  have hb0 := addPointToPolylineAux_begun 1 s0 win x y ctrl addOk hwin hstarted hin h2nd
    (Or.inr (Or.inr hmod))
  have hbegin : RectangleBegun win (toPoint win x y)
      (addPointToPolyline x y ctrl true addOk s0) := by
    unfold addPointToPolyline
    exact ⟨hb0.1, by rw [hb0.2.1]; simp [hmod], hb0.2.2⟩
  have hfinal : RectangleDrawn win (toPoint win x y) (toPoint win last.1 last.2.1)
      (updatePolyLines (moves ++ [last]) (addPointToPolyline x y ctrl true addOk s0)) := by
    cases moves with
    | nil =>
      have hl : last.2.2 = true := hfirst last (by simp)
      show RectangleDrawn win _ _ (updatePolyLine last.1 last.2.1 last.2.2 _)
      rw [hl]
      exact updatePolyLine_begun win _ _ last.1 last.2.1 hbegin
    | cons m tl =>
      have hm : m.2.2 = true := hfirst m (by simp)
      have h1 : RectangleDrawn win (toPoint win x y) (toPoint win m.1 m.2.1)
          (updatePolyLine m.1 m.2.1 m.2.2 (addPointToPolyline x y ctrl true addOk s0)) := by
        rw [hm]
        exact updatePolyLine_begun win _ _ m.1 m.2.1 hbegin
      exact (updatePolyLines_drawn win _ tl _ _ h1).2 last
  obtain ⟨_, _, hverts, hpoly⟩ := hfinal
  refine ⟨hbegin.2.1, hbegin.2.2, hverts, ?_, ?_, ?_, ?_⟩
  · unfold polyPoints
    rw [hverts, hpoly]
    rfl
  · rw [hpoly]; rfl
  · rw [hpoly]
  · intro k
    cases hseq : (moves ++ [last]).take k with
    | nil =>
      show (addPointToPolyline x y ctrl true addOk s0).m_polyVertices.head? = _
      rw [hbegin.2.2]
      rfl
    | cons m tl =>
      have hhead : (moves ++ [last]).head? = some m := by
        cases hml : moves ++ [last] with
        | nil => rw [hml] at hseq; simp at hseq
        | cons m1 tl1 =>
          rw [hml] at hseq
          cases k with
          | zero => simp at hseq
          | succ k =>
            simp only [List.take_succ_cons, List.cons.injEq] at hseq
            rw [hseq.1]
            rfl
      have hm : m.2.2 = true := hfirst m (by rw [hhead]; rfl)
      obtain ⟨Q, hd⟩ := updatePolyLines_begun win _ _ m tl hbegin hm
      rw [hd.2.2.1]
      rfl

/-- Instance of C6 (amended): a Ctrl-click at pixel (10, 20) of a fresh tool, then two pointer
moves, the first of which creates the four references. -/
theorem rectangle_invariant_witness :
    (updatePolyLines ([(30, 40, true)] ++ [(50, 60, false)])
      (addPointToPolyline 10 20 true true true freshTool)).m_polyVertices
      = rectangleOf (toPoint demoWindow 10 20) (toPoint demoWindow 50 60) ∧
    (updatePolyLines ([(30, 40, true)] ++ [(50, 60, false)])
      (addPointToPolyline 10 20 true true true freshTool)).m_segmentationPoly.closed = true :=
  have h := rectangle_invariant freshTool demoWindow 10 20 true true rfl (by decide)
    (by unfold insideView; decide) rfl (by unfold ignoredSecondClick; decide)
    [(30, 40, true)] (50, 60, false) (by intro m hm; cases hm; rfl)
  ⟨h.2.2.1, h.2.2.2.2.2.1⟩

/-- Clearing `RUNNING` leaves the `RUNNING` bit unset. -/
lemma land_notRUNNING_running (m : ℕ) : (m &&& notRUNNING) &&& RUNNING = 0 := by
  have h : notRUNNING &&& RUNNING = 0 := by decide
  rw [Nat.land_assoc, h, Nat.and_zero]

/-- Clearing `RUNNING` keeps the `POLYLINE` bit. -/
lemma land_notRUNNING_polyline (m : ℕ) : (m &&& notRUNNING) &&& POLYLINE = m &&& POLYLINE := by
  have h : notRUNNING &&& POLYLINE = POLYLINE := by decide
  rw [Nat.land_assoc, h]

/-- The number of contour vertices is the number of references of the polyline. -/
lemma length_polyPoints (s : Tool) : (polyPoints s).length = s.m_segmentationPoly.size := by
  unfold polyPoints ccPolyline.size
  rw [List.length_map]

/-- C7 fails for short contours: two clicks in Polygon mode leave the running contour
`[a, b, b]` (k = 1); `closePolyLine` clears it instead of yielding the closed `[a, b]`. -/
theorem closePolyLine_clears_short_contour :
    polyPoints (addPointToPolyline 30 40 false true true
        (addPointToPolyline 10 20 false true true freshTool))
      = [toPoint demoWindow 10 20, toPoint demoWindow 30 40, toPoint demoWindow 30 40] ∧
    (addPointToPolyline 30 40 false true true
        (addPointToPolyline 10 20 false true true freshTool)).m_state
      = POLYLINE ||| (STARTED ||| RUNNING) ∧
    polyPoints (closePolyLine (addPointToPolyline 30 40 false true true
        (addPointToPolyline 10 20 false true true freshTool))) = [] ∧
    (closePolyLine (addPointToPolyline 30 40 false true true
        (addPointToPolyline 10 20 false true true freshTool))).m_segmentationPoly.closed = false :=
  ⟨rfl, rfl, rfl, rfl⟩

/-- C7 (amended): `closePolyLine()` in Polygon+Running state on a contour `[v0, ..., vk, vk]`
yields, when k >= 2 (at least 4 vertices), the contour `[v0, ..., vk]` with closed = true;
when k < 2 it clears the contour (no vertices, not closed). In both cases the Running bit is
cleared and the mode bit is kept. -/
theorem closePolyLine_drops_live_vertex (s : Tool) (vs : List CCVector3) (vk : CCVector3)
    (hmode : s.m_state &&& POLYLINE ≠ 0) (hrun : s.m_state &&& RUNNING ≠ 0)
    (hcontour : polyPoints s = vs ++ [vk, vk]) :
    (2 ≤ vs.length →
      polyPoints (closePolyLine s) = vs ++ [vk] ∧
      (closePolyLine s).m_segmentationPoly.closed = true) ∧
    (vs.length < 2 →
      polyPoints (closePolyLine s) = [] ∧
      (closePolyLine s).m_polyVertices = [] ∧
      (closePolyLine s).m_segmentationPoly.closed = false) ∧
    (closePolyLine s).m_state &&& RUNNING = 0 ∧
    (closePolyLine s).m_state &&& POLYLINE ≠ 0 := by
  have hsize : s.m_segmentationPoly.size = vs.length + 2 := by
    rw [← length_polyPoints, hcontour]
    simp
  have hguard : ¬ (s.m_state &&& POLYLINE = 0 ∨ s.m_state &&& RUNNING = 0) := by
    intro h
    rcases h with h | h
    · exact hmode h
    · exact hrun h
  unfold closePolyLine
  rw [if_neg hguard]
  dsimp only [allowPolylineExport]
  refine ⟨?_, ?_, ?_, ?_⟩
  · intro hk
    have h4 : ¬ s.m_segmentationPoly.size < 4 := by omega
    rw [if_neg h4]
    constructor
    · unfold polyPoints at hcontour ⊢
      unfold ccPolyline.size at hsize
      simp only [ccPolyline.resize, ccPolyline.setClosed, ccPolyline.size]
      have h0 : s.m_segmentationPoly.indexes.length - 1 - s.m_segmentationPoly.indexes.length = 0 := by
        omega
      rw [h0, List.replicate_zero, List.append_nil, List.map_take, hcontour, hsize]
      have : vs ++ [vk, vk] = (vs ++ [vk]) ++ [vk] := by simp
      rw [this]
      have hl : vs.length + 2 - 1 = (vs ++ [vk]).length := by simp
      rw [hl, List.take_left']
      rfl
    · rfl
  · intro hk
    have h4 : s.m_segmentationPoly.size < 4 := by omega
    rw [if_pos h4]
    exact ⟨rfl, rfl, rfl⟩
  · split <;> exact land_notRUNNING_running _
  · split <;> (dsimp only; rw [land_notRUNNING_polyline]; exact hmode)

/-- Instance of C7 (amended): three clicks in Polygon mode, then the closing click. -/
theorem closePolyLine_drops_live_vertex_witness :
    polyPoints (closePolyLine (addPointToPolyline 50 60 false true true
      (addPointToPolyline 30 40 false true true
        (addPointToPolyline 10 20 false true true freshTool))))
      = [toPoint demoWindow 10 20, toPoint demoWindow 30 40] ++ [toPoint demoWindow 50 60] ∧
    (closePolyLine (addPointToPolyline 50 60 false true true
      (addPointToPolyline 30 40 false true true
        (addPointToPolyline 10 20 false true true freshTool)))).m_segmentationPoly.closed = true :=
  (closePolyLine_drops_live_vertex
    (addPointToPolyline 50 60 false true true
      (addPointToPolyline 30 40 false true true
        (addPointToPolyline 10 20 false true true freshTool)))
    [toPoint demoWindow 10 20, toPoint demoWindow 30 40] (toPoint demoWindow 50 60)
    (by decide) (by decide) rfl).1 (by decide)

/-- References `0 .. n-1` into a storage of `n` vertices resolve to the storage itself. -/
lemma map_getD_range (l : List CCVector3) :
    (List.range l.length).map (fun i => l.getD i zeroVector) = l := by
  apply List.ext_getElem
  · simp
  · intro i h1 h2
    rw [List.getElem_map, List.getElem_range, List.getD_eq_getElem _ _ h2]

/-- C8 fails on the closed flag: the second click of a polygon marks the contour closed. -/
theorem addPointToPolyline_marks_closed :
    (addPointToPolyline 10 20 false true true freshTool).m_state
      = POLYLINE ||| (STARTED ||| RUNNING) ∧
    polyPoints (addPointToPolyline 10 20 false true true freshTool)
      = [toPoint demoWindow 10 20, toPoint demoWindow 10 20] ∧
    (addPointToPolyline 10 20 false true true freshTool).m_rectangularSelection = false ∧
    (addPointToPolyline 10 20 false true true freshTool).m_segmentationPoly.closed = false ∧
    polyPoints (addPointToPolyline 30 40 false true true
        (addPointToPolyline 10 20 false true true freshTool))
      = [toPoint demoWindow 10 20, toPoint demoWindow 30 40, toPoint demoWindow 30 40] ∧
    (addPointToPolyline 30 40 false true true
      (addPointToPolyline 10 20 false true true freshTool)).m_segmentationPoly.closed = true :=
  ⟨rfl, rfl, rfl, rfl, rfl, rfl⟩

/-- C8 (amended): a click at point `P` inside the view while the builder is Started and
Running in Polygon mode on the contour `[v0, ..., v(n-1)]` (n >= 1, held in the vertex
storage in order), no rectangle modifier in effect and storage growth succeeding, turns the
contour into `[v0, ..., v(n-2), P, P]`, leaves the state unchanged, and marks the contour
closed (its closed flag is true afterwards). -/
theorem addPointToPolyline_next_point (s : Tool) (win : ccGLWindow) (x y : ℤ)
    (vs : List CCVector3) (vlast : CCVector3)
    (hwin : s.m_associatedWin = some win) (hin : insideView win x y)
    (hstarted : s.m_state &&& STARTED ≠ 0) (hrun : s.m_state &&& RUNNING ≠ 0)
    (hmode : s.m_state &&& POLYLINE ≠ 0)
    (hrect : s.m_rectangularSelection = false)
    (hverts : s.m_polyVertices = vs ++ [vlast])
    (hidx : s.m_segmentationPoly.indexes = List.range (vs.length + 1)) :
    polyPoints s = vs ++ [vlast] ∧
    polyPoints (addPointToPolyline x y false true true s)
      = vs ++ [toPoint win x y, toPoint win x y] ∧
    (addPointToPolyline x y false true true s).m_polyVertices
      = vs ++ [toPoint win x y, toPoint win x y] ∧
    (addPointToPolyline x y false true true s).m_segmentationPoly.indexes
      = List.range (vs.length + 2) ∧
    (addPointToPolyline x y false true true s).m_state = s.m_state ∧
    (addPointToPolyline x y false true true s).m_segmentationPoly.closed = true := by
  have hlen : s.m_polyVertices.length = vs.length + 1 := by rw [hverts]; simp
  have hbefore : polyPoints s = vs ++ [vlast] := by
    unfold polyPoints
    rw [hidx, ← hlen, map_getD_range, hverts]
  have hout : ¬ (x < 0 ∨ y < 0 ∨ x ≥ win.qtWidth ∨ y ≥ win.qtHeight) := by
    unfold insideView at hin
    omega
  have h2nd : ¬ (s.m_rectangularSelection = true ∧ s.m_polyVertices.length = 4 ∧
      s.m_state &&& RUNNING ≠ 0) := by
    rw [hrect]; simp
  have hnew : ¬ (s.m_state &&& RUNNING = 0 ∨ s.m_polyVertices.length = 0 ∨
      (s.m_rectangularSelection || false) = true) := by
    rw [hrect, hlen]
    simp [hrun]
  have hstep : addPointToPolyline x y false true true s =
      { s with
        m_polyVertices := s.m_polyVertices.set (s.m_polyVertices.length - 1) (toPoint win x y)
          ++ [toPoint win x y],
        m_segmentationPoly :=
          (s.m_segmentationPoly.addPointIndex s.m_polyVertices.length).setClosed true } := by
    unfold addPointToPolyline addPointToPolylineAux
    rw [if_neg hstarted, hwin]
    dsimp only
    rw [if_neg hout, if_neg h2nd, if_neg hnew, if_pos hmode]
    rfl
  have hset : s.m_polyVertices.set (s.m_polyVertices.length - 1) (toPoint win x y)
      ++ [toPoint win x y] = vs ++ [toPoint win x y, toPoint win x y] := by
    rw [hlen, hverts]
    simp
  have hidx' : ((s.m_segmentationPoly.addPointIndex s.m_polyVertices.length).setClosed
      true).indexes = List.range (vs.length + 2) := by
    simp only [ccPolyline.addPointIndex, ccPolyline.setClosed]
    rw [hidx, hlen, List.range_succ (vs.length + 1)]
  rw [hstep]
  refine ⟨hbefore, ?_, hset, hidx', rfl, rfl⟩
  unfold polyPoints
  dsimp only
  rw [hidx', hset]
  have hl : vs.length + 2 = (vs ++ [toPoint win x y, toPoint win x y]).length := by simp
  rw [hl, map_getD_range]

/-- Instance of C8 (amended): the second click of a polygon on a fresh tool. -/
theorem addPointToPolyline_next_point_witness :
    polyPoints (addPointToPolyline 30 40 false true true
        (addPointToPolyline 10 20 false true true freshTool))
      = [toPoint demoWindow 10 20] ++ [toPoint demoWindow 30 40, toPoint demoWindow 30 40] ∧
    (addPointToPolyline 30 40 false true true
      (addPointToPolyline 10 20 false true true freshTool)).m_segmentationPoly.closed = true :=
  have h := addPointToPolyline_next_point (addPointToPolyline 10 20 false true true freshTool)
    demoWindow 30 40 [toPoint demoWindow 10 20] (toPoint demoWindow 10 20) rfl
    (by unfold insideView; decide) (by decide) (by decide) (by decide) rfl rfl rfl
  ⟨h.2.1, h.2.2.2.2.2⟩

/-- C9 fails in a paused tool: the click is ignored and the state stays `PAUSED`. -/
theorem addPointToPolyline_ignored_when_paused :
    (pauseSegmentationMode true freshTool).m_state = PAUSED ∧
    insideView demoWindow 10 20 ∧
    (addPointToPolyline 10 20 true true true (pauseSegmentationMode true freshTool)).m_state
      = PAUSED ∧
    (addPointToPolyline 10 20 true true true (pauseSegmentationMode true freshTool)).m_state
      &&& RECTANGLE = 0 :=
  ⟨rfl, by unfold insideView; decide, rfl, rfl⟩

/-- C9 (amended): a click inside the view with the rectangle modifier in effect (Ctrl pressed,
or rectangular selection active), in any prior state whose Started bit is set and for any
outcome of the storage growths, leaves the state equal to RECTANGLE|STARTED|RUNNING, Polygon
bit clear, unless it is the ignored second click of a running 4-vertex rectangular
selection. When the Started bit is not set (idle or paused) or the click is that second
click, the tool is left as it was. -/
theorem addPointToPolyline_modifier_sets_rectangle (s : Tool) (win : ccGLWindow) (x y : ℤ)
    (ctrl reserveOk addPointIndexOk : Bool)
    (hwin : s.m_associatedWin = some win) (hin : insideView win x y)
    (hmod : (s.m_rectangularSelection || ctrl) = true) :
    (s.m_state &&& STARTED ≠ 0 → ¬ ignoredSecondClick s →
      (addPointToPolyline x y ctrl reserveOk addPointIndexOk s).m_state
        = RECTANGLE ||| (STARTED ||| RUNNING) ∧
      (addPointToPolyline x y ctrl reserveOk addPointIndexOk s).m_state &&& POLYLINE = 0) ∧
    (s.m_state &&& STARTED = 0 →
      addPointToPolyline x y ctrl reserveOk addPointIndexOk s = s) ∧
    (ignoredSecondClick s →
      addPointToPolyline x y ctrl reserveOk addPointIndexOk s = s) := by
  have hout : ¬ (x < 0 ∨ y < 0 ∨ x ≥ win.qtWidth ∨ y ≥ win.qtHeight) := by
    unfold insideView at hin
    omega
  refine ⟨?_, ?_, ?_⟩
  · intro hstarted h2nd
    have hnew : s.m_state &&& RUNNING = 0 ∨ s.m_polyVertices.length = 0 ∨
        (s.m_rectangularSelection || ctrl) = true := Or.inr (Or.inr hmod)
    unfold ignoredSecondClick at h2nd
    have hstate : (addPointToPolyline x y ctrl reserveOk addPointIndexOk s).m_state
        = RECTANGLE ||| (STARTED ||| RUNNING) := by
      unfold addPointToPolyline addPointToPolylineAux
      rw [if_neg hstarted, hwin]
      dsimp only
      rw [if_neg hout, if_neg h2nd, if_pos hnew, hmod]
      cases reserveOk <;> cases addPointIndexOk <;> rfl
    rw [hstate]
    exact ⟨rfl, by decide⟩
  · intro hidle
    unfold addPointToPolyline addPointToPolylineAux
    rw [if_pos hidle]
  · intro h2nd
    unfold ignoredSecondClick at h2nd
    unfold addPointToPolyline addPointToPolylineAux
    by_cases hstarted : s.m_state &&& STARTED = 0
    · rw [if_pos hstarted]
    · rw [if_neg hstarted, hwin]
      dsimp only
      rw [if_neg hout, if_pos h2nd]

/-- Instance of C9 (amended): a Ctrl-click while a polygon is being drawn. -/
theorem addPointToPolyline_modifier_sets_rectangle_witness :
    (addPointToPolyline 10 20 false true true freshTool).m_state
      = POLYLINE ||| (STARTED ||| RUNNING) ∧
    (addPointToPolyline 30 40 true true true
      (addPointToPolyline 10 20 false true true freshTool)).m_state
      = RECTANGLE ||| (STARTED ||| RUNNING) ∧
    (addPointToPolyline 30 40 true true true
      (addPointToPolyline 10 20 false true true freshTool)).m_state &&& POLYLINE = 0 :=
  have h := (addPointToPolyline_modifier_sets_rectangle
    (addPointToPolyline 10 20 false true true freshTool) demoWindow 30 40 true true true rfl
    (by unfold insideView; decide) rfl).1 (by decide) (by unfold ignoredSecondClick; decide)
  ⟨rfl, h.1, h.2⟩

/-- A cleared contour is not closed. -/
lemma ClosedHasThree.of_open {s : Tool} (h : s.m_segmentationPoly.closed = false) :
    ClosedHasThree s := by
  intro hc
  rw [h] at hc
  exact absurd hc (by decide)

/-- The window link is untouched by `pauseSegmentationMode`. -/
lemma pauseSegmentationMode_win (b : Bool) (s : Tool) :
    (pauseSegmentationMode b s).m_associatedWin = s.m_associatedWin := by
  unfold pauseSegmentationMode allowPolylineExport
  split
  · rfl
  · split
    · dsimp only
      split <;> rfl
    · rfl

/-- The state after `pauseSegmentationMode` on a linked tool. -/
lemma pauseSegmentationMode_state (b : Bool) (s : Tool)
    (hw : s.m_associatedWin.isSome = true) :
    (pauseSegmentationMode b s).m_state = if b then PAUSED else STARTED := by
  obtain ⟨win, hwin⟩ := Option.isSome_iff_exists.mp hw
  unfold pauseSegmentationMode allowPolylineExport
  rw [hwin]
  cases b
  · rfl
  · dsimp only
    simp only [if_true]
    split <;> rfl

/-- The slot `pauseSegmentationMode` keeps the contour or clears it. -/
lemma pauseSegmentationMode_closed (b : Bool) (s : Tool) (h : ClosedHasThree s) :
    ClosedHasThree (pauseSegmentationMode b s) := by
  unfold pauseSegmentationMode allowPolylineExport
  split
  · exact h
  · split
    · dsimp only
      split
      · exact ClosedHasThree.of_open rfl
      · exact h
    · exact h

/-- The builder invariant holds after `pauseSegmentationMode` on a linked tool. -/
lemma BuilderInv.pause (b : Bool) (s : Tool) (hw : s.m_associatedWin.isSome = true)
    (hG : ClosedHasThree s) : BuilderInv (pauseSegmentationMode b s) := by
  have hw' : (pauseSegmentationMode b s).m_associatedWin.isSome = true := by
    rw [pauseSegmentationMode_win]; exact hw
  have hst := pauseSegmentationMode_state b s hw
  have hG' := pauseSegmentationMode_closed b s hG
  cases b
  · exact ⟨hw', hG', Or.inl hst⟩
  · exact ⟨hw', hG', Or.inr (Or.inl hst)⟩

/-- The slot `reset()` touches neither the window link nor the builder. -/
lemma reset_builder (s : Tool) :
    (reset s).m_associatedWin = s.m_associatedWin ∧ (reset s).m_state = s.m_state ∧
    (reset s).m_polyVertices = s.m_polyVertices ∧
    (reset s).m_segmentationPoly = s.m_segmentationPoly := by
  unfold reset
  split <;> exact ⟨rfl, rfl, rfl, rfl⟩

/-- The builder invariant holds right after `start()` on a linked tool. -/
lemma BuilderInv.start (s0 : Tool) (hw : s0.m_associatedWin.isSome = true) :
    BuilderInv (start s0) := by
  obtain ⟨win, hwin⟩ := Option.isSome_iff_exists.mp hw
  unfold CloudCompare.start
  rw [hwin]
  dsimp only
  refine ⟨?_, ?_, Or.inl ?_⟩
  · rw [(reset_builder _).1]
    dsimp only
    rw [pauseSegmentationMode_win]
    rfl
  · unfold ClosedHasThree
    rw [(reset_builder _).2.2.2]
    dsimp only
    exact pauseSegmentationMode_closed false _ (ClosedHasThree.of_open rfl)
  · rw [(reset_builder _).2.1]
    dsimp only
    exact pauseSegmentationMode_state false _ (by rfl)

/-- The builder invariant is preserved by `doSetPolylineSelection`. -/
lemma BuilderInv.doSetPolylineSelection (s : Tool) (h : BuilderInv s) :
    BuilderInv (doSetPolylineSelection s) := by
  unfold CloudCompare.doSetPolylineSelection
  split
  · exact h
  · dsimp only
    split
    · refine BuilderInv.pause false _ ?_ ?_
      · rw [pauseSegmentationMode_win]
        exact h.1
      · exact pauseSegmentationMode_closed true _ h.2.1
    · exact h

/-- The builder invariant is preserved by `doSetRectangularSelection`. -/
lemma BuilderInv.doSetRectangularSelection (s : Tool) (h : BuilderInv s) :
    BuilderInv (doSetRectangularSelection s) := by
  unfold CloudCompare.doSetRectangularSelection
  split
  · exact h
  · dsimp only
    split
    · refine BuilderInv.pause false _ ?_ ?_
      · rw [pauseSegmentationMode_win]
        exact h.1
      · exact pauseSegmentationMode_closed true _ h.2.1
    · exact h

/-- The builder invariant is preserved by `closeRectangle`. -/
lemma BuilderInv.closeRectangle (s : Tool) (h : BuilderInv s) :
    BuilderInv (closeRectangle s) := by
  obtain ⟨hw, hG, hst⟩ := h
  have hrest : (s.m_state &&& RECTANGLE = 0 ∨ s.m_state &&& RUNNING = 0) →
      BuilderInv (CloudCompare.closeRectangle s) := by
    intro hg
    unfold CloudCompare.closeRectangle
    rw [if_pos hg]
    exact ⟨hw, hG, hst⟩
  rcases hst with h1 | h1 | ⟨h1, hc⟩ | ⟨h1, hc⟩ | ⟨h1, hc⟩ | h1
  · exact hrest (by rw [h1]; decide)
  · exact hrest (by rw [h1]; decide)
  · have hg : ¬ (s.m_state &&& RECTANGLE = 0 ∨ s.m_state &&& RUNNING = 0) := by
      rw [h1]; decide
    have hclr : s.m_state &&& notRUNNING = RECTANGLE ||| STARTED := by rw [h1]; decide
    unfold CloudCompare.closeRectangle
    rw [if_neg hg]
    dsimp only [allowPolylineExport]
    split
    · split
      · exact ⟨hw, hG, Or.inr (Or.inr (Or.inl ⟨h1, hc⟩))⟩
      · exact ⟨hw, ClosedHasThree.of_open rfl,
          Or.inr (Or.inr (Or.inr (Or.inl ⟨hclr, Or.inl rfl⟩)))⟩
    · rename_i h4
      refine ⟨hw, hG, Or.inr (Or.inr (Or.inr (Or.inl ⟨hclr, Or.inr ?_⟩)))⟩
      rcases hc with ⟨_, hp⟩ | ⟨_, hp⟩
      · rw [hp] at h4; exact absurd (by decide) h4
      · rw [hp]; rfl
  · exact hrest (by rw [h1]; decide)
  · exact hrest (by rw [h1]; decide)
  · exact hrest (by rw [h1]; decide)

/-- The builder invariant is preserved by `closePolyLine`. -/
lemma BuilderInv.closePolyLine (s : Tool) (h : BuilderInv s) :
    BuilderInv (closePolyLine s) := by
  obtain ⟨hw, hG, hst⟩ := h
  have hrest : (s.m_state &&& POLYLINE = 0 ∨ s.m_state &&& RUNNING = 0) →
      BuilderInv (CloudCompare.closePolyLine s) := by
    intro hg
    unfold CloudCompare.closePolyLine
    rw [if_pos hg]
    exact ⟨hw, hG, hst⟩
  rcases hst with h1 | h1 | ⟨h1, hc⟩ | ⟨h1, hc⟩ | ⟨h1, hc⟩ | h1
  · exact hrest (by rw [h1]; decide)
  · exact hrest (by rw [h1]; decide)
  · exact hrest (by rw [h1]; decide)
  · exact hrest (by rw [h1]; decide)
  · have hg : ¬ (s.m_state &&& POLYLINE = 0 ∨ s.m_state &&& RUNNING = 0) := by
      rw [h1]; decide
    have hclr : s.m_state &&& notRUNNING = POLYLINE ||| STARTED := by rw [h1]; decide
    unfold CloudCompare.closePolyLine
    rw [if_neg hg]
    dsimp only [allowPolylineExport]
    split
    · exact ⟨hw, ClosedHasThree.of_open rfl,
        Or.inr (Or.inr (Or.inr (Or.inr (Or.inr hclr))))⟩
    · rename_i h4
      refine ⟨hw, ?_, Or.inr (Or.inr (Or.inr (Or.inr (Or.inr hclr))))⟩
      intro _
      simp only [ccPolyline.size, ccPolyline.resize, ccPolyline.setClosed, List.length_append,
        List.length_take, List.length_replicate] at h4 ⊢
      omega
  · exact hrest (by rw [h1]; decide)

/-- The builder invariant is preserved by `updatePolyLine`. -/
lemma BuilderInv.updatePolyLine (x y : ℤ) (s : Tool) (h : BuilderInv s) :
    BuilderInv (updatePolyLine x y true s) := by
  obtain ⟨hw, hG, hst⟩ := h
  obtain ⟨win, hwin⟩ := Option.isSome_iff_exists.mp hw
  have hrest : s.m_state &&& RUNNING = 0 →
      BuilderInv (CloudCompare.updatePolyLine x y true s) := by
    intro hg
    unfold CloudCompare.updatePolyLine
    rw [if_pos hg]
    exact ⟨hw, hG, hst⟩
  rcases hst with h1 | h1 | ⟨h1, hc⟩ | ⟨h1, hc⟩ | ⟨h1, hc⟩ | h1
  · exact hrest (by rw [h1]; decide)
  · exact hrest (by rw [h1]; decide)
  · have hrun : ¬ s.m_state &&& RUNNING = 0 := by rw [h1]; decide
    have hrect : s.m_state &&& RECTANGLE ≠ 0 := by rw [h1]; decide
    unfold CloudCompare.updatePolyLine
    rw [if_neg hrun, hwin]
    dsimp only
    rw [if_pos hrect]
    rcases hc with ⟨hl, hp⟩ | ⟨hl, hp⟩
    · have hne : s.m_polyVertices.length ≠ 4 := by omega
      simp only [hne, ne_eq, not_false_eq_true, if_true, Bool.not_true, Bool.false_eq_true,
        if_false]
      have h43 : (3 : ℕ) ≤ 4 := by decide
      refine ⟨rfl, fun _ => h43, Or.inr (Or.inr (Or.inl ⟨h1, Or.inr ⟨?_, ?_⟩⟩))⟩
      · simp [resizeVertices, hl]
      · rfl
    · simp only [hl, ne_eq, not_true_eq_false, if_false]
      refine ⟨rfl, hG, Or.inr (Or.inr (Or.inl ⟨h1, Or.inr ⟨?_, hp⟩⟩))⟩
      simp [hl]
  · exact hrest (by rw [h1]; decide)
  · have hrun : ¬ s.m_state &&& RUNNING = 0 := by rw [h1]; decide
    have hrect : ¬ s.m_state &&& RECTANGLE ≠ 0 := by rw [h1]; decide
    have hpoly : s.m_state &&& POLYLINE ≠ 0 := by rw [h1]; decide
    obtain ⟨hl, hsz⟩ := hc
    have hlt : ¬ s.m_polyVertices.length < 2 := by omega
    unfold CloudCompare.updatePolyLine
    rw [if_neg hrun, hwin]
    dsimp only
    rw [if_neg hrect, if_pos hpoly, if_neg hlt]
    refine ⟨rfl, hG, Or.inr (Or.inr (Or.inr (Or.inr (Or.inl ⟨h1, ?_, ?_⟩))))⟩
    · simp only [List.length_set]; exact hl
    · simp only [List.length_set]; exact hsz
  · exact hrest (by rw [h1]; decide)

/-- A freshly begun contour satisfies the builder invariant. -/
lemma BuilderInv.startNew (s : Tool) (hw : s.m_associatedWin.isSome = true) (c : Bool)
    (P : CCVector3) :
    BuilderInv { s with
      m_state := (if c = true then RECTANGLE else POLYLINE) ||| (STARTED ||| RUNNING),
      m_polyVertices := [P, P],
      m_segmentationPoly := ⟨[0, 1], false⟩ } := by
  cases c
  · exact ⟨hw, ClosedHasThree.of_open rfl,
      Or.inr (Or.inr (Or.inr (Or.inr (Or.inl ⟨rfl, by simp, rfl⟩))))⟩
  · exact ⟨hw, ClosedHasThree.of_open rfl,
      Or.inr (Or.inr (Or.inl ⟨rfl, Or.inl ⟨rfl, rfl⟩⟩))⟩

/-- The builder invariant is preserved by `addPointToPolyline`. -/
lemma BuilderInv.addPointToPolyline (x y : ℤ) (ctrl : Bool) (s : Tool) (h : BuilderInv s) :
    BuilderInv (addPointToPolyline x y ctrl true true s) := by
  obtain ⟨hw, hG, hst⟩ := h
  obtain ⟨win, hwin⟩ := Option.isSome_iff_exists.mp hw
  by_cases hstarted : s.m_state &&& STARTED = 0
  · unfold CloudCompare.addPointToPolyline addPointToPolylineAux
    rw [if_pos hstarted]
    exact ⟨hw, hG, hst⟩
  by_cases hin : insideView win x y
  swap
  · have hout : x < 0 ∨ y < 0 ∨ x ≥ win.qtWidth ∨ y ≥ win.qtHeight := by
      unfold insideView at hin
      omega
    unfold CloudCompare.addPointToPolyline addPointToPolylineAux
    rw [if_neg hstarted, hwin]
    dsimp only
    rw [if_pos hout]
    exact ⟨hw, hG, hst⟩
  have hout : ¬ (x < 0 ∨ y < 0 ∨ x ≥ win.qtWidth ∨ y ≥ win.qtHeight) := by
    unfold insideView at hin
    omega
  by_cases h2nd : ignoredSecondClick s
  · unfold ignoredSecondClick at h2nd
    unfold CloudCompare.addPointToPolyline addPointToPolylineAux
    rw [if_neg hstarted, hwin]
    dsimp only
    rw [if_neg hout, if_pos h2nd]
    exact ⟨hw, hG, hst⟩
  by_cases hnew : s.m_state &&& RUNNING = 0 ∨ s.m_polyVertices.length = 0 ∨
      (s.m_rectangularSelection || ctrl) = true
  · unfold CloudCompare.addPointToPolyline
    rw [addPointToPolylineAux_start 1 s win x y ctrl hwin hstarted hin h2nd hnew]
    exact BuilderInv.startNew s hw _ _
  have hrun : s.m_state &&& RUNNING ≠ 0 := fun h0 => hnew (Or.inl h0)
  have h2nd' := h2nd
  unfold ignoredSecondClick at h2nd'
  rcases hst with h1 | h1 | ⟨h1, hc⟩ | ⟨h1, hc⟩ | ⟨h1, hc⟩ | h1
  · exact absurd (by rw [h1]; decide) hrun
  · exact absurd (by rw [h1]; decide) hrun
  · have hpoly : ¬ s.m_state &&& POLYLINE ≠ 0 := by rw [h1]; decide
    have hclr : s.m_state &&& notRUNNING = RECTANGLE ||| STARTED := by rw [h1]; decide
    unfold CloudCompare.addPointToPolyline addPointToPolylineAux
    rw [if_neg hstarted, hwin]
    dsimp only
    rw [if_neg hout, if_neg h2nd', if_neg hnew, if_neg hpoly, hclr]
    have hs : ((RECTANGLE ||| STARTED) &&& STARTED ≠ 0) := by decide
    have hr : ((RECTANGLE ||| STARTED) &&& RUNNING = 0) := by decide
    rw [addPointToPolylineAux_start 0 _ win x y ctrl rfl hs hin
      (fun h => h.2.2 hr) (Or.inl hr)]
    exact BuilderInv.startNew _ (by rfl) _ _
  · exact absurd (by rw [h1]; decide) hrun
  · have hpoly : s.m_state &&& POLYLINE ≠ 0 := by rw [h1]; decide
    obtain ⟨hl, hsz⟩ := hc
    unfold CloudCompare.addPointToPolyline addPointToPolylineAux
    rw [if_neg hstarted, hwin]
    dsimp only
    rw [if_neg hout, if_neg h2nd', if_neg hnew, if_pos hpoly]
    simp only [Bool.not_true, Bool.false_eq_true, if_false]
    refine ⟨rfl, ?_, Or.inr (Or.inr (Or.inr (Or.inr (Or.inl ⟨h1, ?_, ?_⟩))))⟩
    · intro _
      simp only [ccPolyline.size, ccPolyline.addPointIndex, ccPolyline.setClosed,
        List.length_append, List.length_singleton] at hsz ⊢
      omega
    · simp only [List.length_append, List.length_set, List.length_singleton]; omega
    · simp only [ccPolyline.size, ccPolyline.addPointIndex, ccPolyline.setClosed,
        List.length_append, List.length_set, List.length_singleton] at hsz ⊢
      omega
  · exact absurd (by rw [h1]; decide) hrun

/-- The builder invariant is preserved by every contour-builder operation. -/
lemma BuilderInv.apply (op : BuilderOp) (s : Tool) (h : BuilderInv s) :
    BuilderInv (op.apply s) := by
  cases op with
  | addPointToPolyline x y ctrl => exact BuilderInv.addPointToPolyline x y ctrl s h
  | updatePolyLine x y => exact BuilderInv.updatePolyLine x y s h
  | closeRectangle => exact BuilderInv.closeRectangle s h
  | closePolyLine => exact BuilderInv.closePolyLine s h
  | pauseSegmentationMode b => exact BuilderInv.pause b s h.1 h.2.1
  | doSetPolylineSelection => exact BuilderInv.doSetPolylineSelection s h
  | doSetRectangularSelection => exact BuilderInv.doSetRectangularSelection s h

/-- The builder invariant holds along every sequence of contour-builder operations. -/
lemma BuilderInv.foldl (ops : List BuilderOp) :
    ∀ s : Tool, BuilderInv s → BuilderInv (ops.foldl (fun t op => op.apply t) s) := by
  induction ops with
  | nil => intro s h; exact h
  | cons op ops ih => intro s h; exact ih _ (BuilderInv.apply op s h)

/-- Every state reachable through the contour builder satisfies the builder invariant. -/
lemma BuilderInv.of_reachable {s : Tool} (h : ReachableByBuilder s) : BuilderInv s := by
  obtain ⟨s0, ops, hw, rfl⟩ := h
  exact BuilderInv.foldl ops _ (BuilderInv.start s0 hw)

/-- Contour sizes when no storage growth fails: in every state reachable from `start()`
through the contour-builder operations, each growth succeeding, a finalized rectangle contour
(Rectangle mode, not Running, contour non-empty) has exactly 4 vertices, and a contour marked
closed in Polygon mode has at least 3 vertices (a closed contour has at least 3 vertices
whatever the mode). -/
theorem builder_contour_sizes (s : Tool) (hreach : ReachableByBuilder s) :
    (s.m_state &&& RECTANGLE ≠ 0 → s.m_state &&& RUNNING = 0 → polyPoints s ≠ [] →
      (polyPoints s).length = 4) ∧
    (s.m_state &&& POLYLINE ≠ 0 → s.m_segmentationPoly.closed = true →
      3 ≤ (polyPoints s).length) ∧
    (s.m_segmentationPoly.closed = true → 3 ≤ (polyPoints s).length) := by
  obtain ⟨_, hG, hst⟩ := BuilderInv.of_reachable hreach
  rw [length_polyPoints]
  refine ⟨?_, fun _ h => hG h, hG⟩
  have hne : polyPoints s ≠ [] → s.m_segmentationPoly.size ≠ 0 := by
    intro h h0
    apply h
    rw [← List.length_eq_zero, length_polyPoints]
    exact h0
  rcases hst with h1 | h1 | ⟨h1, hc⟩ | ⟨h1, hc⟩ | ⟨h1, hc⟩ | h1
  · exact fun h => absurd (by rw [h1]; decide) h
  · exact fun h => absurd (by rw [h1]; decide) h
  · exact fun _ h => absurd h (by rw [h1]; decide)
  · intro _ _ h
    rcases hc with h0 | h4
    · exact absurd h0 (hne h)
    · exact h4
  · exact fun h => absurd (by rw [h1]; decide) h
  · exact fun h => absurd (by rw [h1]; decide) h

/-- The rectangle drawn by `rectangleRun` on a started tool is finalized with 4 vertices. -/
theorem builder_contour_sizes_witness :
    ReachableByBuilder (rectangleRun.foldl (fun t op => op.apply t) (start freshTool)) ∧
    (polyPoints (rectangleRun.foldl (fun t op => op.apply t) (start freshTool))).length = 4 :=
  have hreach : ReachableByBuilder
      (rectangleRun.foldl (fun t op => op.apply t) (start freshTool)) :=
    ⟨freshTool, rectangleRun, rfl, rfl⟩
  ⟨hreach, (builder_contour_sizes _ hreach).1 (by decide) (by decide) (by decide)⟩

/-- C10: the code at a failing input. After `start()`, five clicks in Polygon mode and a
right click leave a closed pentagon; a Ctrl-click whose `reserve(2)` fails switches the state
to Rectangle and Running and empties the vertex storage under the five references; the
button release then finalizes, in Rectangle mode, a contour of 5 vertices instead of 4 and
enables its export. -/
theorem failed_reserve_finalizes_stale_rectangle :
    (pentagonTool.m_state = POLYLINE ||| STARTED ∧
      pentagonTool.m_segmentationPoly = ⟨[0, 1, 2, 3, 4], true⟩ ∧
      pentagonTool.m_polyVertices.length = 6) ∧
    ((addPointToPolyline 100 100 true false true pentagonTool).m_state
        = RECTANGLE ||| (STARTED ||| RUNNING) ∧
      (addPointToPolyline 100 100 true false true pentagonTool).m_polyVertices = [] ∧
      (addPointToPolyline 100 100 true false true pentagonTool).m_segmentationPoly
        = ⟨[0, 1, 2, 3, 4], true⟩) ∧
    (staleRectangleTool.m_state = RECTANGLE ||| STARTED ∧
      staleRectangleTool.m_state &&& RECTANGLE ≠ 0 ∧
      staleRectangleTool.m_state &&& RUNNING = 0 ∧
      polyPoints staleRectangleTool ≠ [] ∧
      (polyPoints staleRectangleTool).length = 5 ∧
      staleRectangleTool.m_polyVertices = [] ∧
      staleRectangleTool.exportEnabled = true) :=
  ⟨⟨rfl, rfl, rfl⟩, ⟨rfl, rfl, rfl⟩, ⟨rfl, by decide, by decide, by decide, rfl, rfl, rfl⟩⟩

end Builder

section Lifecycle

/-- C11 fails when the vertex storage is empty while the polyline still holds references:
after a closed triangle and a click whose `reserve(2)` failed, `pauseSegmentationMode(true)`
sets the state to `PAUSED` and leaves the three references (and the closed flag) in place. -/
theorem pauseSegmentationMode_keeps_stale_indexes :
    failedReserveTool.m_associatedWin = some demoWindow ∧
    failedReserveTool.m_polyVertices = [] ∧
    failedReserveTool.m_segmentationPoly = ⟨[0, 1, 2], true⟩ ∧
    (pauseSegmentationMode true failedReserveTool).m_state = PAUSED ∧
    (pauseSegmentationMode true failedReserveTool).m_segmentationPoly.indexes = [0, 1, 2] ∧
    (pauseSegmentationMode true failedReserveTool).m_segmentationPoly.closed = true ∧
    polyPoints (pauseSegmentationMode true failedReserveTool) ≠ [] :=
  ⟨rfl, rfl, rfl, rfl, rfl, rfl, by decide⟩

/-- C11 (amended): with an associated window, `pauseSegmentationMode(true)` leaves the state
exactly `PAUSED` and the vertex storage empty; it clears the references and the closed flag
of the contour when the vertex storage was non-empty before the call, and leaves the
polyline as it was when the vertex storage was already empty. `pauseSegmentationMode(false)`
leaves the state exactly `STARTED` and the vertices, references and closed flag unchanged. -/
theorem pauseSegmentationMode_contract (s : Tool) (hwin : s.m_associatedWin.isSome = true) :
    ((pauseSegmentationMode true s).m_state = PAUSED ∧
     (pauseSegmentationMode true s).m_polyVertices = [] ∧
     (s.m_polyVertices ≠ [] → (pauseSegmentationMode true s).m_segmentationPoly = ⟨[], false⟩) ∧
     (s.m_polyVertices = [] →
       (pauseSegmentationMode true s).m_segmentationPoly = s.m_segmentationPoly)) ∧
    ((pauseSegmentationMode false s).m_state = STARTED ∧
     (pauseSegmentationMode false s).m_polyVertices = s.m_polyVertices ∧
     (pauseSegmentationMode false s).m_segmentationPoly = s.m_segmentationPoly) := by
  obtain ⟨win, hw⟩ := Option.isSome_iff_exists.mp hwin
  unfold pauseSegmentationMode allowPolylineExport
  rw [hw]
  by_cases hv : s.m_polyVertices = []
  · simp [hv]
  · have hl : s.m_polyVertices.length ≠ 0 := by
      rw [Ne, List.length_eq_zero]; exact hv
    simp [hv, hl, ccPolyline.clear]

/-- Instance of C11 (amended): pausing and un-pausing the tool that holds the square. -/
theorem pauseSegmentationMode_contract_witness :
    (pauseSegmentationMode true squareTool).m_state = PAUSED ∧
    (pauseSegmentationMode true squareTool).m_polyVertices = [] ∧
    (pauseSegmentationMode true squareTool).m_segmentationPoly = ⟨[], false⟩ ∧
    (pauseSegmentationMode false squareTool).m_state = STARTED ∧
    (pauseSegmentationMode false squareTool).m_segmentationPoly = ⟨[0, 1, 2, 3], true⟩ :=
  have h := pauseSegmentationMode_contract squareTool rfl
  ⟨h.1.1, h.1.2.1, h.1.2.2.1 (by decide), h.2.1, h.2.2.2⟩

/-- C13 fails: `reset()` on a tool holding a finalized rectangle (the square, or the
rectangle drawn by `rectangleRun` after `start()`), with or without pending changes, leaves
the 4 vertices in place and the contour closed. -/
theorem reset_keeps_contour_of_square :
    (reset squareTool).m_polyVertices = squareVertices ∧
    (reset squareTool).m_segmentationPoly = ⟨[0, 1, 2, 3], true⟩ ∧
    (polyPoints (reset squareTool)).length = 4 ∧
    (reset { squareTool with m_somethingHasChanged := true }).m_polyVertices.length = 4 ∧
    (reset { squareTool with m_somethingHasChanged := true }).m_segmentationPoly.closed = true ∧
    (polyPoints (reset (rectangleRun.foldl (fun t op => op.apply t) (start freshTool)))).length
      = 4 ∧
    (reset (rectangleRun.foldl (fun t op => op.apply t)
      (start freshTool))).m_segmentationPoly.closed = true :=
  ⟨rfl, rfl, rfl, rfl, rfl, rfl, rfl⟩

/-- C13 (amended): `reset()`, called from any state, leaves the contour as it was: the
vertex storage, the references, the closed flag and the builder state are unchanged (so the
contour is empty afterwards exactly when it was empty before). -/
theorem reset_leaves_contour (s : Tool) :
    (reset s).m_polyVertices = s.m_polyVertices ∧
    (reset s).m_segmentationPoly = s.m_segmentationPoly ∧
    polyPoints (reset s) = polyPoints s ∧
    (reset s).m_state = s.m_state := by
  unfold reset
  split <;> exact ⟨rfl, rfl, rfl, rfl⟩

/-- C14: idempotence of reset. For every tool state, `reset()` called twice in a row yields
exactly the state (visibility flags, change marker, contour, builder state) of one call. -/
theorem reset_idempotent (s : Tool) : reset (reset s) = reset s := by
  unfold reset
  split <;> simp_all

/-- C15 fails with an associated window: `segment(true)` on the closed square with no
registered point set reports nothing, but sets the change marker, forces the state to
`PAUSED` and clears the contour. -/
theorem segment_empty_selection_pauses :
    emptySelectionTool.m_toSegment = [] ∧
    emptySelectionTool.m_segmentationPoly.closed = true ∧
    emptySelectionTool.m_state = RECTANGLE ||| STARTED ∧
    emptySelectionTool.m_polyVertices.length = 4 ∧
    emptySelectionTool.m_somethingHasChanged = false ∧
    (segment true emptySelectionTool).m_state = PAUSED ∧
    (segment true emptySelectionTool).m_polyVertices = [] ∧
    (segment true emptySelectionTool).m_segmentationPoly.closed = false ∧
    (segment true emptySelectionTool).m_somethingHasChanged = true ∧
    (segment true emptySelectionTool).errorLog = [] :=
  ⟨rfl, rfl, rfl, rfl, rfl, rfl, rfl, rfl, rfl, rfl⟩

/-- C15 (amended): `segment(keepPointsInside)` called with zero registered point sets and a
closed contour reports no error and changes no visibility flag. Without an associated
window it changes nothing at all; with one it still sets the change marker, forces the state
to `PAUSED` and empties the vertex storage, clearing the contour whenever the vertex storage
was non-empty. -/
theorem segment_empty_selection (keepPointsInside : Bool) (s : Tool)
    (hempty : s.m_toSegment = []) (hclosed : s.m_segmentationPoly.closed = true) :
    (segment keepPointsInside s).m_toSegment = [] ∧
    (segment keepPointsInside s).errorLog = s.errorLog ∧
    (s.m_associatedWin = none → segment keepPointsInside s = s) ∧
    (s.m_associatedWin.isSome = true →
      (segment keepPointsInside s).m_somethingHasChanged = true ∧
      (segment keepPointsInside s).m_state = PAUSED ∧
      (segment keepPointsInside s).m_polyVertices = [] ∧
      (s.m_polyVertices ≠ [] → (segment keepPointsInside s).m_segmentationPoly = ⟨[], false⟩) ∧
      (s.m_polyVertices = [] →
        (segment keepPointsInside s).m_segmentationPoly = s.m_segmentationPoly)) := by
  unfold segment
  cases hwin : s.m_associatedWin with
  | none => simp [hempty]
  | some win =>
    simp only [hclosed, Bool.not_true, Bool.false_eq_true, if_false, hempty, List.map_nil]
    unfold pauseSegmentationMode allowPolylineExport
    simp only [hwin]
    by_cases hv : s.m_polyVertices = []
    · simp [hv]
    · have hl : s.m_polyVertices.length ≠ 0 := by
        rw [Ne, List.length_eq_zero]; exact hv
      simp [hv, hl, ccPolyline.clear]

/-- Instance of C15 (amended): `segment(true)` on the closed square with no point set. -/
theorem segment_empty_selection_witness :
    (segment true emptySelectionTool).m_toSegment = [] ∧
    (segment true emptySelectionTool).m_somethingHasChanged = true ∧
    (segment true emptySelectionTool).m_state = PAUSED ∧
    (segment true emptySelectionTool).m_segmentationPoly = ⟨[], false⟩ :=
  have h := segment_empty_selection true emptySelectionTool rfl rfl
  have h2 := h.2.2.2 rfl
  ⟨h.1, h2.1, h2.2.1, h2.2.2.2.1 (by decide)⟩

end Lifecycle

section StorageGrowth

/-- C16: the growth-failure paths of `addPointToPolyline` and `updatePolyLine`, evaluated.
None leaves the contour cleared: a failed `reserve(2)` over a closed triangle empties the
vertex storage under three live references; a failed `addPointIndex(0, 2)` leaves two vertices
and no reference; a failed `reserve(vertCount + 1)` leaves the contour in progress as it was;
a failed `addPointIndex(vertCount)` leaves four vertices under three references; a failed
`addPointIndex(0, 4)` leaves four vertices and no reference. The import path
`doActionUseExistingPolyline` clears the contour before it reserves, so its failure leaves the
contour cleared and the export disabled. -/
theorem growth_failure_leaves_partial_contour :
    (failedReserveTool.m_polyVertices = [] ∧
      failedReserveTool.m_segmentationPoly = ⟨[0, 1, 2], true⟩ ∧
      failedReserveTool.m_state = POLYLINE ||| (STARTED ||| RUNNING) ∧
      ¬ contourCleared failedReserveTool) ∧
    ((addPointToPolyline 10 20 false true false freshTool).m_polyVertices.length = 2 ∧
      (addPointToPolyline 10 20 false true false freshTool).m_segmentationPoly.indexes = [] ∧
      ¬ contourCleared (addPointToPolyline 10 20 false true false freshTool)) ∧
    ((addPointToPolyline 50 60 false false true twoClicksTool).m_polyVertices.length = 3 ∧
      (addPointToPolyline 50 60 false false true twoClicksTool).m_segmentationPoly
        = ⟨[0, 1, 2], true⟩ ∧
      ¬ contourCleared (addPointToPolyline 50 60 false false true twoClicksTool)) ∧
    ((addPointToPolyline 50 60 false true false twoClicksTool).m_polyVertices.length = 4 ∧
      (addPointToPolyline 50 60 false true false twoClicksTool).m_segmentationPoly.indexes
        = [0, 1, 2] ∧
      ¬ contourCleared (addPointToPolyline 50 60 false true false twoClicksTool)) ∧
    ((updatePolyLine 50 60 false rectangleBegunTool).m_polyVertices.length = 4 ∧
      (updatePolyLine 50 60 false rectangleBegunTool).m_segmentationPoly.indexes = [] ∧
      ¬ contourCleared (updatePolyLine 50 60 false rectangleBegunTool)) ∧
    (contourCleared (doActionUseExistingPolyline squareVertices ⟨[0, 1, 2, 3], true⟩ false
        false true squareTool) ∧
      (doActionUseExistingPolyline squareVertices ⟨[0, 1, 2, 3], true⟩ false
        false true squareTool).exportEnabled = false ∧
      (doActionUseExistingPolyline squareVertices ⟨[0, 1, 2, 3], true⟩ false
        false true squareTool).errorLog = ["Not enough memory!"]) :=
  ⟨⟨rfl, rfl, rfl, by decide⟩, ⟨rfl, rfl, by decide⟩, ⟨rfl, rfl, by decide⟩,
    ⟨rfl, rfl, by decide⟩, ⟨rfl, rfl, by decide⟩, ⟨by decide, rfl, rfl⟩⟩

end StorageGrowth

section Assertion

/-- Under its path condition `addPointToPolyline` takes the mode-change branch: it clears
`RUNNING` and calls itself again. -/
lemma addPointToPolylineAux_modeChange (fuel : ℕ) (x y : ℤ) (ctrl reserveOk addOk : Bool)
    (s : Tool) (h : reachesModeChangeBranch x y ctrl s) :
    addPointToPolylineAux (fuel + 1) x y ctrl reserveOk addOk s =
      addPointToPolylineAux fuel x y ctrl reserveOk addOk
        { s with m_state := s.m_state &&& notRUNNING } := by
  obtain ⟨hstarted, ⟨win, hwin, hin⟩, h2nd, hnew, hpoly⟩ := h
  have hout : ¬ (x < 0 ∨ y < 0 ∨ x ≥ win.qtWidth ∨ y ≥ win.qtHeight) := by
    unfold insideView at hin
    omega
  unfold ignoredSecondClick at h2nd
  conv_lhs => unfold addPointToPolylineAux
  rw [if_neg hstarted, hwin]
  dsimp only
  rw [if_neg hout, if_neg h2nd, if_neg hnew, if_neg hpoly]

/-- A state without the `RUNNING` bit is not the running-rectangle state. -/
lemma ne_running_rectangle (m : ℕ) (h : m &&& RUNNING = 0) :
    m ≠ RECTANGLE ||| (STARTED ||| RUNNING) := by
  intro he
  rw [he] at h
  exact absurd h (by decide)

/-- A state without the `RUNNING` bit owes no button release. -/
lemma pendingRelease_of_not_running (pressed : Bool) (s : Tool)
    (h : s.m_state &&& RUNNING = 0) : PendingRelease pressed s :=
  fun he _ => absurd he (ne_running_rectangle _ h)

/-- The pending release depends on the state and on the selection mode only. -/
lemma pendingRelease_of_same (pressed : Bool) (s t : Tool) (hs : t.m_state = s.m_state)
    (hr : t.m_rectangularSelection = s.m_rectangularSelection)
    (h : PendingRelease pressed s) : PendingRelease pressed t := by
  intro he hsel
  exact h (hs ▸ he) (hr ▸ hsel)

/-- The slot `updatePolyLine` changes neither the state nor the selection mode, whatever the
outcome of the growth. -/
lemma updatePolyLine_state (x y : ℤ) (b : Bool) (s : Tool) :
    (updatePolyLine x y b s).m_state = s.m_state ∧
    (updatePolyLine x y b s).m_rectangularSelection = s.m_rectangularSelection := by
  unfold updatePolyLine allowPolylineExport
  split
  · exact ⟨rfl, rfl⟩
  · split
    · exact ⟨rfl, rfl⟩
    · dsimp only
      split
      · split
        · split <;> exact ⟨rfl, rfl⟩
        · exact ⟨rfl, rfl⟩
      · split
        · split <;> exact ⟨rfl, rfl⟩
        · exact ⟨rfl, rfl⟩

/-- The selection mode is untouched by `pauseSegmentationMode`. -/
lemma pauseSegmentationMode_sel (b : Bool) (s : Tool) :
    (pauseSegmentationMode b s).m_rectangularSelection = s.m_rectangularSelection := by
  unfold pauseSegmentationMode allowPolylineExport
  split
  · rfl
  · split
    · dsimp only
      split <;> rfl
    · rfl

/-- After `pauseSegmentationMode` on a linked tool no rectangle is running. -/
lemma pendingRelease_pause (pressed b : Bool) (s : Tool)
    (hw : s.m_associatedWin.isSome = true) :
    PendingRelease pressed (pauseSegmentationMode b s) := by
  apply pendingRelease_of_not_running
  rw [pauseSegmentationMode_state b s hw]
  cases b <;> decide

/-- The slot `closePolyLine` begins no rectangle. -/
lemma pendingRelease_closePolyLine (pressed : Bool) (s : Tool) (h : PendingRelease pressed s) :
    PendingRelease pressed (closePolyLine s) := by
  unfold CloudCompare.closePolyLine
  split
  · exact h
  · apply pendingRelease_of_not_running
    dsimp only [allowPolylineExport]
    exact land_notRUNNING_running _

/-- After `closeRectangle` a rectangle is still running only under rectangular selection. -/
lemma pendingRelease_closeRectangle (s : Tool) : PendingRelease false (closeRectangle s) := by
  unfold CloudCompare.closeRectangle
  split
  · rename_i hg
    rcases hg with hg | hg
    · intro he _
      rw [he] at hg
      exact absurd hg (by decide)
    · exact pendingRelease_of_not_running _ _ hg
  · dsimp only [allowPolylineExport]
    split
    · split
      · rename_i hsel
        intro _ hf
        rw [hf] at hsel
        exact absurd hsel (by decide)
      · exact pendingRelease_of_not_running _ _ (land_notRUNNING_running _)
    · exact pendingRelease_of_not_running _ _ (land_notRUNNING_running _)

/-- Leaving rectangular selection stops a running rectangle. -/
lemma pendingRelease_doSetPolylineSelection (pressed : Bool) (s : Tool)
    (hw : s.m_associatedWin.isSome = true) (h : PendingRelease pressed s) :
    PendingRelease pressed (doSetPolylineSelection s) := by
  unfold CloudCompare.doSetPolylineSelection
  split
  · exact h
  · dsimp only
    split
    · apply pendingRelease_pause
      rw [pauseSegmentationMode_win]
      exact hw
    · rename_i hp
      apply pendingRelease_of_not_running
      have : s.m_state = PAUSED := by
        by_contra hne
        exact hp hne
      dsimp only
      rw [this]
      decide

/-- Entering rectangular selection leaves no rectangle begun with the modifier key. -/
lemma pendingRelease_doSetRectangularSelection (pressed : Bool) (s : Tool)
    (h : PendingRelease pressed s) :
    PendingRelease pressed (doSetRectangularSelection s) := by
  unfold CloudCompare.doSetRectangularSelection
  split
  · exact h
  · dsimp only
    split
    · intro _ hsel
      rw [pauseSegmentationMode_sel, pauseSegmentationMode_sel] at hsel
      exact absurd (show true = false from hsel) (by decide)
    · intro _ hsel
      exact absurd (show true = false from hsel) (by decide)

/-- The state right after `start()` on a linked tool. -/
lemma start_state (s0 : Tool) (hw : s0.m_associatedWin.isSome = true) :
    (start s0).m_state = STARTED := by
  obtain ⟨win, hwin⟩ := Option.isSome_iff_exists.mp hw
  unfold CloudCompare.start
  rw [hwin]
  dsimp only
  rw [(reset_builder _).2.1]
  dsimp only
  exact pauseSegmentationMode_state false _ (by rfl)

/-- The builder invariant and the button discipline are kept by one operation. -/
lemma released_step (op : BuilderOp) (ops : List BuilderOp) (pressed : Bool) (s : Tool)
    (hinv : BuilderInv s) (hp : PendingRelease pressed s)
    (hrel : ReleasedBetweenClicks pressed (op :: ops)) :
    ∃ pressed', PendingRelease pressed' (op.apply s) ∧ ReleasedBetweenClicks pressed' ops := by
  cases op with
  | addPointToPolyline x y ctrl => exact ⟨true, fun _ _ => rfl, hrel.2⟩
  | updatePolyLine x y =>
    exact ⟨pressed, pendingRelease_of_same _ s _ (updatePolyLine_state x y true s).1
      (updatePolyLine_state x y true s).2 hp, hrel⟩
  | closeRectangle => exact ⟨false, pendingRelease_closeRectangle s, hrel⟩
  | closePolyLine => exact ⟨pressed, pendingRelease_closePolyLine _ s hp, hrel⟩
  | pauseSegmentationMode b => exact ⟨pressed, pendingRelease_pause _ b s hinv.1, hrel⟩
  | doSetPolylineSelection =>
    exact ⟨pressed, pendingRelease_doSetPolylineSelection _ s hinv.1 hp, hrel⟩
  | doSetRectangularSelection =>
    exact ⟨pressed, pendingRelease_doSetRectangularSelection _ s hp, hrel⟩

/-- While the button is up, a state of the builder that is running on a non-empty contour
with no rectangle modifier in effect has the `POLYLINE` bit. -/
lemma polyline_bit_of_released (s : Tool) (ctrl : Bool) (hinv : BuilderInv s)
    (hp : PendingRelease false s) (hrun : s.m_state &&& RUNNING ≠ 0)
    (hmod : (s.m_rectangularSelection || ctrl) = false) : s.m_state &&& POLYLINE ≠ 0 := by
  have hsel : s.m_rectangularSelection = false := by
    cases h : s.m_rectangularSelection
    · rfl
    · rw [h] at hmod
      simp at hmod
  rcases hinv.2.2 with h1 | h1 | ⟨h1, _⟩ | ⟨h1, _⟩ | ⟨h1, _⟩ | h1
  · exact absurd (by rw [h1]; decide) hrun
  · exact absurd (by rw [h1]; decide) hrun
  · exact absurd (hp h1 hsel) (by decide)
  · exact absurd (by rw [h1]; decide) hrun
  · rw [h1]; decide
  · exact absurd (by rw [h1]; decide) hrun

/-- Along a sequence of operations that keeps the button discipline, the click that follows
finds the `POLYLINE` bit whenever it finds the builder running with no modifier. -/
lemma released_run (ops : List BuilderOp) (x y : ℤ) (ctrl : Bool) :
    ∀ (pressed : Bool) (s : Tool), BuilderInv s → PendingRelease pressed s →
      ReleasedBetweenClicks pressed (ops ++ [.addPointToPolyline x y ctrl]) →
      (ops.foldl (fun t op => op.apply t) s).m_state &&& RUNNING ≠ 0 →
      ((ops.foldl (fun t op => op.apply t) s).m_rectangularSelection || ctrl) = false →
      (ops.foldl (fun t op => op.apply t) s).m_state &&& POLYLINE ≠ 0 := by
  induction ops with
  | nil =>
    intro pressed s hinv hp hrel hrun hmod
    have hup : pressed = false := hrel.1
    subst hup
    exact polyline_bit_of_released s ctrl hinv hp hrun hmod
  | cons op ops ih =>
    intro pressed s hinv hp hrel
    obtain ⟨pressed', hp', hrel'⟩ := released_step op _ pressed s hinv hp hrel
    exact ih pressed' _ (BuilderInv.apply op s hinv) hp' hrel'

/-- The extent of the assertion: in every state reached from `start()` (on a linked tool)
through a sequence of contour-builder operations, each growth succeeding, in which every
click (`addPointToPolyline`) is followed by a button release (`closeRectangle`) before the
next click, a click does not reach the mode-change branch guarded by `assert(false)`:
whenever it arrives while the builder is Running with a non-empty contour and no rectangle
modifier in effect, the state has the `POLYLINE` bit. -/
theorem no_mode_change_between_releases (s0 : Tool) (hwin : s0.m_associatedWin.isSome = true)
    (ops : List BuilderOp) (x y : ℤ) (ctrlModifier : Bool)
    (hrel : ReleasedBetweenClicks false (ops ++ [.addPointToPolyline x y ctrlModifier])) :
    ((ops.foldl (fun t op => op.apply t) (start s0)).m_state &&& RUNNING ≠ 0 →
      (ops.foldl (fun t op => op.apply t) (start s0)).m_polyVertices ≠ [] →
      ((ops.foldl (fun t op => op.apply t) (start s0)).m_rectangularSelection
        || ctrlModifier) = false →
      (ops.foldl (fun t op => op.apply t) (start s0)).m_state &&& POLYLINE ≠ 0) ∧
    ¬ reachesModeChangeBranch x y ctrlModifier
      (ops.foldl (fun t op => op.apply t) (start s0)) := by
  have hstart : PendingRelease false (start s0) :=
    pendingRelease_of_not_running _ _ (by rw [start_state s0 hwin]; decide)
  have key := released_run ops x y ctrlModifier false (start s0)
    (BuilderInv.start s0 hwin) hstart hrel
  refine ⟨fun hrun _ hmod => key hrun hmod, ?_⟩
  rintro ⟨_, _, _, hnew, hpoly⟩
  have hrun : (ops.foldl (fun t op => op.apply t) (start s0)).m_state &&& RUNNING ≠ 0 :=
    fun h0 => hnew (Or.inl h0)
  have hmod : ((ops.foldl (fun t op => op.apply t) (start s0)).m_rectangularSelection
      || ctrlModifier) = false := by
    cases h : ((ops.foldl (fun t op => op.apply t) (start s0)).m_rectangularSelection
      || ctrlModifier)
    · rfl
    · exact absurd (Or.inr (Or.inr h)) hnew
  exact hpoly (key hrun hmod)

/-- A click, its release and a pointer move in Polygon mode, then a second click: it arrives
while the builder is Running on a contour of two vertices with no modifier, and finds the
`POLYLINE` bit. -/
theorem no_mode_change_between_releases_witness :
    ReleasedBetweenClicks false
      ([BuilderOp.addPointToPolyline 10 20 false, .closeRectangle, .updatePolyLine 20 30]
        ++ [.addPointToPolyline 30 40 false]) ∧
    ([BuilderOp.addPointToPolyline 10 20 false, .closeRectangle, .updatePolyLine 20 30].foldl
      (fun t op => op.apply t) (start freshTool)).m_state &&& RUNNING ≠ 0 ∧
    ([BuilderOp.addPointToPolyline 10 20 false, .closeRectangle, .updatePolyLine 20 30].foldl
      (fun t op => op.apply t) (start freshTool)).m_polyVertices.length = 2 ∧
    ([BuilderOp.addPointToPolyline 10 20 false, .closeRectangle, .updatePolyLine 20 30].foldl
      (fun t op => op.apply t) (start freshTool)).m_state &&& POLYLINE ≠ 0 ∧
    ¬ reachesModeChangeBranch 30 40 false
      ([BuilderOp.addPointToPolyline 10 20 false, .closeRectangle, .updatePolyLine 20 30].foldl
        (fun t op => op.apply t) (start freshTool)) :=
  have hrel : ReleasedBetweenClicks false
      ([BuilderOp.addPointToPolyline 10 20 false, .closeRectangle, .updatePolyLine 20 30]
        ++ [.addPointToPolyline 30 40 false]) :=
    ⟨rfl, rfl, trivial⟩
  have h := no_mode_change_between_releases freshTool rfl
    [BuilderOp.addPointToPolyline 10 20 false, .closeRectangle, .updatePolyLine 20 30]
    30 40 false hrel
  ⟨hrel, by decide, rfl, h.1 (by decide) (by decide) rfl, h.2⟩

/-- C17: the code at a failing input. After `start()` and a Ctrl-click the builder runs a
rectangle of two vertices with rectangular selection off; a plain click inside the view,
arriving before any button release, passes every guard of `addPointToPolyline` down to the
mode-change branch guarded by `assert(false)`: the state is Running, the contour is not
empty, no rectangle modifier is in effect and the `POLYLINE` bit is clear. The code after
the assertion clears `RUNNING`, calls the slot again and begins a polygon at the new point. -/
theorem click_after_click_reaches_mode_change :
    ReachableByBuilder
      ([BuilderOp.addPointToPolyline 10 20 true].foldl (fun t op => op.apply t)
        (start freshTool)) ∧
    ([BuilderOp.addPointToPolyline 10 20 true].foldl (fun t op => op.apply t)
        (start freshTool)).m_state = RECTANGLE ||| (STARTED ||| RUNNING) ∧
    ([BuilderOp.addPointToPolyline 10 20 true].foldl (fun t op => op.apply t)
        (start freshTool)).m_state &&& RUNNING ≠ 0 ∧
    ([BuilderOp.addPointToPolyline 10 20 true].foldl (fun t op => op.apply t)
        (start freshTool)).m_polyVertices.length = 2 ∧
    ([BuilderOp.addPointToPolyline 10 20 true].foldl (fun t op => op.apply t)
        (start freshTool)).m_rectangularSelection = false ∧
    ([BuilderOp.addPointToPolyline 10 20 true].foldl (fun t op => op.apply t)
        (start freshTool)).m_state &&& POLYLINE = 0 ∧
    reachesModeChangeBranch 30 40 false
      ([BuilderOp.addPointToPolyline 10 20 true].foldl (fun t op => op.apply t)
        (start freshTool)) ∧
    (addPointToPolyline 30 40 false true true
      ([BuilderOp.addPointToPolyline 10 20 true].foldl (fun t op => op.apply t)
        (start freshTool))).m_state = POLYLINE ||| (STARTED ||| RUNNING) ∧
    (addPointToPolyline 30 40 false true true
      ([BuilderOp.addPointToPolyline 10 20 true].foldl (fun t op => op.apply t)
        (start freshTool))).m_polyVertices
      = [toPoint demoWindow 30 40, toPoint demoWindow 30 40] :=
  ⟨⟨freshTool, [BuilderOp.addPointToPolyline 10 20 true], rfl, rfl⟩, rfl, by decide, rfl, rfl,
    by decide,
    ⟨by decide, ⟨demoWindow, rfl, by unfold insideView; decide⟩,
      by unfold ignoredSecondClick; decide, by decide, by decide⟩, rfl, rfl⟩

end Assertion

section Reset

/-- A table restored by `resetVisibilityArray` holds Visible flags only. -/
lemma resetVisibilityArray_visible (c : ccGenericPointCloud) :
    ∀ v ∈ c.resetVisibilityArray.visibilityArray, v = POINT_VISIBLE := by
  intro v hv
  exact List.eq_of_mem_replicate hv

/-- Registering point sets whose flags are all Visible keeps all flags Visible. -/
lemma allVisible_append (s : Tool) (added : List ccGenericPointCloud)
    (hs : AllVisible s) (ha : ∀ c ∈ added, ∀ v ∈ c.visibilityArray, v = POINT_VISIBLE) :
    AllVisible { s with m_toSegment := s.m_toSegment ++ added } := by
  intro c hc
  rcases List.mem_append.mp hc with h | h
  · exact hs c h
  · exact ha c h

mutual
/-- The method `addEntity` only appends point sets whose flags were restored to Visible. -/
theorem addEntity_appends : ∀ (e : ccHObject) (s : Tool),
    ∃ added : List ccGenericPointCloud,
      (addEntity e s).1 = { s with m_toSegment := s.m_toSegment ++ added } ∧
      ∀ c ∈ added, ∀ v ∈ c.visibilityArray, v = POINT_VISIBLE
  | .pointCloud cloud isMeshVertices children, s => by
    unfold addEntity
    split
    · exact ⟨[], by simp, by simp⟩
    · obtain ⟨added, h1, h2⟩ := addEntities_appends children
        { s with m_toSegment := s.m_toSegment ++ [cloud.resetVisibilityArray] }
      refine ⟨cloud.resetVisibilityArray :: added, ?_, ?_⟩
      · rw [h1]
        simp
      · intro c hc
        rcases List.mem_cons.mp hc with rfl | h
        · exact resetVisibilityArray_visible cloud
        · exact h2 c h
  | .mesh associatedCloud isPrimitive isSubMesh mixedWithSelection, s => by
    unfold addEntity
    split
    · exact ⟨[], by simp, by simp⟩
    · split
      · exact ⟨[], by simp, by simp⟩
      · split
        · exact ⟨[], by simp, by simp⟩
        · refine ⟨[associatedCloud.resetVisibilityArray], rfl, ?_⟩
          intro c hc
          rw [List.mem_singleton] at hc
          subst hc
          exact resetVisibilityArray_visible associatedCloud
  | .hierarchyObject children, s => by
    unfold addEntity
    exact addEntities_appends children s
  | .other, s => by
    unfold addEntity
    exact ⟨[], by simp, by simp⟩
/-- The loop over the children only appends point sets whose flags are all Visible. -/
theorem addEntities_appends : ∀ (es : List ccHObject) (s : Tool),
    ∃ added : List ccGenericPointCloud,
      (addEntities es s).1 = { s with m_toSegment := s.m_toSegment ++ added } ∧
      ∀ c ∈ added, ∀ v ∈ c.visibilityArray, v = POINT_VISIBLE
  | [], s => by
    unfold addEntities
    exact ⟨[], by simp, by simp⟩
  | e :: es, s => by
    unfold addEntities
    obtain ⟨a1, h1, h2⟩ := addEntity_appends e s
    obtain ⟨a2, h3, h4⟩ := addEntities_appends es (addEntity e s).1
    refine ⟨a1 ++ a2, ?_, ?_⟩
    · dsimp only
      rw [h3, h1]
      simp
    · intro c hc
      rcases List.mem_append.mp hc with h | h
      · exact h2 c h
      · exact h4 c h
end

/-- The slot `addPointToPolyline` touches neither the registered point sets nor the change
marker, whatever the outcome of the growths. -/
lemma addPointToPolylineAux_frame (fuel : ℕ) (x y : ℤ) (c r a : Bool) :
    ∀ s : Tool,
      (addPointToPolylineAux fuel x y c r a s).m_toSegment = s.m_toSegment ∧
      (addPointToPolylineAux fuel x y c r a s).m_somethingHasChanged
        = s.m_somethingHasChanged := by
  induction fuel with
  | zero => intro s; exact ⟨rfl, rfl⟩
  | succ fuel ih =>
    intro s
    unfold addPointToPolylineAux allowPolylineExport
    split
    · exact ⟨rfl, rfl⟩
    split
    · exact ⟨rfl, rfl⟩
    dsimp only
    split
    · exact ⟨rfl, rfl⟩
    split
    · exact ⟨rfl, rfl⟩
    split
    · split
      · exact ⟨rfl, rfl⟩
      · split <;> exact ⟨rfl, rfl⟩
    · split
      · split
        · exact ⟨rfl, rfl⟩
        · split <;> exact ⟨rfl, rfl⟩
      · exact ih _

/-- The slot `updatePolyLine` touches neither the registered point sets nor the marker. -/
lemma updatePolyLine_frame (x y : ℤ) (b : Bool) (s : Tool) :
    (updatePolyLine x y b s).m_toSegment = s.m_toSegment ∧
    (updatePolyLine x y b s).m_somethingHasChanged = s.m_somethingHasChanged := by
  unfold updatePolyLine allowPolylineExport
  split
  · exact ⟨rfl, rfl⟩
  · split
    · exact ⟨rfl, rfl⟩
    · dsimp only
      split
      · split
        · split <;> exact ⟨rfl, rfl⟩
        · exact ⟨rfl, rfl⟩
      · split
        · split <;> exact ⟨rfl, rfl⟩
        · exact ⟨rfl, rfl⟩

/-- The slot `closeRectangle` touches neither the registered point sets nor the marker. -/
lemma closeRectangle_frame (s : Tool) :
    (closeRectangle s).m_toSegment = s.m_toSegment ∧
    (closeRectangle s).m_somethingHasChanged = s.m_somethingHasChanged := by
  unfold closeRectangle allowPolylineExport
  split
  · exact ⟨rfl, rfl⟩
  · dsimp only
    split
    · split <;> exact ⟨rfl, rfl⟩
    · exact ⟨rfl, rfl⟩

/-- The slot `closePolyLine` touches neither the registered point sets nor the marker. -/
lemma closePolyLine_frame (s : Tool) :
    (closePolyLine s).m_toSegment = s.m_toSegment ∧
    (closePolyLine s).m_somethingHasChanged = s.m_somethingHasChanged := by
  unfold closePolyLine allowPolylineExport
  split
  · exact ⟨rfl, rfl⟩
  · dsimp only
    split <;> exact ⟨rfl, rfl⟩

/-- The slot `pauseSegmentationMode` touches neither the registered point sets nor the
marker. -/
lemma pauseSegmentationMode_frame (b : Bool) (s : Tool) :
    (pauseSegmentationMode b s).m_toSegment = s.m_toSegment ∧
    (pauseSegmentationMode b s).m_somethingHasChanged = s.m_somethingHasChanged := by
  unfold pauseSegmentationMode allowPolylineExport
  split
  · exact ⟨rfl, rfl⟩
  · split
    · dsimp only
      split <;> exact ⟨rfl, rfl⟩
    · exact ⟨rfl, rfl⟩

/-- The slot `doSetPolylineSelection` touches neither the registered point sets nor the
marker. -/
lemma doSetPolylineSelection_frame (s : Tool) :
    (doSetPolylineSelection s).m_toSegment = s.m_toSegment ∧
    (doSetPolylineSelection s).m_somethingHasChanged = s.m_somethingHasChanged := by
  unfold doSetPolylineSelection
  split
  · exact ⟨rfl, rfl⟩
  · dsimp only
    split
    · constructor
      · rw [(pauseSegmentationMode_frame _ _).1, (pauseSegmentationMode_frame _ _).1]
      · rw [(pauseSegmentationMode_frame _ _).2, (pauseSegmentationMode_frame _ _).2]
    · exact ⟨rfl, rfl⟩

/-- The slot `doSetRectangularSelection` touches neither the registered point sets nor the
marker. -/
lemma doSetRectangularSelection_frame (s : Tool) :
    (doSetRectangularSelection s).m_toSegment = s.m_toSegment ∧
    (doSetRectangularSelection s).m_somethingHasChanged = s.m_somethingHasChanged := by
  unfold doSetRectangularSelection
  split
  · exact ⟨rfl, rfl⟩
  · dsimp only
    split
    · constructor
      · rw [(pauseSegmentationMode_frame _ _).1, (pauseSegmentationMode_frame _ _).1]
      · rw [(pauseSegmentationMode_frame _ _).2, (pauseSegmentationMode_frame _ _).2]
    · exact ⟨rfl, rfl⟩

/-- The slot `segment` either sets the change marker or leaves the registered point sets and
the marker alone. -/
lemma segment_marker (keep : Bool) (s : Tool) :
    (segment keep s).m_somethingHasChanged = true ∨
    ((segment keep s).m_toSegment = s.m_toSegment ∧
     (segment keep s).m_somethingHasChanged = s.m_somethingHasChanged) := by
  unfold segment
  split
  · exact Or.inr ⟨rfl, rfl⟩
  · split
    · exact Or.inr ⟨rfl, rfl⟩
    · left
      rw [(pauseSegmentationMode_frame _ _).2]

/-- The slot `start()` never touches the visibility flags: its call of `reset()` comes after
the change marker was cleared. -/
lemma start_toSegment (s : Tool) : (start s).m_toSegment = s.m_toSegment := by
  unfold start reset allowPolylineExport
  split
  · rfl
  · dsimp only
    rw [if_neg (by simp)]
    rw [(pauseSegmentationMode_frame _ _).1]

/-- The change marker after `start()`: cleared on a linked tool, untouched otherwise. -/
lemma start_marker (s : Tool) :
    (start s).m_somethingHasChanged = false ∨
    (start s).m_somethingHasChanged = s.m_somethingHasChanged := by
  unfold start reset allowPolylineExport
  split
  · exact Or.inr rfl
  · left
    dsimp only
    rw [if_neg (by simp)]

/-- After `reset()` the change marker is clear. -/
lemma reset_marker (s : Tool) : (reset s).m_somethingHasChanged = false := by
  unfold reset
  split
  · rfl
  · rename_i h
    simpa using h

/-- After `reset()` on a tool whose marker covers its hidden flags, every flag is Visible. -/
lemma allVisible_reset (s : Tool) (h : MarkerCoversHidden s) : AllVisible (reset s) := by
  unfold CloudCompare.reset
  split
  · intro c hc v hv
    obtain ⟨c0, _, rfl⟩ := List.mem_map.mp hc
    exact resetVisibilityArray_visible c0 v hv
  · rename_i hm
    exact h (by simpa using hm)

/-- An operation that touches neither the point sets nor the marker keeps the coverage. -/
lemma markerCoversHidden_of_frame (s t : Tool)
    (hf : t.m_toSegment = s.m_toSegment ∧ t.m_somethingHasChanged = s.m_somethingHasChanged)
    (h : MarkerCoversHidden s) : MarkerCoversHidden t := by
  intro hm c hc
  rw [hf.1] at hc
  exact h (hf.2 ▸ hm) c hc

/-- Every operation keeps the coverage, `start()` when it is called with the marker clear. -/
lemma markerCoversHidden_apply (op : ToolOp) (s : Tool) (h : MarkerCoversHidden s)
    (hstart : op = .start → s.m_somethingHasChanged = false) :
    MarkerCoversHidden (op.apply s) := by
  cases op with
  | addEntity entity =>
    obtain ⟨added, h1, h2⟩ := addEntity_appends entity s
    intro hm
    show AllVisible (addEntity entity s).1
    have hm' : (addEntity entity s).1.m_somethingHasChanged = false := hm
    rw [h1] at hm' ⊢
    exact allVisible_append s added (h hm') h2
  | start =>
    intro _ c hc
    have hc' : c ∈ (CloudCompare.start s).m_toSegment := hc
    rw [start_toSegment] at hc'
    exact h (hstart rfl) c hc'
  | segmentIn =>
    rcases segment_marker true s with h1 | h1
    · intro hm
      have hm' : (segment true s).m_somethingHasChanged = false := hm
      rw [h1] at hm'
      exact absurd hm' (by decide)
    · exact markerCoversHidden_of_frame s _ h1 h
  | segmentOut =>
    rcases segment_marker false s with h1 | h1
    · intro hm
      have hm' : (segment false s).m_somethingHasChanged = false := hm
      rw [h1] at hm'
      exact absurd hm' (by decide)
    · exact markerCoversHidden_of_frame s _ h1 h
  | pauseSegmentationMode b =>
    exact markerCoversHidden_of_frame s _ (pauseSegmentationMode_frame b s) h
  | addPointToPolyline x y c r a =>
    exact markerCoversHidden_of_frame s _ (addPointToPolylineAux_frame 2 x y c r a s) h
  | updatePolyLine x y a =>
    exact markerCoversHidden_of_frame s _ (updatePolyLine_frame x y a s) h
  | closeRectangle => exact markerCoversHidden_of_frame s _ (closeRectangle_frame s) h
  | closePolyLine => exact markerCoversHidden_of_frame s _ (closePolyLine_frame s) h
  | doSetPolylineSelection =>
    exact markerCoversHidden_of_frame s _ (doSetPolylineSelection_frame s) h
  | doSetRectangularSelection =>
    exact markerCoversHidden_of_frame s _ (doSetRectangularSelection_frame s) h
  | reset =>
    intro _
    exact allVisible_reset s h

/-- The coverage holds along every sequence of operations in which `start()` is called only
with the marker clear. -/
lemma markerCoversHidden_runOps (ops : List ToolOp) :
    ∀ s : Tool, MarkerCoversHidden s → StartsClean ops s →
      MarkerCoversHidden (runOps ops s) := by
  induction ops with
  | nil => intro s h _; exact h
  | cons op ops ih =>
    intro s h hclean
    exact ih _ (markerCoversHidden_apply op s h hclean.1) hclean.2

/-- The slot `reset()` changes nothing when the change marker is clear. -/
lemma reset_of_clear (s : Tool) (h : s.m_somethingHasChanged = false) : reset s = s := by
  unfold reset
  rw [h]
  rfl

/-- A Hidden flag contradicts `AllVisible`. -/
lemma not_allVisible_of_hidden (s : Tool) (c i : ℕ) (h : hasFlag s c i POINT_HIDDEN) :
    ¬ AllVisible s := by
  obtain ⟨cloud, hc, hv⟩ := h
  intro hall
  have hmem : cloud ∈ s.m_toSegment := List.getElem?_mem hc
  have hvm : POINT_HIDDEN ∈ cloud.visibilityArray := List.getElem?_mem hv
  exact absurd (hall cloud hmem _ hvm) (by decide)

/-- The contour drawn by `drawnRun`: the square of half-side 10 about the screen centre. -/
lemma polyPoints_drawnRun :
    polyPoints (runOps drawnRun (constructedTool (some demoWindow))) =
      [⟨-10, -10, 0⟩, ⟨-10, 10, 0⟩, ⟨10, 10, 0⟩, ⟨10, -10, 0⟩] := by
  have h : polyPoints (runOps drawnRun (constructedTool (some demoWindow))) =
      rectangleOf (toPoint demoWindow 190 160) (toPoint demoWindow 210 140) := rfl
  rw [h]
  simp [rectangleOf, toPoint, demoWindow]
  norm_num

/-- The point `(100, 100, 0)` falls out of the drawn square. -/
lemma isPointInsidePoly_drawn_far :
    isPointInsidePoly ⟨100, 100⟩
      [⟨-10, -10, 0⟩, ⟨-10, 10, 0⟩, ⟨10, 10, 0⟩, ⟨10, -10, 0⟩] = false := by
  decide

/-- Running two sequences of operations in a row. -/
lemma runOps_append (l1 l2 : List ToolOp) (s : Tool) :
    runOps (l1 ++ l2) s = runOps l2 (runOps l1 s) := by
  unfold runOps
  rw [List.foldl_append]

/-- The slot `segment` sets the change marker on a linked tool with a closed contour. -/
lemma segment_marker_set (keep : Bool) (s : Tool) (hw : s.m_associatedWin.isSome = true)
    (hclosed : s.m_segmentationPoly.closed = true) :
    (segment keep s).m_somethingHasChanged = true := by
  obtain ⟨win, hwin⟩ := Option.isSome_iff_exists.mp hw
  unfold segment
  rw [hwin]
  simp only [hclosed, Bool.not_true, Bool.false_eq_true, if_false]
  rw [(pauseSegmentationMode_frame _ _).2]

/-- The window link is untouched by `segment`. -/
lemma segment_win (keep : Bool) (s : Tool) :
    (segment keep s).m_associatedWin = s.m_associatedWin := by
  unfold segment
  split
  · rfl
  · split
    · rfl
    · rw [pauseSegmentationMode_win]

/-- On a linked tool `start()` clears the change marker. -/
lemma start_marker_linked (s : Tool) (hw : s.m_associatedWin.isSome = true) :
    (start s).m_somethingHasChanged = false := by
  obtain ⟨win, hwin⟩ := Option.isSome_iff_exists.mp hw
  unfold start reset allowPolylineExport
  rw [hwin]
  dsimp only
  rw [if_neg (by simp)]

/-- The session `segmentRun` ends with `segment(true)` on the drawn rectangle. -/
lemma runOps_segmentRun :
    runOps segmentRun (constructedTool (some demoWindow)) =
      segment true (runOps drawnRun (constructedTool (some demoWindow))) := by
  unfold segmentRun
  rw [runOps_append]
  rfl

/-- The session `restartRun` ends with `start()` after `segmentRun`. -/
lemma runOps_restartRun :
    runOps restartRun (constructedTool (some demoWindow)) =
      start (runOps segmentRun (constructedTool (some demoWindow))) := by
  unfold restartRun
  rw [runOps_append]
  rfl

/-- After `segmentRun` the point `(100, 100, 0)` of `demoCloud` is Hidden. -/
lemma segmentRun_hides :
    hasFlag (runOps segmentRun (constructedTool (some demoWindow))) 0 1 POINT_HIDDEN := by
  have h := segment_hasFlag_of_visible true
    (runOps drawnRun (constructedTool (some demoWindow))) demoWindow rfl rfl 0 1 demoCloud rfl
    (by decide) rfl
  have hp : pointInsideSpec demoWindow.getGLCameraParameters
      (polyPoints (runOps drawnRun (constructedTool (some demoWindow))))
      (demoCloud.points[1]) = false := by
    rw [polyPoints_drawnRun]
    unfold pointInsideSpec
    have hr : recentredProjection demoWindow.getGLCameraParameters (demoCloud.points[1]) =
        ⟨100, 100⟩ := by
      simp [recentredProjection, demoWindow, orthoCamera, demoCloud]
      norm_num
    rw [hr, isPointInsidePoly_drawn_far]
    simp
  rw [hp] at h
  rw [runOps_segmentRun]
  exact h

/-- The change marker is set after `segmentRun`. -/
lemma segmentRun_marker :
    (runOps segmentRun (constructedTool (some demoWindow))).m_somethingHasChanged = true := by
  rw [runOps_segmentRun]
  exact segment_marker_set true _ rfl rfl

/-- The change marker is clear after `restartRun`. -/
lemma restartRun_marker :
    (runOps restartRun (constructedTool (some demoWindow))).m_somethingHasChanged = false := by
  rw [runOps_restartRun]
  apply start_marker_linked
  rw [runOps_segmentRun, segment_win]
  rfl

/-- C12 fails when `start()` is called while a classification is pending: after `segmentIn`
has hidden a point, `start()` clears the change marker without restoring the flags, and
`reset()` then leaves the point Hidden. -/
theorem restart_leaves_hidden_flag :
    hasFlag (runOps segmentRun (constructedTool (some demoWindow))) 0 1 POINT_HIDDEN ∧
    (runOps segmentRun (constructedTool (some demoWindow))).m_somethingHasChanged = true ∧
    (runOps restartRun (constructedTool (some demoWindow))).m_somethingHasChanged = false ∧
    hasFlag (reset (runOps restartRun (constructedTool (some demoWindow)))) 0 1 POINT_HIDDEN ∧
    ¬ AllVisible (reset (runOps restartRun (constructedTool (some demoWindow)))) := by
  have hseg : (reset (runOps restartRun (constructedTool (some demoWindow)))).m_toSegment
      = (runOps segmentRun (constructedTool (some demoWindow))).m_toSegment := by
    rw [reset_of_clear _ restartRun_marker, runOps_restartRun]
    exact start_toSegment _
  have hflag : hasFlag (reset (runOps restartRun (constructedTool (some demoWindow)))) 0 1
      POINT_HIDDEN := by
    unfold hasFlag
    rw [hseg]
    exact segmentRun_hides
  exact ⟨segmentRun_hides, segmentRun_marker, restartRun_marker, hflag,
    not_allVisible_of_hidden _ 0 1 hflag⟩

/-- C12 (amended): in every state reached from the constructed tool through the tool's
operations (`addEntity`, `start`, `segmentIn`, `segmentOut`, `pauseSegmentationMode`, contour
building, `reset`, every outcome of the storage growths) in which `start()` is never called
while the change marker is set, after `reset()` every visibility flag of every registered
point set is Visible (and the change marker is clear). -/
theorem reset_restores_visibility (win : Option ccGLWindow) (ops : List ToolOp)
    (hclean : StartsClean ops (constructedTool win)) :
    AllVisible (reset (runOps ops (constructedTool win))) ∧
    (reset (runOps ops (constructedTool win))).m_somethingHasChanged = false := by
  have h0 : MarkerCoversHidden (constructedTool win) := by
    intro _ c hc
    exact absurd hc (List.not_mem_nil c)
  exact ⟨allVisible_reset _ (markerCoversHidden_runOps ops _ h0 hclean), reset_marker _⟩

/-- The session `segmentRun` calls `start()` once, before any classification. -/
lemma startsClean_segmentRun : StartsClean segmentRun (constructedTool (some demoWindow)) := by
  unfold segmentRun drawnRun
  exact ⟨(fun h => nomatch h), (fun _ => rfl), (fun h => nomatch h), (fun h => nomatch h),
    (fun h => nomatch h), (fun h => nomatch h), trivial⟩

/-- Instance of C12 (amended): after `segmentRun` has hidden a point of `demoCloud`,
`reset()` restores every flag. -/
theorem reset_restores_visibility_witness :
    StartsClean segmentRun (constructedTool (some demoWindow)) ∧
    hasFlag (runOps segmentRun (constructedTool (some demoWindow))) 0 1 POINT_HIDDEN ∧
    AllVisible (reset (runOps segmentRun (constructedTool (some demoWindow)))) :=
  ⟨startsClean_segmentRun, segmentRun_hides,
    (reset_restores_visibility (some demoWindow) segmentRun startsClean_segmentRun).1⟩

end Reset

end CloudCompare
